import Mathlib

/-!
Configuration evaluation engine of the Terraform form UI.

A shallow embedding of `src/ui/frontend/src/utils/conditions.js`,
`validation.js` and `compute.js`.

Modelling conventions.

* A JavaScript string is a `List Char` (`Str`).  `String.prototype.length`
  counts UTF-16 code units and is modelled by `jsLength`.
* A JavaScript number is `JSNum`: `NaN`, the two infinities, or a finite
  decimal fraction `m / 10 ^ e` held exactly.  Every binary64 value is such
  a fraction.  Rounding to binary64 and the sign of zero are not modelled.
* 32-bit integer operators work on `Int` with explicit reduction modulo
  `2 ^ 32`, and reduce their shift count modulo 32 as the language does.
* A configuration is a total function from field names to values; an absent
  key reads as `undefined`.  Properties inherited from `Object.prototype`
  are not modelled.
* `toLowerCase` is modelled on ASCII letters; other characters are left
  unchanged.
-/

namespace TfUi

/-- A JavaScript string as its sequence of characters. -/
abbrev Str := List Char

/-! ## Character classes of the regular expressions -/

/-- Line terminators: the characters that `.` does not match. -/
def isLineTerminator (c : Char) : Bool :=
  c.toNat == 0x0A || c.toNat == 0x0D || c.toNat == 0x2028 || c.toNat == 0x2029

/-- The class `\s`, which is also what `String.prototype.trim` removes:
white space and line terminators. -/
def isSpace (c : Char) : Bool :=
  c.toNat == 0x09 || c.toNat == 0x0A || c.toNat == 0x0B || c.toNat == 0x0C ||
  c.toNat == 0x0D || c.toNat == 0x20 || c.toNat == 0xA0 || c.toNat == 0x1680 ||
  (0x2000 ≤ c.toNat && c.toNat ≤ 0x200A) ||
  c.toNat == 0x2028 || c.toNat == 0x2029 || c.toNat == 0x202F ||
  c.toNat == 0x205F || c.toNat == 0x3000 || c.toNat == 0xFEFF

/-- The class `\d`. -/
def isDigit (c : Char) : Bool :=
  0x30 ≤ c.toNat && c.toNat ≤ 0x39

/-- The class `\w`: ASCII letters, digits and the underscore. -/
def isWord (c : Char) : Bool :=
  (0x41 ≤ c.toNat && c.toNat ≤ 0x5A) || (0x61 ≤ c.toNat && c.toNat ≤ 0x7A) ||
  isDigit c || c.toNat == 0x5F

/-- The class `[a-z]` under the `i` flag: an ASCII letter. -/
def isAsciiLetter (c : Char) : Bool :=
  (0x41 ≤ c.toNat && c.toNat ≤ 0x5A) || (0x61 ≤ c.toNat && c.toNat ≤ 0x7A)

/-! ## String primitives -/

/-- `String.prototype.length`: the number of UTF-16 code units. -/
def jsLength (s : Str) : Nat :=
  (s.map fun c => if c.toNat < 0x10000 then 1 else 2).sum

/-- `String.prototype.trim`. -/
def jsTrim (s : Str) : Str :=
  ((s.dropWhile isSpace).reverse.dropWhile isSpace).reverse

/-- `String.prototype.toLowerCase`, on ASCII letters. -/
def jsToLowerCase (s : Str) : Str :=
  s.map fun c => if 0x41 ≤ c.toNat && c.toNat ≤ 0x5A then Char.ofNat (c.toNat + 32) else c

/-- `s.split(c)` for a one-character separator `c`. -/
def splitChar (c : Char) : Str → List Str
  | [] => [[]]
  | x :: rest =>
    if x = c then [] :: splitChar c rest
    else
      match splitChar c rest with
      | [] => [[x]]
      | p :: ps => (x :: p) :: ps

/-- `s.split(ab)` for a two-character separator `ab`: the separator is
searched from the left, and the search resumes after each occurrence. -/
def split2 (a b : Char) : Str → List Str
  | [] => [[]]
  | [x] => [[x]]
  | x :: y :: rest =>
    if x = a ∧ y = b then [] :: split2 a b rest
    else
      match split2 a b (y :: rest) with
      | [] => [[x]]
      | p :: ps => (x :: p) :: ps

/-- `xs.join(sep)`. -/
def jsJoin (sep : Str) : List Str → Str
  | [] => []
  | [x] => x
  | x :: y :: rest => x ++ sep ++ jsJoin sep (y :: rest)

/-- `s.startsWith(c)` for a one-character `c`. -/
def startsWithChar (c : Char) (s : Str) : Bool :=
  match s with
  | [] => false
  | x :: _ => x == c

/-- `s.endsWith(c)` for a one-character `c`. -/
def endsWithChar (c : Char) (s : Str) : Bool :=
  startsWithChar c s.reverse

/-- `s.slice(1, -1)`. -/
def sliceInner (s : Str) : Str :=
  (s.drop 1).dropLast

/-! ## Numbers -/

/-- A JavaScript number: `NaN`, an infinity (`neg` tells its sign), or the
finite value `m / 10 ^ e`. -/
inductive JSNum
  | nan
  | inf (neg : Bool)
  | fin (m : Int) (e : Nat)
deriving DecidableEq, Repr

namespace JSNum

/-- The number denoted by an integer. -/
def ofInt (i : Int) : JSNum := fin i 0

/-- Whether the number is `NaN`. -/
def isNaN : JSNum → Bool
  | nan => true
  | _ => false

/-- The relation `a < b` on numbers; `false` when either side is `NaN`. -/
def lt : JSNum → JSNum → Bool
  | fin m e, fin n f => decide (m * 10 ^ f < n * 10 ^ e)
  | fin _ _, inf neg => !neg
  | inf neg, fin _ _ => neg
  | inf a, inf b => a && !b
  | _, _ => false

/-- The relation `a > b`, which the language evaluates as `b < a`. -/
def gt (a b : JSNum) : Bool := lt b a

/-- The relation `a <= b`: `false` when either side is `NaN`, otherwise the
negation of `b < a`. -/
def le (a b : JSNum) : Bool := !a.isNaN && !b.isNaN && !lt b a

/-- The relation `a >= b`: `false` when either side is `NaN`, otherwise the
negation of `a < b`. -/
def ge (a b : JSNum) : Bool := !a.isNaN && !b.isNaN && !lt a b

/-- Strict equality `a === b` of two numbers. -/
def eq : JSNum → JSNum → Bool
  | fin m e, fin n f => decide (m * 10 ^ f = n * 10 ^ e)
  | inf a, inf b => a == b
  | _, _ => false

/-- Unary minus. -/
def neg : JSNum → JSNum
  | nan => nan
  | inf b => inf !b
  | fin m e => fin (-m) e

/-- The sum `a + b` of two numbers. -/
def add : JSNum → JSNum → JSNum
  | fin m e, fin n f => fin (m * 10 ^ (max e f - e) + n * 10 ^ (max e f - f)) (max e f)
  | fin _ _, inf b => inf b
  | inf a, fin _ _ => inf a
  | inf a, inf b => if a = b then inf a else nan
  | _, _ => nan

/-- The difference `a - b` of two numbers. -/
def sub (a b : JSNum) : JSNum := add a (neg b)

/-- The product `a * b` of two numbers. -/
def mul : JSNum → JSNum → JSNum
  | fin m e, fin n f => fin (m * n) (e + f)
  | fin m _, inf b => if m = 0 then nan else inf (decide (m < 0) != b)
  | inf a, fin n _ => if n = 0 then nan else inf (a != decide (n < 0))
  | inf a, inf b => inf (a != b)
  | _, _ => nan

/-- `Math.min(a, b)`. -/
def min (a b : JSNum) : JSNum :=
  if a.isNaN || b.isNaN then nan else if lt b a then b else a

/-- The integer part of a finite value, rounding towards zero; zero for
`NaN` and the infinities. -/
def trunc : JSNum → Int
  | fin m e => Int.tdiv m (10 ^ e)
  | _ => 0

/-- The abstract operation `ToUint32`, as an integer in `[0, 2^32)`. -/
def toUint32 (a : JSNum) : Int := a.trunc % 2 ^ 32

/-- The abstract operation `ToInt32`, as an integer in `[-2^31, 2^31)`. -/
def toInt32 (a : JSNum) : Int :=
  if a.toUint32 < 2 ^ 31 then a.toUint32 else a.toUint32 - 2 ^ 32

/-- The shift count of `<<`, `>>` and `>>>`: the low five bits of the right
operand. -/
def shiftCount (b : JSNum) : Nat := (b.toUint32 % 32).toNat

/-- The operator `a << b`. -/
def shl (a b : JSNum) : JSNum :=
  ofInt (toInt32 (ofInt (a.toInt32 * 2 ^ shiftCount b)))

/-- The sign-propagating operator `a >> b`. -/
def sar (a b : JSNum) : JSNum :=
  ofInt (a.toInt32 / 2 ^ shiftCount b)

/-- The zero-filling operator `a >>> b`. -/
def shr (a b : JSNum) : JSNum :=
  ofInt (a.toUint32 / 2 ^ shiftCount b)

/-- The operator `a & b`. -/
def band (a b : JSNum) : JSNum :=
  ofInt (toInt32 (ofInt (Nat.land a.toUint32.toNat b.toUint32.toNat)))

/-- The operator `~a`. -/
def bnot (a : JSNum) : JSNum :=
  ofInt (-a.toInt32 - 1)

/-- Whether a finite value `m / 10 ^ e` is an integer. -/
def finIsInt (m : Int) (e : Nat) : Bool := decide (m % 10 ^ e = 0)

/-- `Math.pow(2, x)`.  It is `none` at a finite non-integer `x`, where the
result is an irrational number rounded to binary64, which this embedding
does not represent. -/
def pow2 : JSNum → Option JSNum
  | nan => some nan
  | inf false => some (inf false)
  | inf true => some (fin 0 0)
  | fin m e =>
    if finIsInt m e then
      let k := m / 10 ^ e
      if 0 ≤ k then some (fin (2 ^ k.toNat) 0)
      else some (fin (5 ^ (-k).toNat) (-k).toNat)
    else none

end JSNum

/-! ## Conversions between numbers and strings -/

/-- The value of a digit character in a radix up to 16, if it is one. -/
def digitValue (c : Char) : Option Nat :=
  if 0x30 ≤ c.toNat && c.toNat ≤ 0x39 then some (c.toNat - 0x30)
  else if 0x61 ≤ c.toNat && c.toNat ≤ 0x66 then some (c.toNat - 0x61 + 10)
  else if 0x41 ≤ c.toNat && c.toNat ≤ 0x46 then some (c.toNat - 0x41 + 10)
  else none

/-- Whether `c` is a digit of the radix `r`. -/
def isRadixDigit (r : Nat) (c : Char) : Bool :=
  match digitValue c with
  | some v => decide (v < r)
  | none => false

/-- The value of a digit string in radix `r`, most significant digit first. -/
def radixValue (r : Nat) (ds : Str) : Nat :=
  ds.foldl (fun acc c => r * acc + (digitValue c).getD 0) 0

/-- The decimal digits of a natural number. -/
def natToStr (n : Nat) : Str := Nat.toDigits 10 n

/-- The decimal rendering of an integer. -/
def intToStr (i : Int) : Str :=
  if i < 0 then '-' :: natToStr i.natAbs else natToStr i.natAbs

/-- The number of zeros that end a digit string. -/
def trailingZeros (ds : Str) : Nat :=
  (ds.reverse.takeWhile (· == '0')).length

/-- `Number::toString` for the positive value `a / 10 ^ e`. -/
def finToStr (a e : Nat) : Str :=
  let all := natToStr a
  let ds := all.take (all.length - trailingZeros all)
  let k : Int := ds.length
  let n : Int := (all.length : Int) - e
  if k ≤ n ∧ n ≤ 21 then ds ++ List.replicate (n - k).toNat '0'
  else if 0 < n ∧ n ≤ 21 then ds.take n.toNat ++ '.' :: ds.drop n.toNat
  else if -6 < n ∧ n ≤ 0 then '0' :: '.' :: List.replicate (-n).toNat '0' ++ ds
  else
    let ex := (if n - 1 < 0 then '-' else '+') :: natToStr (n - 1).natAbs
    if ds.length = 1 then ds ++ 'e' :: ex
    else ds.take 1 ++ '.' :: ds.drop 1 ++ 'e' :: ex

/-- `Number::toString`: the string form of a number. -/
def numToStr : JSNum → Str
  | .nan => "NaN".toList
  | .inf false => "Infinity".toList
  | .inf true => "-Infinity".toList
  | .fin m e =>
    if m = 0 then ['0']
    else if m < 0 then '-' :: finToStr m.natAbs e
    else finToStr m.natAbs e

/-- The exponent part of a decimal literal, after its `e`: an optional sign
and at least one digit, up to the end of the string. -/
def parseExponent : Str → Option Int
  | '+' :: ds => if ds ≠ [] ∧ ds.all isDigit then some (radixValue 10 ds) else none
  | '-' :: ds => if ds ≠ [] ∧ ds.all isDigit then some (-(radixValue 10 ds : Int)) else none
  | ds => if ds ≠ [] ∧ ds.all isDigit then some (radixValue 10 ds) else none

/-- The production `StrUnsignedDecimalLiteral`: `Infinity`, or digits with
an optional fraction and an optional exponent. -/
def parseUnsignedDecimal (s : Str) : Option JSNum :=
  if s = "Infinity".toList then some (.inf false)
  else
    let ip := s.takeWhile isDigit
    let r1 := s.dropWhile isDigit
    let fp := match r1 with
      | '.' :: t => t.takeWhile isDigit
      | _ => []
    let r2 := match r1 with
      | '.' :: t => t.dropWhile isDigit
      | _ => r1
    if ip = [] ∧ fp = [] then none
    else
      let ex : Option Int := match r2 with
        | [] => some 0
        | c :: t => if c = 'e' ∨ c = 'E' then parseExponent t else none
      match ex with
      | none => none
      | some x =>
        let v : Int := radixValue 10 (ip ++ fp)
        if (fp.length : Int) ≤ x then some (.fin (v * 10 ^ (x - fp.length).toNat) 0)
        else some (.fin v ((fp.length : Int) - x).toNat)

/-- The production `NonDecimalIntegerLiteral`: `0x`, `0o` or `0b` and at
least one digit of that radix, up to the end of the string. -/
def parseNonDecimal (s : Str) : Option JSNum :=
  match s with
  | '0' :: c :: ds =>
    let r : Nat :=
      if c = 'x' ∨ c = 'X' then 16
      else if c = 'o' ∨ c = 'O' then 8
      else if c = 'b' ∨ c = 'B' then 2
      else 0
    if r ≠ 0 ∧ ds ≠ [] ∧ ds.all (isRadixDigit r) then some (.ofInt (radixValue r ds))
    else none
  | _ => none

/-- The abstract operation `StringToNumber`: what `Number(s)` is for a
string `s`. -/
def strToNum (s : Str) : JSNum :=
  let t := jsTrim s
  if t = [] then .ofInt 0
  else
    match parseNonDecimal t with
    | some n => n
    | none =>
      match t with
      | '+' :: r => (parseUnsignedDecimal r).getD .nan
      | '-' :: r => ((parseUnsignedDecimal r).map JSNum.neg).getD .nan
      | _ => (parseUnsignedDecimal t).getD .nan

/-- The function `parseInt(s, radix)` on a string.  With `hexPrefix` (no
radix argument) a leading `0x` selects radix 16; with radix 10 given it does
not. -/
def parseIntStr (hexPrefix : Bool) (s : Str) : JSNum :=
  let t := s.dropWhile isSpace
  let neg := startsWithChar '-' t
  let u := if startsWithChar '-' t || startsWithChar '+' t then t.drop 1 else t
  let hex := hexPrefix &&
    (u.take 2 == ['0', 'x'] || u.take 2 == ['0', 'X'])
  let r : Nat := if hex then 16 else 10
  let ds := (if hex then u.drop 2 else u).takeWhile (isRadixDigit r)
  if ds = [] then .nan
  else if neg then .ofInt (-(radixValue r ds : Int))
  else .ofInt (radixValue r ds)

/-! ## Values and configurations -/

/-- A value held by a configuration: absent (`undefined`), `null`, a
boolean, a number, a string, or a list of strings.  A list carries the
identity `ref` of its array object, which is what `===` compares. -/
inductive Value
  | undefined
  | null
  | bool (b : Bool)
  | num (n : JSNum)
  | str (s : Str)
  | list (ref : Nat) (items : List Str)
deriving DecidableEq, Repr

/-- The configuration map: `config[name]`, with `undefined` for an absent
key. -/
abbrev Config := Str → Value

namespace Value

/-- The abstract operation `ToString`; a list is joined with commas. -/
def toStr : Value → Str
  | undefined => "undefined".toList
  | null => "null".toList
  | bool true => "true".toList
  | bool false => "false".toList
  | num n => numToStr n
  | str s => s
  | list _ items => jsJoin [','] items

/-- The abstract operation `ToNumber`; a list is converted through its
string form. -/
def toNumber : Value → JSNum
  | undefined => .nan
  | null => .ofInt 0
  | bool true => .ofInt 1
  | bool false => .ofInt 0
  | num n => n
  | str s => strToNum s
  | list _ items => strToNum (jsJoin [','] items)

/-- The abstract operation `ToBoolean`: `undefined`, `null`, `false`, zero,
`NaN` and the empty string are false, everything else is true. -/
def truthy : Value → Bool
  | undefined => false
  | null => false
  | bool b => b
  | num .nan => false
  | num (.inf _) => true
  | num (.fin m _) => decide (m ≠ 0)
  | str s => decide (s ≠ [])
  | list _ _ => true

/-- Whether a value is unset in the sense of the explicit tests
`v !== undefined && v !== null && v !== ''`. -/
def isUnset : Value → Bool
  | undefined => true
  | null => true
  | str [] => true
  | _ => false

end Value

/-! ## `conditions.js` -/

/-- The suffix `\s*(.+)$` of the atom patterns, on the text `t` that follows
the operator.  The greedy `\s*` first takes all leading white space and gives
it back one character at a time until `(.+)$` matches what is left: a
non-empty text without line terminators.  The result is the capture of
`(.+)`. -/
def captureValue (t : Str) : Option Str :=
  (List.range ((t.takeWhile isSpace).length + 1)).reverse.findSome? fun j =>
    let c := t.drop j
    if c ≠ [] ∧ c.all (fun x => !isLineTerminator x) then some c else none

/-- The match of `^(\w+)\s*OP\s*(.+)$` against `condition`, as the pair of
its two captures.  `(\w+)` takes the longest run of word characters and
`\s*` the longest run of white space after it: a shorter run would be
followed by a word or space character, where the operator cannot start. -/
def matchOp (op : Str) (condition : Str) : Option (Str × Str) :=
  let field := condition.takeWhile isWord
  let r := (condition.dropWhile isWord).dropWhile isSpace
  if field ≠ [] ∧ op.isPrefixOf r then
    (captureValue (r.drop op.length)).map fun v => (field, v)
  else none

/-- The test `/^-?\d+(\.\d+)?$/` of `parseValue`. -/
def isDecimalLiteral (s : Str) : Bool :=
  let u := if startsWithChar '-' s then s.drop 1 else s
  let ip := u.takeWhile isDigit
  let r := u.dropWhile isDigit
  decide (ip ≠ []) &&
    match r with
    | [] => true
    | c :: fp => c == '.' && decide (fp ≠ []) && fp.all isDigit

/-- The function `parseValue`: the literal of an atom as a boolean, a number
or a string. -/
def parseValue (valueStr : Str) : Value :=
  let trimmed := jsTrim valueStr
  if trimmed = "true".toList then .bool true
  else if trimmed = "false".toList then .bool false
  else if isDecimalLiteral trimmed then .num (strToNum trimmed)
  else if (startsWithChar '"' trimmed && endsWithChar '"' trimmed) ||
      (startsWithChar (Char.ofNat 0x27) trimmed && endsWithChar (Char.ofNat 0x27) trimmed) then
    .str (sliceInner trimmed)
  else .str trimmed

/-- The function `compareValues`. -/
def compareValues (actual expected : Value) : Bool :=
  match expected with
  | .bool b => actual.truthy == b
  | .num n => JSNum.eq actual.toNumber n
  | _ => jsToLowerCase actual.toStr == jsToLowerCase expected.toStr

/-- The function `evaluateSingleCondition`: the six patterns are tried in
the order `>=`, `<=`, `>`, `<`, `!=`, `==`, and an atom that matches none is
the name of a field tested for truthiness. -/
def evaluateSingleCondition (condition : Str) (config : Config) : Bool :=
  match matchOp ">=".toList condition with
  | some (fieldName, expectedValue) =>
    JSNum.ge (config fieldName).toNumber (parseValue expectedValue).toNumber
  | none =>
  match matchOp "<=".toList condition with
  | some (fieldName, expectedValue) =>
    JSNum.le (config fieldName).toNumber (parseValue expectedValue).toNumber
  | none =>
  match matchOp ">".toList condition with
  | some (fieldName, expectedValue) =>
    JSNum.gt (config fieldName).toNumber (parseValue expectedValue).toNumber
  | none =>
  match matchOp "<".toList condition with
  | some (fieldName, expectedValue) =>
    JSNum.lt (config fieldName).toNumber (parseValue expectedValue).toNumber
  | none =>
  match matchOp "!=".toList condition with
  | some (fieldName, expectedValue) =>
    !compareValues (config fieldName) (parseValue expectedValue)
  | none =>
  match matchOp "==".toList condition with
  | some (fieldName, expectedValue) =>
    compareValues (config fieldName) (parseValue expectedValue)
  | none => (config (jsTrim condition)).truthy

/-- The function `evaluateCondition`.  A falsy expression (absent, empty)
is `true`.  A truthy expression that is not a string has no `split` method:
the `TypeError` is caught and the result is `false`. -/
def evaluateCondition (expression : Value) (config : Config) : Bool :=
  if !expression.truthy then true
  else
    match expression with
    | .str s =>
      ((split2 '|' '|' s).map jsTrim).any fun orPart =>
        ((split2 '&' '&' orPart).map jsTrim).all fun part =>
          evaluateSingleCondition part config
    | _ => false

/-- A configuration given by a list of entries; the first entry of a name
is its value. -/
def Config.ofList (entries : List (Str × Value)) : Config :=
  fun name => ((entries.find? fun kv => kv.1 == name).map Prod.snd).getD .undefined

/-! ## `validation.js` -/

/-- The runtime failure of a call: a `TypeError` that nothing catches. -/
inductive JSError
  | typeError
deriving DecidableEq, Repr

deriving instance DecidableEq for Except

/-- Strict equality `a === b` of two values. -/
def strictEq : Value → Value → Bool
  | .undefined, .undefined => true
  | .null, .null => true
  | .bool a, .bool b => a == b
  | .num a, .num b => JSNum.eq a b
  | .str a, .str b => a == b
  | .list r _, .list q _ => r == q
  | _, _ => false

/-- One `[0-9]{1,3}` of the CIDR pattern followed by the character `sep`:
the text after them, if they are there.  The digits are the longest run of
digits, which must have one to three members. -/
def eatOctet (sep : Char) (s : Str) : Option Str :=
  let ds := s.takeWhile isDigit
  match s.dropWhile isDigit with
  | c :: rest => if 1 ≤ ds.length ∧ ds.length ≤ 3 ∧ c = sep then some rest else none
  | [] => none

/-- The end `([0-9]|[1-2][0-9]|3[0-2])$` of the CIDR pattern. -/
def isPrefixLength (s : Str) : Bool :=
  match s with
  | [d] => isDigit d
  | [c, d] => ((c == '1' || c == '2') && isDigit d) ||
      (c == '3' && (d == '0' || d == '1' || d == '2'))
  | _ => false

/-- The test of `/^([0-9]{1,3}\.){3}[0-9]{1,3}\/([0-9]|[1-2][0-9]|3[0-2])$/`. -/
def matchesCidrRegex (s : Str) : Bool :=
  match (((eatOctet '.' s).bind (eatOctet '.')).bind (eatOctet '.')).bind (eatOctet '/') with
  | some rest => isPrefixLength rest
  | none => false

/-- The function `isValidCIDR`.  The pattern is tested on the string form of
the argument; a list whose string form matches has no `split` method, and
the `TypeError` is not caught. -/
def isValidCIDR (cidr : Value) : Except JSError Bool :=
  if !cidr.truthy then .ok false
  else if !matchesCidrRegex cidr.toStr then .ok false
  else
    match cidr with
    | .str s =>
      let ip := (splitChar '/' s).headD []
      .ok ((splitChar '.' ip).all fun octet =>
        JSNum.ge (parseIntStr true octet) (.ofInt 0) &&
          JSNum.le (parseIntStr true octet) (.ofInt 255))
    | _ => .error .typeError

/-- The test of `/^\d+\.\d+(\.\d+)?$/`. -/
def matchesVersionRegex (s : Str) : Bool :=
  let a := s.takeWhile isDigit
  match s.dropWhile isDigit with
  | '.' :: t =>
    let b := t.takeWhile isDigit
    decide (a ≠ []) && decide (b ≠ []) &&
      match t.dropWhile isDigit with
      | [] => true
      | c :: u => c == '.' && decide (u ≠ []) && u.all isDigit
  | _ => false

/-- The function `isValidVersion`. -/
def isValidVersion (version : Value) : Bool :=
  if !version.truthy then false else matchesVersionRegex version.toStr

/-- The function `ipToInt` of `validation.js`.  A missing octet is
`undefined`, which both `<<` and `+` convert to `NaN`. -/
def ipToInt (ip : Str) : JSNum :=
  let octets := (splitChar '.' ip).map strToNum
  JSNum.add
    (JSNum.add
      (JSNum.add (JSNum.shl (octets.getD 0 .nan) (.ofInt 24))
        (JSNum.shl (octets.getD 1 .nan) (.ofInt 16)))
      (JSNum.shl (octets.getD 2 .nan) (.ofInt 8)))
    (octets.getD 3 .nan)

/-- The expression `~((1 << (32 - bits)) - 1)`. -/
def maskOf (bits : JSNum) : JSNum :=
  JSNum.bnot (JSNum.sub (JSNum.shl (.ofInt 1) (JSNum.sub (.ofInt 32) bits)) (.ofInt 1))

/-- The second part of `s.split('/')` read through `parseInt`; a missing
part is `undefined`, for which `parseInt` gives `NaN`. -/
def parseMaskBits (s : Str) : JSNum :=
  match (splitChar '/' s).get? 1 with
  | some m => parseIntStr true m
  | none => .nan

/-- The function `isIPWithinCIDR`.  A truthy argument that is not a string
has no `split` method: the `TypeError` is caught and the result is
`false`. -/
def isIPWithinCIDR (ip cidr : Value) : Bool :=
  if !ip.truthy || !cidr.truthy then false
  else
    match ip, cidr with
    | .str ip, .str cidr =>
      let cidrIP := (splitChar '/' cidr).headD []
      let mask := maskOf (parseMaskBits cidr)
      let ipInt := ipToInt ip
      let cidrInt := ipToInt cidrIP
      JSNum.eq (JSNum.band ipInt mask) (JSNum.band cidrInt mask)
    | _, _ => false

/-- The function `doCIDRsOverlap`. -/
def doCIDRsOverlap (cidr1 cidr2 : Value) : Bool :=
  if !cidr1.truthy || !cidr2.truthy then false
  else
    match cidr1, cidr2 with
    | .str cidr1, .str cidr2 =>
      let ip1 := (splitChar '/' cidr1).headD []
      let ip2 := (splitChar '/' cidr2).headD []
      let smallerMask := JSNum.min (parseMaskBits cidr1) (parseMaskBits cidr2)
      let mask := maskOf smallerMask
      let int1 := ipToInt ip1
      let int2 := ipToInt ip2
      JSNum.eq (JSNum.band int1 mask) (JSNum.band int2 mask)
    | _, _ => false

/-- The test of `/^[a-z]$/i`. -/
def matchesLetterRegex (s : Str) : Bool :=
  match s with
  | [c] => isAsciiLetter c
  | _ => false

/-- The case `min-length` of `validateRule`; `none` is the result `null`,
`some msg` an error message. -/
def ruleMinLength (ruleParam value : Value) : Option Str :=
  if JSNum.lt (.ofInt (jsLength value.toStr)) (parseIntStr true ruleParam.toStr) then
    some ("Minimum length is ".toList ++ ruleParam.toStr ++ " characters".toList)
  else none

/-- The case `max-length` of `validateRule`. -/
def ruleMaxLength (ruleParam value : Value) : Option Str :=
  if JSNum.gt (.ofInt (jsLength value.toStr)) (parseIntStr true ruleParam.toStr) then
    some ("Maximum length is ".toList ++ ruleParam.toStr ++ " characters".toList)
  else none

/-- The case `min` of `validateRule`. -/
def ruleMin (ruleParam value : Value) : Option Str :=
  if JSNum.lt value.toNumber ruleParam.toNumber then
    some ("Minimum value is ".toList ++ ruleParam.toStr)
  else none

/-- The case `max` of `validateRule`. -/
def ruleMax (ruleParam value : Value) : Option Str :=
  if JSNum.gt value.toNumber ruleParam.toNumber then
    some ("Maximum value is ".toList ++ ruleParam.toStr)
  else none

/-- The case `gte` of `validateRule`. -/
def ruleGte (ruleParam value : Value) (config : Config) : Option Str :=
  if !(config ruleParam.toStr).isUnset &&
      JSNum.lt value.toNumber (config ruleParam.toStr).toNumber then
    some ("Must be greater than or equal to ".toList ++ ruleParam.toStr ++
      " (".toList ++ (config ruleParam.toStr).toStr ++ ")".toList)
  else none

/-- The case `lte` of `validateRule`. -/
def ruleLte (ruleParam value : Value) (config : Config) : Option Str :=
  if !(config ruleParam.toStr).isUnset &&
      JSNum.gt value.toNumber (config ruleParam.toStr).toNumber then
    some ("Must be less than or equal to ".toList ++ ruleParam.toStr ++
      " (".toList ++ (config ruleParam.toStr).toStr ++ ")".toList)
  else none

/-- The case `cidr` of `validateRule`, which fails when `isValidCIDR`
does. -/
def ruleCidr (value : Value) : Except JSError (Option Str) :=
  match isValidCIDR value with
  | .error e => .error e
  | .ok valid =>
    if !valid then .ok (some "Invalid CIDR format (e.g., 10.0.0.0/16)".toList)
    else .ok none

/-- The case `version-format` of `validateRule`. -/
def ruleVersionFormat (value : Value) : Option Str :=
  if !isValidVersion value then some "Invalid version format (use X.Y or X.Y.Z)".toList
  else none

/-- The case `single-letter` of `validateRule`. -/
def ruleSingleLetter (value : Value) : Option Str :=
  if !matchesLetterRegex value.toStr then some "Must be a single letter (a-z)".toList
  else none

/-- The case `different-from` of `validateRule`. -/
def ruleDifferentFrom (ruleParam value : Value) (config : Config) : Option Str :=
  if strictEq value (config ruleParam.toStr) then
    some ("Must be different from ".toList ++ ruleParam.toStr)
  else none

/-- The case `within` of `validateRule`. -/
def ruleWithin (ruleParam value : Value) (config : Config) : Option Str :=
  if !isIPWithinCIDR value (config ruleParam.toStr) then
    some ("IP must be within ".toList ++ ruleParam.toStr ++ " CIDR range".toList)
  else none

/-- The case `not-overlap` of `validateRule`. -/
def ruleNotOverlap (ruleParam value : Value) (config : Config) : Option Str :=
  if doCIDRsOverlap value (config ruleParam.toStr) then
    some ("CIDR must not overlap with ".toList ++ ruleParam.toStr)
  else none

/-- The case `required` of `validateRule`. -/
def ruleRequired (value : Value) : Option Str :=
  if strictEq value .null || strictEq value .undefined || strictEq value (.str []) then
    some "This field is required".toList
  else none

/-- The `switch (ruleName)` of `validateRule`; an unknown name falls to the
`default` case and the result is `null`. -/
def applyRule (ruleName : Str) (ruleParam : Value) (value : Value) (config : Config) :
    Except JSError (Option Str) :=
  if ruleName = "min-length".toList then .ok (ruleMinLength ruleParam value)
  else if ruleName = "max-length".toList then .ok (ruleMaxLength ruleParam value)
  else if ruleName = "min".toList then .ok (ruleMin ruleParam value)
  else if ruleName = "max".toList then .ok (ruleMax ruleParam value)
  else if ruleName = "gte".toList then .ok (ruleGte ruleParam value config)
  else if ruleName = "lte".toList then .ok (ruleLte ruleParam value config)
  else if ruleName = "cidr".toList then ruleCidr value
  else if ruleName = "version-format".toList then .ok (ruleVersionFormat value)
  else if ruleName = "single-letter".toList then .ok (ruleSingleLetter value)
  else if ruleName = "different-from".toList then .ok (ruleDifferentFrom ruleParam value config)
  else if ruleName = "within".toList then .ok (ruleWithin ruleParam value config)
  else if ruleName = "not-overlap".toList then .ok (ruleNotOverlap ruleParam value config)
  else if ruleName = "required".toList then .ok (ruleRequired value)
  else .ok none

/-- The function `validateRule`.  The parameter `field` of the source is not
used by its body and is left out.  The rule name is `ruleParts[0]` and the
rule parameter `ruleParts[1]`, which is `undefined` when the rule has no
colon. -/
def validateRule (rule : Str) (value : Value) (config : Config) :
    Except JSError (Option Str) :=
  let ruleParts := splitChar ':' rule
  let ruleName := ruleParts.headD []
  let ruleParam : Value :=
    match ruleParts.get? 1 with
    | some p => .str p
    | none => .undefined
  applyRule ruleName ruleParam value config

/-- The loop of `validateField` over the rules that remain: the first rule
whose result is truthy (a non-empty message) ends it. -/
def validateRules (rules : List Str) (value : Value) (config : Config) :
    Except JSError (Option Str) :=
  match rules with
  | [] => .ok none
  | rule :: rest =>
    match validateRule rule value config with
    | .error e => .error e
    | .ok (some msg) => if msg ≠ [] then .ok (some msg) else validateRules rest value config
    | .ok none => validateRules rest value config

/-- The function `validateField`, for a field whose `validation` list is
absent (`none`) or given. -/
def validateField (validation : Option (List Str)) (value : Value) (config : Config) :
    Except JSError (Option Str) :=
  match validation with
  | none => .ok none
  | some rules => if rules.length = 0 then .ok none else validateRules rules value config

/-! ## `compute.js` -/

/-- The part `\s*([^,]+)` of the subnet pattern on `run`, the text up to the
next comma.  The greedy `\s*` first takes all leading white space and gives
it back one character at a time until `[^,]+` has a character to match; the
result is the capture. -/
def captureArg (run : Str) : Option Str :=
  (List.range ((run.takeWhile isSpace).length + 1)).reverse.findSome? fun j =>
    if run.drop j ≠ [] then some (run.drop j) else none

/-- The match of `cidrsubnet\(([^,]+),\s*([^,]+),\s*(\d+)\)` at the start of
`s`, as its three captures.  Each `[^,]+` runs up to the next comma, and
`(\d+)` is the longest run of digits, which `)` must follow. -/
def matchCidrsubnetAt (s : Str) : Option (Str × Str × Str) :=
  if "cidrsubnet(".toList.isPrefixOf s then
    let r := s.drop 11
    let g1 := r.takeWhile (fun c => c != ',')
    match r.dropWhile (fun c => c != ',') with
    | _ :: r2 =>
      let run := r2.takeWhile (fun c => c != ',')
      match r2.dropWhile (fun c => c != ',') with
      | _ :: r3 =>
        let r4 := r3.dropWhile isSpace
        let ds := r4.takeWhile isDigit
        if g1 ≠ [] ∧ ds ≠ [] ∧ startsWithChar ')' (r4.dropWhile isDigit) then
          (captureArg run).map fun g2 => (g1, g2, ds)
        else none
      | [] => none
    | [] => none
  else none

/-- The first match of the subnet pattern in `s`, searching from the
left. -/
def matchCidrsubnet : Str → Option (Str × Str × Str)
  | [] => none
  | c :: cs =>
    match matchCidrsubnetAt (c :: cs) with
    | some m => some m
    | none => matchCidrsubnet cs

/-- The match of `template\("(.+)"\)` at the start of `s`, as its capture.
The greedy `(.+)` takes the whole text up to the first line terminator and
gives characters back until `")` follows: the capture ends before the last
`")` of that text, and is not empty. -/
def matchTemplateAt (s : Str) : Option Str :=
  if ("template(".toList ++ ['"']).isPrefixOf s then
    let run := (s.drop 10).takeWhile fun c => !isLineTerminator c
    (List.range (run.length - 1)).reverse.findSome? fun k =>
      if 1 ≤ k ∧ (run.drop k).take 2 = ['"', ')'] then some (run.take k) else none
  else none

/-- The first match of the template pattern in `s`, searching from the
left. -/
def matchTemplate : Str → Option Str
  | [] => none
  | c :: cs =>
    match matchTemplateAt (c :: cs) with
    | some m => some m
    | none => matchTemplate cs

/-- The match of `\$\{([^}]+)\}` at the start of `s`, as its capture. -/
def matchPlaceholderAt (s : Str) : Option Str :=
  match s with
  | '$' :: '{' :: r =>
    let name := r.takeWhile (fun c => c != '}')
    if name ≠ [] ∧ startsWithChar '}' (r.dropWhile (fun c => c != '}')) then some name
    else none
  | _ => none

/-- The global replacement of `evaluateTemplate`, reading `s` from the left.
`skip` counts the characters of a placeholder just replaced that are still to
be passed over. -/
def replacePlaceholders (config : Config) : Nat → Str → Str
  | _, [] => []
  | skip + 1, _ :: cs => replacePlaceholders config skip cs
  | 0, c :: cs =>
    match matchPlaceholderAt (c :: cs) with
    | some name =>
      let value := config (jsTrim name)
      (if !value.isUnset then value.toStr else '$' :: '{' :: name ++ ['}']) ++
        replacePlaceholders config (name.length + 2) cs
    | none => c :: replacePlaceholders config 0 cs

/-- The function `evaluateTemplate`. -/
def evaluateTemplate (template : Str) (config : Config) : Str :=
  replacePlaceholders config 0 template

/-- The operator `prefix + newBits` for a number `prefix`: a string or a list
on the right makes it a concatenation of string forms, anything else an
addition of numbers. -/
def addToNumber (a : JSNum) (b : Value) : Value :=
  match b with
  | .str s => .str (numToStr a ++ s)
  | .list r items => .str (numToStr a ++ (Value.list r items).toStr)
  | other => .num (JSNum.add a other.toNumber)

/-- The function `cidrsubnet`; `some s` is the string it returns.  An error
thrown inside it (a parent that is not a string and has no `split` method,
a new prefix length above 32) is caught and the result is the empty string.
The result is `none` only where `Math.pow` is (see `JSNum.pow2`). -/
def cidrsubnet (ipRange : Value) (newBits : Value) (netNum : JSNum) : Option Str :=
  match ipRange with
  | .str s =>
    let parts := splitChar '/' s
    let ip := parts.headD []
    let prefixNum : JSNum :=
      match parts.get? 1 with
      | some prefixStr => parseIntStr false prefixStr
      | none => .nan
    let newPrefix := addToNumber prefixNum newBits
    if JSNum.gt newPrefix.toNumber (.ofInt 32) then some []
    else
      let ipParts := (splitChar '.' ip).map (parseIntStr false)
      let ipInt :=
        JSNum.add
          (JSNum.add
            (JSNum.add (JSNum.shl (ipParts.getD 0 .nan) (.ofInt 24))
              (JSNum.shl (ipParts.getD 1 .nan) (.ofInt 16)))
            (JSNum.shl (ipParts.getD 2 .nan) (.ofInt 8)))
          (ipParts.getD 3 .nan)
      match JSNum.pow2 (JSNum.sub (.ofInt 32) newPrefix.toNumber) with
      | none => none
      | some subnetSize =>
        let subnetBase :=
          JSNum.shl (JSNum.sar ipInt (JSNum.sub (.ofInt 32) prefixNum))
            (JSNum.sub (.ofInt 32) prefixNum)
        let subnetAddress := JSNum.add subnetBase (JSNum.mul netNum subnetSize)
        let octet1 := JSNum.band (JSNum.shr subnetAddress (.ofInt 24)) (.ofInt 255)
        let octet2 := JSNum.band (JSNum.shr subnetAddress (.ofInt 16)) (.ofInt 255)
        let octet3 := JSNum.band (JSNum.shr subnetAddress (.ofInt 8)) (.ofInt 255)
        let octet4 := JSNum.band subnetAddress (.ofInt 255)
        some (numToStr octet1 ++ '.' :: numToStr octet2 ++ '.' :: numToStr octet3 ++
          '.' :: numToStr octet4 ++ '/' :: newPrefix.toStr)
  | _ => some []

/-- The function `computeValue`; `some s` is the string it returns.  A falsy
expression gives the empty string; a truthy expression that is not a string
has no `match` method, and the `TypeError` is caught.  The result is `none`
only where that of `cidrsubnet` is. -/
def computeValue (expression : Value) (config : Config) : Option Str :=
  if !expression.truthy then some []
  else
    match expression with
    | .str s =>
      match matchCidrsubnet s with
      | some (vpcVarName, bitsVarName, indexStr) =>
        let vpcCidr := config (jsTrim vpcVarName)
        let subnetBits := config (jsTrim bitsVarName)
        let index := parseIntStr false indexStr
        if !vpcCidr.truthy || !subnetBits.truthy then some []
        else cidrsubnet vpcCidr subnetBits index
      | none =>
        match matchTemplate s with
        | some template => some (evaluateTemplate template config)
        | none => some []
    | _ => some []

/-! ## Fragments of `cidrsubnet` -/

/-- The parsing part of `cidrsubnet` (its lines 71, 72, 80 and 81): the parent
text is split at the slashes, the prefix length is `parseInt` of the second
part, and the address is the sum of the shifted octets of the first part.
The result is the pair of `ipInt` and `prefix`. -/
def cidrsubnetParse (s : Str) : JSNum × JSNum :=
  let parts := splitChar '/' s
  let ip := parts.headD []
  let prefixNum : JSNum :=
    match parts.get? 1 with
    | some prefixStr => parseIntStr false prefixStr
    | none => .nan
  let ipParts := (splitChar '.' ip).map (parseIntStr false)
  let ipInt :=
    JSNum.add
      (JSNum.add
        (JSNum.add (JSNum.shl (ipParts.getD 0 .nan) (.ofInt 24))
          (JSNum.shl (ipParts.getD 1 .nan) (.ofInt 16)))
        (JSNum.shl (ipParts.getD 2 .nan) (.ofInt 8)))
      (ipParts.getD 3 .nan)
  (ipInt, prefixNum)

/-- The serialising part of `cidrsubnet` (its lines 88 to 94): the four
octets are taken from the address by unsigned shifts and masks, and joined
with dots, a slash and the prefix length. -/
def cidrsubnetFormat (subnetAddress : JSNum) (newPrefix : Value) : Str :=
  let octet1 := JSNum.band (JSNum.shr subnetAddress (.ofInt 24)) (.ofInt 255)
  let octet2 := JSNum.band (JSNum.shr subnetAddress (.ofInt 16)) (.ofInt 255)
  let octet3 := JSNum.band (JSNum.shr subnetAddress (.ofInt 8)) (.ofInt 255)
  let octet4 := JSNum.band subnetAddress (.ofInt 255)
  numToStr octet1 ++ '.' :: numToStr octet2 ++ '.' :: numToStr octet3 ++
    '.' :: numToStr octet4 ++ '/' :: newPrefix.toStr

/-! ## Definitions on the side of the specification -/

/-- A template text: each pair of `parts` is a literal text and the name of
the placeholder `${name}` that follows it; `last` is the literal text after
the last placeholder. -/
def templateText (parts : List (Str × Str)) (last : Str) : Str :=
  match parts with
  | [] => last
  | (text, name) :: rest => text ++ '$' :: '{' :: name ++ '}' :: templateText rest last

/-- The expansion the specification asks for: each placeholder `${name}` is
replaced by the string form of `config[name]` when that value is set, and is
left as it is when the value is unset; the literal texts are unchanged. -/
def templateExpansion (config : Config) (parts : List (Str × Str)) (last : Str) : Str :=
  match parts with
  | [] => last
  | (text, name) :: rest =>
    text ++ (if (config name).isUnset then '$' :: '{' :: name ++ ['}'] else (config name).toStr) ++
      templateExpansion config rest last

/-- Stripping one pair of surrounding matching quotes, single or double: a
text that begins and ends with the same quote character loses its first and
its last character. -/
def stripQuotes (v : Str) : Str :=
  if (v.head? = some '"' ∧ v.getLast? = some '"') ∨
      (v.head? = some (Char.ofNat 0x27) ∧ v.getLast? = some (Char.ofNat 0x27)) then
    (v.drop 1).dropLast
  else v

/-- The unsigned 32-bit number of the address `a.b.c.d`. -/
def ipv4 (a b c d : Nat) : Nat :=
  a * 2 ^ 24 + b * 2 ^ 16 + c * 2 ^ 8 + d

/-- The dotted-decimal text `a.b.c.d`. -/
def dotted (a b c d : Nat) : Str :=
  natToStr a ++ ('.' :: (natToStr b ++ ('.' :: (natToStr c ++ ('.' :: natToStr d)))))

/-- The dotted-decimal text of an unsigned 32-bit number. -/
def dottedOfNat (x : Nat) : Str :=
  dotted (x / 2 ^ 24 % 256) (x / 2 ^ 16 % 256) (x / 2 ^ 8 % 256) (x % 256)

/-- The CIDR text `a.b.c.d/p`. -/
def cidrText (a b c d p : Nat) : Str :=
  dotted a b c d ++ ('/' :: natToStr p)

/-- The first `p` bits of an unsigned 32-bit number, as a number. -/
def firstBits (p x : Nat) : Nat :=
  x / 2 ^ (32 - p)

/-- The text of an octet: one to three decimal digits whose value is at most
255. -/
def IsOctetText (o : Str) : Prop :=
  1 ≤ o.length ∧ o.length ≤ 3 ∧ (∀ c ∈ o, isDigit c = true) ∧ radixValue 10 o ≤ 255

instance IsOctetText.decidable (o : Str) : Decidable (IsOctetText o) := by
  unfold IsOctetText
  infer_instance

/-- A valid CIDR text: four octet texts separated by dots, then `/` and the
decimal text of a prefix length from 0 to 32. -/
def IsCidrText (s : Str) : Prop :=
  ∃ o1 o2 o3 o4 : Str, ∃ p : Nat,
    IsOctetText o1 ∧ IsOctetText o2 ∧ IsOctetText o3 ∧ IsOctetText o4 ∧ p ≤ 32 ∧
      s = o1 ++ ('.' :: (o2 ++ ('.' :: (o3 ++ ('.' :: (o4 ++ ('/' :: natToStr p)))))))

/-- The unsigned 32-bit address that a CIDR text denotes: the decimal values
of the four dot-separated parts before the slash. -/
def addressOfText (cidr : Str) : Nat :=
  match (splitChar '.' ((splitChar '/' cidr).headD [])).map (radixValue 10) with
  | [a, b, c, d] => ipv4 a b c d
  | _ => 0

/-- The thirteen rule names that `validateRule` knows. -/
def knownRuleNames : List Str :=
  ["min-length".toList, "max-length".toList, "min".toList, "max".toList, "gte".toList,
    "lte".toList, "cidr".toList, "version-format".toList, "single-letter".toList,
    "different-from".toList, "within".toList, "not-overlap".toList, "required".toList]

/-- The text of a rule before its first colon (all of it when it has none). -/
def textBeforeColon (rule : Str) : Str :=
  rule.takeWhile fun c => c != ':'

/-- The text of a rule after its first colon. -/
def textAfterColon (rule : Str) : Str :=
  (rule.dropWhile fun c => c != ':').drop 1

/-- The evaluation of an atom with the six patterns tried in the other order
that the specification gives: `>=`, `<=`, `!=`, `==`, `>`, `<`.  Each branch
is that of `evaluateSingleCondition`. -/
def evaluateAtomInGrammarOrder (condition : Str) (config : Config) : Bool :=
  match matchOp ">=".toList condition with
  | some (fieldName, expectedValue) =>
    JSNum.ge (config fieldName).toNumber (parseValue expectedValue).toNumber
  | none =>
  match matchOp "<=".toList condition with
  | some (fieldName, expectedValue) =>
    JSNum.le (config fieldName).toNumber (parseValue expectedValue).toNumber
  | none =>
  match matchOp "!=".toList condition with
  | some (fieldName, expectedValue) =>
    !compareValues (config fieldName) (parseValue expectedValue)
  | none =>
  match matchOp "==".toList condition with
  | some (fieldName, expectedValue) =>
    compareValues (config fieldName) (parseValue expectedValue)
  | none =>
  match matchOp ">".toList condition with
  | some (fieldName, expectedValue) =>
    JSNum.gt (config fieldName).toNumber (parseValue expectedValue).toNumber
  | none =>
  match matchOp "<".toList condition with
  | some (fieldName, expectedValue) =>
    JSNum.lt (config fieldName).toNumber (parseValue expectedValue).toNumber
  | none => (config (jsTrim condition)).truthy

/-! ## Theorems -/

theorem split2_eq_singleton (a b : Char) :
    ∀ p : Str, ¬ [a, b] <:+: p → split2 a b p = [p]
  | [], _ => rfl
  | [_], _ => rfl
  | x :: y :: rest, h => by
    have hxy : ¬ (x = a ∧ y = b) := by
      rintro ⟨rfl, rfl⟩
      exact h ⟨[], rest, rfl⟩
    have hrest : ¬ [a, b] <:+: y :: rest := fun hi => h (hi.trans (List.suffix_cons x _).isInfix)
    rw [split2, if_neg hxy, split2_eq_singleton a b (y :: rest) hrest]

theorem split2_append_sep (a b : Char) (rest : Str) :
    ∀ p : Str, ¬ [a, b] <:+: p → p.getLast? ≠ some a →
      split2 a b (p ++ a :: b :: rest) = p :: split2 a b rest
  | [], _, _ => by simp [split2]
  | [x], _, hl => by
    have hx : x ≠ a := by simpa using hl
    simp [split2, hx]
  | x :: y :: p, h, hl => by
    have hxy : ¬ (x = a ∧ y = b) := by
      rintro ⟨rfl, rfl⟩
      exact h ⟨[], p, rfl⟩
    have hrest : ¬ [a, b] <:+: y :: p := fun hi => h (hi.trans (List.suffix_cons x _).isInfix)
    have hl2 : (y :: p).getLast? ≠ some a := by
      simpa [List.getLast?_cons_cons] using hl
    have ih := split2_append_sep a b rest (y :: p) hrest hl2
    simp only [List.cons_append] at ih ⊢
    rw [split2, if_neg hxy, ih]

theorem jsJoin_cons_cons (sep x y : Str) (rest : List Str) :
    jsJoin sep (x :: y :: rest) = x ++ sep ++ jsJoin sep (y :: rest) := rfl

theorem split2_jsJoin (a b : Char) :
    ∀ ps : List Str, ps ≠ [] → (∀ p ∈ ps, ¬ [a, b] <:+: p) →
      (∀ p ∈ ps.dropLast, p.getLast? ≠ some a) →
      split2 a b (jsJoin [a, b] ps) = ps
  | [], h, _, _ => absurd rfl h
  | [p], _, hi, _ => by
    simpa [jsJoin] using split2_eq_singleton a b p (hi p (by simp))
  | p :: q :: rest, _, hi, hl => by
    have h1 := split2_append_sep a b (jsJoin [a, b] (q :: rest)) p (hi p (by simp))
      (hl p (by simp [List.dropLast]))
    have h2 := split2_jsJoin a b (q :: rest) (by simp)
      (fun r hr => hi r (List.mem_cons_of_mem _ hr))
      (fun r hr => hl r (by
        rw [List.dropLast_cons_of_ne_nil (by simp)]
        exact List.mem_cons_of_mem _ hr))
    rw [jsJoin_cons_cons]
    simp only [List.append_assoc, List.cons_append, List.nil_append]
    rw [h1, h2]



theorem dropWhile_append_cons_neg {p : Char → Bool} {c : Char} (hc : p c = false)
    (xs ys : Str) : (xs ++ c :: ys).dropWhile p = xs.dropWhile p ++ c :: ys := by
  induction xs with
  | nil => simp [List.dropWhile, hc]
  | cons x xs ih =>
    by_cases hx : p x
    · simp [List.dropWhile, hx, ih]
    · simp [List.dropWhile, hx]

theorem rdropWhile_append_cons_neg {p : Char → Bool} {c : Char} (hc : p c = false)
    (xs ys : Str) : (xs ++ c :: ys).rdropWhile p = xs ++ c :: ys.rdropWhile p := by
  unfold List.rdropWhile
  rw [List.reverse_append, List.reverse_cons, List.append_assoc, List.singleton_append,
    dropWhile_append_cons_neg hc]
  simp

theorem rdropWhile_cons (p : Char → Bool) (x : Char) (t : Str) :
    (x :: t).rdropWhile p =
      if t.rdropWhile p = [] ∧ p x = true then [] else x :: t.rdropWhile p := by
  induction t using List.reverseRecOn with
  | nil => by_cases hx : p x = true <;> simp [List.rdropWhile_singleton, hx]
  | append_singleton t z ih =>
    by_cases hz : p z = true
    · rw [← List.cons_append, List.rdropWhile_concat_pos _ _ _ hz,
        List.rdropWhile_concat_pos _ _ _ hz, ih]
    · rw [← List.cons_append, List.rdropWhile_concat_neg _ _ _ hz,
        List.rdropWhile_concat_neg _ _ _ hz]
      simp

theorem dropWhile_rdropWhile_comm (p : Char → Bool) (s : Str) :
    (s.rdropWhile p).dropWhile p = (s.dropWhile p).rdropWhile p := by
  induction s with
  | nil => simp
  | cons x t ih =>
    by_cases hx : p x = true
    · rw [rdropWhile_cons, List.dropWhile_cons_of_pos hx]
      by_cases ht : t.rdropWhile p = []
      · rw [if_pos ⟨ht, hx⟩, ← ih, ht]
      · rw [if_neg (fun h => ht h.1), List.dropWhile_cons_of_pos hx, ih]
    · rw [rdropWhile_cons, if_neg (fun h => hx h.2), List.dropWhile_cons_of_neg hx,
        List.dropWhile_cons_of_neg hx, rdropWhile_cons, if_neg (fun h => hx h.2)]

theorem jsTrim_eq (s : Str) : jsTrim s = (s.dropWhile isSpace).rdropWhile isSpace := rfl

theorem jsTrim_dropWhile (s : Str) : jsTrim (s.dropWhile isSpace) = jsTrim s := by
  rw [jsTrim_eq, jsTrim_eq, List.dropWhile_idempotent]

theorem jsTrim_rdropWhile (s : Str) : jsTrim (s.rdropWhile isSpace) = jsTrim s := by
  rw [jsTrim_eq, jsTrim_eq, dropWhile_rdropWhile_comm, List.rdropWhile_idempotent]

theorem jsTrim_idem (s : Str) : jsTrim (jsTrim s) = jsTrim s := by
  rw [jsTrim_eq s, jsTrim_rdropWhile, jsTrim_dropWhile]
  rfl

theorem jsTrim_infix_self (s : Str) : jsTrim s <:+: s := by
  rw [jsTrim_eq]
  exact (List.rdropWhile_prefix isSpace _).isInfix.trans (List.dropWhile_suffix isSpace).isInfix

theorem jsJoin_cons_of_ne_nil (sep x : Str) {rest : List Str} (h : rest ≠ []) :
    jsJoin sep (x :: rest) = x ++ sep ++ jsJoin sep rest := by
  cases rest with
  | nil => exact absurd rfl h
  | cons y r => rfl

theorem leftTrim_jsJoin {c : Char} (hc : isSpace c = false) (sep p : Str) (rest : List Str) :
    (jsJoin (c :: sep) (p :: rest)).dropWhile isSpace =
      jsJoin (c :: sep) (p.dropWhile isSpace :: rest) := by
  cases rest with
  | nil => rfl
  | cons q r =>
    rw [jsJoin_cons_cons, jsJoin_cons_cons, List.append_assoc, List.cons_append,
      dropWhile_append_cons_neg hc, List.append_assoc, List.cons_append]

theorem rightTrim_jsJoin {c : Char} (hc : isSpace c = false) (sep q : Str) :
    ∀ init : List Str, (jsJoin (sep ++ [c]) (init ++ [q])).rdropWhile isSpace =
      jsJoin (sep ++ [c]) (init ++ [q.rdropWhile isSpace])
  | [] => rfl
  | x :: init => by
    have ih := rightTrim_jsJoin hc sep q init
    rw [List.cons_append, List.cons_append, jsJoin_cons_of_ne_nil _ _ (by simp),
      jsJoin_cons_of_ne_nil _ _ (by simp), ← ih]
    have e : ∀ J : Str, x ++ (sep ++ [c]) ++ J = (x ++ sep) ++ c :: J := by
      intro J; simp
    rw [e, e, rdropWhile_append_cons_neg hc]

theorem getLast?_of_suffix {l₁ l₂ : Str} (h : l₁ <:+ l₂) (hne : l₁ ≠ []) :
    l₁.getLast? = l₂.getLast? := by
  obtain ⟨t, rfl⟩ := h
  rw [List.getLast?_append_of_ne_nil _ hne]

/-- Trimming a group of atoms joined with `&&`, splitting it and trimming the
parts gives the trimmed atoms. -/
theorem split_trim_group (g : List Str) (hg : g ≠ [])
    (hi : ∀ a ∈ g, ¬ ['&', '&'] <:+: a)
    (hl : ∀ a ∈ g.dropLast, a.getLast? ≠ some '&') :
    (split2 '&' '&' (jsTrim (jsJoin ['&', '&'] g))).map jsTrim = g.map jsTrim := by
  have hamp : isSpace '&' = false := by decide
  cases g with
  | nil => exact absurd rfl hg
  | cons p rest =>
    rcases List.eq_nil_or_concat rest with hr | ⟨mid, q, hr⟩
    · subst hr
      have hp : ¬ ['&', '&'] <:+: jsTrim p := fun h => hi p (by simp) (h.trans (jsTrim_infix_self p))
      show (split2 '&' '&' (jsTrim p)).map jsTrim = [jsTrim p]
      rw [split2_eq_singleton _ _ _ hp]
      simp [jsTrim_idem]
    · rw [List.concat_eq_append] at hr
      subst hr
      have hdl : (p :: (mid ++ [q])).dropLast = p :: mid := by
        rw [← List.cons_append, List.dropLast_concat]
      rw [hdl] at hl
      have e1 : jsTrim (jsJoin ['&', '&'] (p :: (mid ++ [q]))) =
          jsJoin ['&', '&'] ((p.dropWhile isSpace :: mid) ++ [q.rdropWhile isSpace]) := by
        rw [jsTrim_eq, leftTrim_jsJoin hamp, ← List.cons_append]
        exact rightTrim_jsJoin hamp ['&'] q _
      rw [e1, split2_jsJoin]
      · simp [jsTrim_dropWhile, jsTrim_rdropWhile]
      · simp
      · intro a ha
        rcases List.mem_append.1 ha with ha | ha
        · rcases List.mem_cons.1 ha with rfl | ha
          · exact fun h => hi p (by simp) (h.trans (List.dropWhile_suffix isSpace).isInfix)
          · exact hi a (by simp [ha])
        · rw [List.mem_singleton.1 ha]
          exact fun h => hi q (by simp) (h.trans (List.rdropWhile_prefix isSpace _).isInfix)
      · rw [List.dropLast_concat]
        intro a ha
        rcases List.mem_cons.1 ha with rfl | ha
        · by_cases hne : p.dropWhile isSpace = []
          · simp [hne]
          · rw [getLast?_of_suffix (List.dropWhile_suffix isSpace) hne]
            exact hl p (by simp)
        · exact hl a (by simp [ha])

theorem infix_pair_append_cons {a b : Char} (hab : a ≠ b) (ys : Str) :
    ∀ p : Str, [b, b] <:+: p ++ a :: ys → [b, b] <:+: p ∨ [b, b] <:+: ys
  | [], h => by
    rcases List.infix_cons_iff.1 h with h | h
    · exact absurd (List.cons_prefix_cons.1 h).1.symm hab
    · exact Or.inr h
  | x :: p, h => by
    rcases List.infix_cons_iff.1 h with h | h
    · obtain ⟨rfl, h2⟩ := List.cons_prefix_cons.1 h
      cases p with
      | nil => exact absurd (List.cons_prefix_cons.1 h2).1.symm hab
      | cons y p =>
        obtain ⟨rfl, -⟩ := List.cons_prefix_cons.1 h2
        exact Or.inl ⟨[], p, rfl⟩
    · rcases infix_pair_append_cons hab ys p h with h | h
      · exact Or.inl (h.trans (List.suffix_cons x p).isInfix)
      · exact Or.inr h

theorem no_pair_jsJoin {a b : Char} (hab : a ≠ b) :
    ∀ g : List Str, (∀ p ∈ g, ¬ [b, b] <:+: p) → ¬ [b, b] <:+: jsJoin [a, a] g
  | [], _ => by simp [jsJoin]
  | [p], h => by simpa [jsJoin] using h p (by simp)
  | p :: q :: rest, h => by
    intro hi
    rw [jsJoin_cons_cons, List.append_assoc, List.cons_append, List.cons_append,
      List.nil_append] at hi
    rcases infix_pair_append_cons hab _ p hi with h1 | h1
    · exact h p (by simp) h1
    · rcases infix_pair_append_cons hab _ [] h1 with h2 | h2
      · simp at h2
      · exact no_pair_jsJoin hab (q :: rest) (fun r hr => h r (List.mem_cons_of_mem _ hr)) h2

theorem getLast?_jsJoin_ne {a b : Char} (hab : a ≠ b) :
    ∀ g : List Str, (∀ q, g.getLast? = some q → q.getLast? ≠ some b) →
      (jsJoin [a, a] g).getLast? ≠ some b
  | [], _ => by simp [jsJoin]
  | [p], h => by simpa [jsJoin] using h p (by simp)
  | p :: q :: rest, h => by
    have ih := getLast?_jsJoin_ne hab (q :: rest) (fun r hr => h r (by
      rw [List.getLast?_cons_cons]; exact hr))
    rw [jsJoin_cons_cons]
    by_cases hJ : jsJoin [a, a] (q :: rest) = []
    · rw [hJ, List.append_nil, List.getLast?_append_of_ne_nil _ (by simp)]
      simpa using hab
    · rw [List.getLast?_append_of_ne_nil _ hJ]
      exact ih

/-- C1 (amended): for a non-empty expression made of groups joined with `||`,
each group made of atoms joined with `&&`, where no atom contains `&&` or
`||`, no atom followed by `&&` ends in `&` and no atom followed by `||` ends
in `|`, `evaluateCondition` is true iff some group has all of its trimmed
atoms true under `evaluateSingleCondition`. -/
theorem evaluateCondition_or_of_and (config : Config) (groups : List (List Str))
    (hexpr : jsJoin "||".toList (groups.map (jsJoin "&&".toList)) ≠ [])
    (hgroup : ∀ g ∈ groups, g ≠ [])
    (hatom : ∀ g ∈ groups, ∀ a ∈ g, ¬ "&&".toList <:+: a ∧ ¬ "||".toList <:+: a)
    (hand : ∀ g ∈ groups, ∀ a ∈ g.dropLast, a.getLast? ≠ some '&')
    (hor : ∀ g ∈ groups.dropLast, ∀ a, g.getLast? = some a → a.getLast? ≠ some '|') :
    evaluateCondition (.str (jsJoin "||".toList (groups.map (jsJoin "&&".toList)))) config =
      groups.any fun g => g.all fun a => evaluateSingleCondition (jsTrim a) config := by
  have e1 : "&&".toList = ['&', '&'] := rfl
  have e2 : "||".toList = ['|', '|'] := rfl
  rw [e1, e2] at hexpr hatom ⊢
  have hne : groups ≠ [] := by
    rintro rfl
    exact hexpr rfl
  have hsplit : split2 '|' '|' (jsJoin ['|', '|'] (groups.map (jsJoin ['&', '&']))) =
      groups.map (jsJoin ['&', '&']) := by
    apply split2_jsJoin
    · simpa using hne
    · intro p hp
      obtain ⟨g, hg, rfl⟩ := List.mem_map.1 hp
      exact no_pair_jsJoin (by decide) g (fun a ha => (hatom g hg a ha).2)
    · intro p hp
      rw [← List.map_dropLast] at hp
      obtain ⟨g, hg, rfl⟩ := List.mem_map.1 hp
      exact getLast?_jsJoin_ne (by decide) g (hor g hg)
  have htr : Value.truthy (.str (jsJoin ['|', '|'] (groups.map (jsJoin ['&', '&'])))) = true := by
    simpa [Value.truthy] using hexpr
  unfold evaluateCondition
  simp only [htr, Bool.not_true, if_false, hsplit, Bool.false_eq_true]
  have key : ∀ g ∈ groups,
      ((split2 '&' '&' (jsTrim (jsJoin ['&', '&'] g))).map jsTrim).all
          (fun part => evaluateSingleCondition part config) =
        g.all fun a => evaluateSingleCondition (jsTrim a) config := by
    intro g hg
    rw [split_trim_group g (hgroup g hg) (fun a ha => (hatom g hg a ha).1) (hand g hg)]
    rw [Bool.eq_iff_iff]
    simp only [List.all_eq_true, List.mem_map]
    constructor
    · intro h a ha
      exact h _ ⟨a, ha, rfl⟩
    · rintro h _ ⟨a, ha, rfl⟩
      exact h a ha
  rw [Bool.eq_iff_iff]
  simp only [List.any_eq_true, List.mem_map]
  constructor
  · rintro ⟨_, ⟨_, ⟨g, hg, rfl⟩, rfl⟩, h⟩
    exact ⟨g, hg, (key g hg) ▸ h⟩
  · rintro ⟨g, hg, h⟩
    exact ⟨_, ⟨_, ⟨g, hg, rfl⟩, rfl⟩, (key g hg).symm ▸ h⟩

/-- C1 as stated fails: the atoms `x|` and `y` contain neither `&&` nor
`||`, and joined with `||` they give `x|||y`, which is split into `x` and
`|y`.  With `x` set the expression is true although no group is. -/
theorem evaluateCondition_or_of_and_counterexample :
    (∀ g ∈ [["x|".toList], ["y".toList]], ∀ a ∈ g,
        ¬ "&&".toList <:+: a ∧ ¬ "||".toList <:+: a) ∧
      jsJoin "||".toList ([["x|".toList], ["y".toList]].map (jsJoin "&&".toList)) =
        "x|||y".toList ∧
      evaluateCondition (.str "x|||y".toList)
        (Config.ofList [("x".toList, .bool true)]) = true ∧
      ([["x|".toList], ["y".toList]].any fun g => g.all fun a =>
        evaluateSingleCondition (jsTrim a) (Config.ofList [("x".toList, .bool true)])) =
        false := by
  decide

/-- C1 (amended), at the expression `a == 1 && b || c && d`. -/
theorem evaluateCondition_or_of_and_witness :
    evaluateCondition (.str "a == 1 && b || c && d".toList)
        (Config.ofList [("c".toList, .bool true), ("d".toList, .str "x".toList)]) =
      [["a == 1 ".toList, " b ".toList], [" c ".toList, " d".toList]].any fun g =>
        g.all fun a => evaluateSingleCondition (jsTrim a)
          (Config.ofList [("c".toList, .bool true), ("d".toList, .str "x".toList)]) :=
  evaluateCondition_or_of_and
    (Config.ofList [("c".toList, .bool true), ("d".toList, .str "x".toList)])
    [["a == 1 ".toList, " b ".toList], [" c ".toList, " d".toList]]
    (by decide) (by decide) (by decide) (by decide) (by decide)

theorem ite_some_ne_nil {c : Prop} [Decidable c] {m msg : Str} (hm : m ≠ [])
    (h : (if c then some m else none) = some msg) : msg ≠ [] := by
  split at h
  · cases h; exact hm
  · cases h

theorem ruleCidr_message_ne_nil (value : Value) (msg : Str)
    (h : ruleCidr value = .ok (some msg)) : msg ≠ [] := by
  unfold ruleCidr at h
  split at h
  · cases h
  · split at h
    · cases h; decide
    · cases h

theorem applyRule_message_ne_nil (ruleName : Str) (ruleParam value : Value) (config : Config)
    (msg : Str) (h : applyRule ruleName ruleParam value config = .ok (some msg)) : msg ≠ [] := by
  unfold applyRule at h
  by_cases h0 : ruleName = "min-length".toList
  · rw [if_pos h0] at h
    injection h with h
    exact ite_some_ne_nil (by simp) h
  rw [if_neg h0] at h
  by_cases h1 : ruleName = "max-length".toList
  · rw [if_pos h1] at h
    injection h with h
    exact ite_some_ne_nil (by simp) h
  rw [if_neg h1] at h
  by_cases h2 : ruleName = "min".toList
  · rw [if_pos h2] at h
    injection h with h
    exact ite_some_ne_nil (by simp) h
  rw [if_neg h2] at h
  by_cases h3 : ruleName = "max".toList
  · rw [if_pos h3] at h
    injection h with h
    exact ite_some_ne_nil (by simp) h
  rw [if_neg h3] at h
  by_cases h4 : ruleName = "gte".toList
  · rw [if_pos h4] at h
    injection h with h
    exact ite_some_ne_nil (by simp) h
  rw [if_neg h4] at h
  by_cases h5 : ruleName = "lte".toList
  · rw [if_pos h5] at h
    injection h with h
    exact ite_some_ne_nil (by simp) h
  rw [if_neg h5] at h
  by_cases h6 : ruleName = "cidr".toList
  · rw [if_pos h6] at h
    exact ruleCidr_message_ne_nil value msg h
  rw [if_neg h6] at h
  by_cases h7 : ruleName = "version-format".toList
  · rw [if_pos h7] at h
    injection h with h
    exact ite_some_ne_nil (by simp) h
  rw [if_neg h7] at h
  by_cases h8 : ruleName = "single-letter".toList
  · rw [if_pos h8] at h
    injection h with h
    exact ite_some_ne_nil (by simp) h
  rw [if_neg h8] at h
  by_cases h9 : ruleName = "different-from".toList
  · rw [if_pos h9] at h
    injection h with h
    exact ite_some_ne_nil (by simp) h
  rw [if_neg h9] at h
  by_cases h10 : ruleName = "within".toList
  · rw [if_pos h10] at h
    injection h with h
    exact ite_some_ne_nil (by simp) h
  rw [if_neg h10] at h
  by_cases h11 : ruleName = "not-overlap".toList
  · rw [if_pos h11] at h
    injection h with h
    exact ite_some_ne_nil (by simp) h
  rw [if_neg h11] at h
  by_cases h12 : ruleName = "required".toList
  · rw [if_pos h12] at h
    injection h with h
    exact ite_some_ne_nil (by simp) h
  rw [if_neg h12] at h
  cases h

theorem validateRule_message_ne_nil (rule : Str) (value : Value) (config : Config) (msg : Str)
    (h : validateRule rule value config = .ok (some msg)) : msg ≠ [] :=
  applyRule_message_ne_nil _ _ value config msg h

theorem validateRules_first_failure (value : Value) (config : Config) (r msg : Str)
    (post : List Str) (hr : validateRule r value config = .ok (some msg)) :
    ∀ pre : List Str, (∀ q ∈ pre, validateRule q value config = .ok none) →
      validateRules (pre ++ r :: post) value config = .ok (some msg)
  | [], _ => by
    have hne := validateRule_message_ne_nil r value config msg hr
    simp [validateRules, hr, hne]
  | q :: pre, h => by
    have ih := validateRules_first_failure value config r msg post hr pre
      (fun x hx => h x (List.mem_cons_of_mem _ hx))
    simp [validateRules, h q (by simp), ih]

theorem validateRules_all_pass (value : Value) (config : Config) :
    ∀ rules : List Str, (∀ q ∈ rules, validateRule q value config = .ok none) →
      validateRules rules value config = .ok none
  | [], _ => rfl
  | q :: rules, h => by
    have ih := validateRules_all_pass value config rules
      (fun x hx => h x (List.mem_cons_of_mem _ hx))
    simp [validateRules, h q (by simp), ih]

/-- C2: `validateField` returns the message of the first rule, in list order,
that fails (returns a message), whatever the later rules are; it returns
`null` when every rule passes, and when the rule list is empty or absent.
With rules `min-length:3`, `required`, value `ab` and an empty configuration
the result is the minimum-length message. -/
theorem validateField_first_failure (value : Value) (config : Config) :
    (∀ (pre post : List Str) (r msg : Str),
      (∀ q ∈ pre, validateRule q value config = .ok none) →
      validateRule r value config = .ok (some msg) →
      validateField (some (pre ++ r :: post)) value config = .ok (some msg)) ∧
    (∀ rules : List Str, (∀ q ∈ rules, validateRule q value config = .ok none) →
      validateField (some rules) value config = .ok none) ∧
    validateField (some []) value config = .ok none ∧
    validateField none value config = .ok none ∧
    validateField (some ["min-length:3".toList, "required".toList]) (.str "ab".toList)
      (Config.ofList []) = .ok (some "Minimum length is 3 characters".toList) := by
  refine ⟨?_, ?_, rfl, rfl, by decide⟩
  · intro pre post r msg hpre hr
    have h := validateRules_first_failure value config r msg post hr pre hpre
    unfold validateField
    simp only [h]
    split
    · rename_i hl
      simp at hl
    · rfl
  · intro rules h
    unfold validateField
    simp only [validateRules_all_pass value config rules h]
    split <;> rfl

/-- C2, at concrete rules: the first rule passes, the second fails, and a
third rule, which would fail too, does not count. -/
theorem validateField_first_failure_witness :
    validateField (some ["min-length:1".toList, "max-length:1".toList, "min-length:9".toList])
      (.str "ab".toList) (Config.ofList []) =
      .ok (some "Maximum length is 1 characters".toList) :=
  (validateField_first_failure (.str "ab".toList) (Config.ofList [])).1
    ["min-length:1".toList] ["min-length:9".toList] "max-length:1".toList
    "Maximum length is 1 characters".toList (by decide) (by decide)

theorem land_high_mask (x k : Nat) (hk : k ≤ 32) (hx : x < 2 ^ 32) :
    Nat.land x (2 ^ 32 - 2 ^ k) = x / 2 ^ k * 2 ^ k := by
  show x &&& (2 ^ 32 - 2 ^ k) = x / 2 ^ k * 2 ^ k
  apply Nat.eq_of_testBit_eq
  intro i
  have hM : 2 ^ 32 - 2 ^ k = 2 ^ k * (2 ^ (32 - k) - 1) := by
    rw [Nat.mul_sub, ← pow_add, Nat.add_sub_cancel' hk, mul_one]
  rw [Nat.testBit_and, hM, Nat.testBit_mul_pow_two, Nat.mul_comm (x / 2 ^ k), Nat.testBit_mul_pow_two,
    Nat.testBit_two_pow_sub_one, ← Nat.shiftRight_eq_div_pow, Nat.testBit_shiftRight]
  by_cases hik : k ≤ i
  · have e : i - k + k = i := Nat.sub_add_cancel hik
    by_cases hi : i < 32
    · have : i - k < 32 - k := by omega
      simp [hik, this, e]
    · have hxi : x.testBit i = false := by
        apply Nat.testBit_lt_two_pow
        exact lt_of_lt_of_le hx (Nat.pow_le_pow_right (by norm_num) (by omega))
      simp [hik, hxi, e]
  · simp [hik]

theorem JSNum.toUint32_ofInt (i : Int) : JSNum.toUint32 (.ofInt i) = i % 2 ^ 32 := by
  simp [JSNum.toUint32, JSNum.ofInt, JSNum.trunc]

theorem JSNum.add_ofInt (m n : Int) : JSNum.add (.ofInt m) (.ofInt n) = .ofInt (m + n) := by
  simp [JSNum.add, JSNum.ofInt]

theorem JSNum.sub_ofInt (m n : Int) : JSNum.sub (.ofInt m) (.ofInt n) = .ofInt (m - n) := by
  simp [JSNum.sub, JSNum.neg, JSNum.add, JSNum.ofInt, sub_eq_add_neg]

theorem JSNum.eq_ofInt (m n : Int) : JSNum.eq (.ofInt m) (.ofInt n) = decide (m = n) := by
  simp [JSNum.eq, JSNum.ofInt]

/-- `ToInt32` tells apart two integers of `[0, 2^32)`. -/
theorem JSNum.toInt32_ofInt_inj (x y : Int) (hx : 0 ≤ x ∧ x < 2 ^ 32) (hy : 0 ≤ y ∧ y < 2 ^ 32) :
    JSNum.toInt32 (.ofInt x) = JSNum.toInt32 (.ofInt y) ↔ x = y := by
  have ex : x % 2 ^ 32 = x := Int.emod_eq_of_lt hx.1 hx.2
  have ey : y % 2 ^ 32 = y := Int.emod_eq_of_lt hy.1 hy.2
  simp only [JSNum.toInt32, JSNum.toUint32_ofInt, ex, ey]
  constructor
  · intro h
    split_ifs at h <;> omega
  · rintro rfl
    rfl

/-- The mask of a prefix length between 1 and 32 has the first `p` bits
set. -/
theorem maskOf_pos (p : Nat) (h1 : 1 ≤ p) (h2 : p ≤ 32) :
    maskOf (.ofInt p) = .ofInt (-(2 ^ (32 - p) : Int)) := by
  interval_cases p <;> decide

theorem JSNum.toUint32_neg_two_pow (k : Nat) (hk : k ≤ 32) :
    (JSNum.toUint32 (.ofInt (-(2 ^ k : Int)))).toNat = 2 ^ 32 - 2 ^ k := by
  rw [JSNum.toUint32_ofInt]
  interval_cases k <;> decide

/-- Two numbers masked to their first `p` bits are equal iff their unsigned
32-bit forms agree above the last `32 - p` bits. -/
theorem masked_eq_iff (s t : Int) (p : Nat) (h1 : 1 ≤ p) (h2 : p ≤ 32) :
    JSNum.eq (JSNum.band (.ofInt s) (maskOf (.ofInt p)))
        (JSNum.band (.ofInt t) (maskOf (.ofInt p))) =
      decide ((s % 2 ^ 32).toNat / 2 ^ (32 - p) = (t % 2 ^ 32).toNat / 2 ^ (32 - p)) := by
  have hk : 32 - p ≤ 32 := Nat.sub_le _ _
  have hb : ∀ u : Int, ((u % 2 ^ 32).toNat) < 2 ^ 32 := by
    intro u
    have := Int.emod_lt_of_pos u (by norm_num : (0 : Int) < 2 ^ 32)
    have := Int.emod_nonneg u (by norm_num : (2 ^ 32 : Int) ≠ 0)
    omega
  have hband : ∀ u : Int, JSNum.band (.ofInt u) (maskOf (.ofInt p)) =
      .ofInt (JSNum.toInt32 (.ofInt
        (((u % 2 ^ 32).toNat / 2 ^ (32 - p) * 2 ^ (32 - p) : Nat) : Int))) := by
    intro u
    rw [maskOf_pos p h1 h2]
    unfold JSNum.band
    rw [JSNum.toUint32_neg_two_pow _ hk, JSNum.toUint32_ofInt, land_high_mask _ _ hk (hb u)]
  have hrange : ∀ u : Int,
      0 ≤ (((u % 2 ^ 32).toNat / 2 ^ (32 - p) * 2 ^ (32 - p) : Nat) : Int) ∧
      (((u % 2 ^ 32).toNat / 2 ^ (32 - p) * 2 ^ (32 - p) : Nat) : Int) < 2 ^ 32 := by
    intro u
    have := Nat.div_mul_le_self (u % 2 ^ 32).toNat (2 ^ (32 - p))
    have := hb u
    constructor
    · exact Int.natCast_nonneg _
    · have h3 : (u % 2 ^ 32).toNat / 2 ^ (32 - p) * 2 ^ (32 - p) < 2 ^ 32 := by omega
      exact_mod_cast h3
  rw [hband s, hband t, JSNum.eq_ofInt]
  have hpos : 0 < 2 ^ (32 - p) := Nat.pow_pos (by norm_num)
  rw [decide_eq_decide, JSNum.toInt32_ofInt_inj _ _ (hrange s) (hrange t)]
  constructor
  · intro h
    have h' : (s % 2 ^ 32).toNat / 2 ^ (32 - p) * 2 ^ (32 - p) =
        (t % 2 ^ 32).toNat / 2 ^ (32 - p) * 2 ^ (32 - p) := by exact_mod_cast h
    exact Nat.eq_of_mul_eq_mul_right hpos h'
  · intro h
    rw [h]

set_option maxRecDepth 100000 in
/-- What the code reads from the decimal text of an octet. -/
theorem octet_text (n : Nat) (h : n < 256) :
    natToStr n ≠ [] ∧ (natToStr n).all isDigit = true ∧
      strToNum (natToStr n) = .ofInt n ∧ parseIntStr false (natToStr n) = .ofInt n ∧
      parseIntStr true (natToStr n) = .ofInt n ∧ numToStr (.ofInt n) = natToStr n := by
  revert n
  decide

set_option maxRecDepth 100000 in
/-- The shifts of `ipToInt` on an octet: only the first can leave the signed
32-bit range. -/
theorem octet_shl (n : Nat) (h : n < 256) :
    JSNum.shl (.ofInt n) (.ofInt 24) =
        .ofInt (if n < 128 then (n : Int) * 2 ^ 24 else (n : Int) * 2 ^ 24 - 2 ^ 32) ∧
      JSNum.shl (.ofInt n) (.ofInt 16) = .ofInt ((n : Int) * 2 ^ 16) ∧
      JSNum.shl (.ofInt n) (.ofInt 8) = .ofInt ((n : Int) * 2 ^ 8) := by
  revert n
  decide

theorem splitChar_not_mem (c : Char) : ∀ s : Str, c ∉ s → splitChar c s = [s]
  | [], _ => rfl
  | x :: s, h => by
    have hx : x ≠ c := fun e => h (by simp [e])
    have ih := splitChar_not_mem c s (fun hm => h (List.mem_cons_of_mem _ hm))
    simp [splitChar, hx, ih]

theorem splitChar_append (c : Char) (t : Str) :
    ∀ s : Str, c ∉ s → splitChar c (s ++ c :: t) = s :: splitChar c t
  | [], _ => by simp [splitChar]
  | x :: s, h => by
    have hx : x ≠ c := fun e => h (by simp [e])
    have ih := splitChar_append c t s (fun hm => h (List.mem_cons_of_mem _ hm))
    simp [splitChar, hx, ih]

theorem not_mem_of_all_isDigit (c : Char) (hc : isDigit c = false) (s : Str)
    (h : s.all isDigit = true) : c ∉ s := by
  intro hm
  rw [List.all_eq_true] at h
  rw [h c hm] at hc
  exact absurd hc (by decide)

theorem dot_not_mem_octet (n : Nat) (h : n < 256) : '.' ∉ natToStr n :=
  not_mem_of_all_isDigit '.' (by decide) _ (octet_text n h).2.1

theorem slash_not_mem_octet (n : Nat) (h : n < 256) : '/' ∉ natToStr n :=
  not_mem_of_all_isDigit '/' (by decide) _ (octet_text n h).2.1

theorem splitChar_dotted (a b c d : Nat) (ha : a < 256) (hb : b < 256) (hc : c < 256)
    (hd : d < 256) :
    splitChar '.' (dotted a b c d) = [natToStr a, natToStr b, natToStr c, natToStr d] := by
  unfold dotted
  rw [splitChar_append _ _ _ (dot_not_mem_octet a ha),
    splitChar_append _ _ _ (dot_not_mem_octet b hb),
    splitChar_append _ _ _ (dot_not_mem_octet c hc),
    splitChar_not_mem _ _ (dot_not_mem_octet d hd)]

theorem slash_not_mem_dotted (a b c d : Nat) (ha : a < 256) (hb : b < 256) (hc : c < 256)
    (hd : d < 256) : '/' ∉ dotted a b c d := by
  unfold dotted
  simp only [List.mem_append, List.mem_cons, not_or]
  exact ⟨slash_not_mem_octet a ha, by decide, slash_not_mem_octet b hb, by decide,
    slash_not_mem_octet c hc, by decide, slash_not_mem_octet d hd⟩

theorem splitChar_cidrText (a b c d p : Nat) (ha : a < 256) (hb : b < 256) (hc : c < 256)
    (hd : d < 256) (hp : p < 256) :
    splitChar '/' (cidrText a b c d p) = [dotted a b c d, natToStr p] := by
  unfold cidrText
  rw [splitChar_append _ _ _ (slash_not_mem_dotted a b c d ha hb hc hd),
    splitChar_not_mem _ _ (slash_not_mem_octet p hp)]

theorem splitChar_slash_dotted (a b c d : Nat) (ha : a < 256) (hb : b < 256) (hc : c < 256)
    (hd : d < 256) : splitChar '/' (dotted a b c d) = [dotted a b c d] :=
  splitChar_not_mem _ _ (slash_not_mem_dotted a b c d ha hb hc hd)

/-- The signed number that `ipToInt` computes for `a.b.c.d`. -/
theorem ipToInt_dotted (a b c d : Nat) (ha : a < 256) (hb : b < 256) (hc : c < 256)
    (hd : d < 256) :
    ipToInt (dotted a b c d) =
      .ofInt ((if a < 128 then (a : Int) * 2 ^ 24 else (a : Int) * 2 ^ 24 - 2 ^ 32) +
        (b : Int) * 2 ^ 16 + (c : Int) * 2 ^ 8 + d) := by
  unfold ipToInt
  simp only [splitChar_dotted a b c d ha hb hc hd, List.map_cons, List.map_nil,
    (octet_text a ha).2.2.1, (octet_text b hb).2.2.1, (octet_text c hc).2.2.1,
    (octet_text d hd).2.2.1, List.getD_cons_zero, List.getD_cons_succ,
    (octet_shl a ha).1, (octet_shl b hb).2.1, (octet_shl c hc).2.2, JSNum.add_ofInt]

/-- The unsigned 32-bit form of that number is the address. -/
theorem signed_address_mod (a b c d : Nat) (ha : a < 256) (hb : b < 256) (hc : c < 256)
    (hd : d < 256) :
    (((if a < 128 then (a : Int) * 2 ^ 24 else (a : Int) * 2 ^ 24 - 2 ^ 32) +
        (b : Int) * 2 ^ 16 + (c : Int) * 2 ^ 8 + d) % 2 ^ 32).toNat = ipv4 a b c d := by
  unfold ipv4
  split_ifs <;> norm_num <;> omega

theorem dotted_ne_nil (a b c d : Nat) (ha : a < 256) : dotted a b c d ≠ [] := by
  unfold dotted
  exact List.append_ne_nil_of_left_ne_nil (octet_text a ha).1 _

theorem truthy_dotted (a b c d : Nat) (ha : a < 256) :
    Value.truthy (.str (dotted a b c d)) = true := by
  simp [Value.truthy, dotted_ne_nil a b c d ha]

theorem truthy_cidrText (a b c d p : Nat) (ha : a < 256) :
    Value.truthy (.str (cidrText a b c d p)) = true := by
  simp [Value.truthy, cidrText, dotted_ne_nil a b c d ha]

theorem parseMaskBits_cidrText (a b c d p : Nat) (ha : a < 256) (hb : b < 256) (hc : c < 256)
    (hd : d < 256) (hp : p < 256) : parseMaskBits (cidrText a b c d p) = .ofInt p := by
  unfold parseMaskBits
  simp [splitChar_cidrText a b c d p ha hb hc hd hp, (octet_text p hp).2.2.2.2.1]

/-- For a prefix length from 1 to 32, `isIPWithinCIDR` compares the first `p`
bits of the two addresses. -/
theorem isIPWithinCIDR_of_pos (a b c d a' b' c' d' p : Nat)
    (ha : a < 256) (hb : b < 256) (hc : c < 256) (hd : d < 256)
    (ha' : a' < 256) (hb' : b' < 256) (hc' : c' < 256) (hd' : d' < 256)
    (h1 : 1 ≤ p) (h2 : p ≤ 32) :
    isIPWithinCIDR (.str (dotted a b c d)) (.str (cidrText a' b' c' d' p)) =
      decide (firstBits p (ipv4 a b c d) = firstBits p (ipv4 a' b' c' d')) := by
  have hp : p < 256 := by omega
  unfold isIPWithinCIDR
  simp only [truthy_dotted a b c d ha, truthy_cidrText a' b' c' d' p ha', Bool.not_true,
    Bool.or_self, Bool.false_eq_true, if_false,
    splitChar_cidrText a' b' c' d' p ha' hb' hc' hd' hp, List.headD_cons,
    parseMaskBits_cidrText a' b' c' d' p ha' hb' hc' hd' hp,
    ipToInt_dotted a b c d ha hb hc hd, ipToInt_dotted a' b' c' d' ha' hb' hc' hd',
    masked_eq_iff _ _ p h1 h2, signed_address_mod a b c d ha hb hc hd,
    signed_address_mod a' b' c' d' ha' hb' hc' hd', firstBits]

theorem jsMin_ofInt (p q : Nat) :
    JSNum.min (.ofInt p) (.ofInt q) = .ofInt ((min p q : Nat) : Int) := by
  unfold JSNum.min JSNum.isNaN JSNum.lt JSNum.ofInt
  simp only [Bool.or_self, Bool.false_eq_true, if_false, pow_zero, mul_one, decide_eq_true_eq]
  by_cases h : (q : Int) < p
  · have h' : q < p := by exact_mod_cast h
    rw [if_pos h, min_eq_right (le_of_lt h')]
  · have h' : ¬ q < p := by exact_mod_cast h
    rw [if_neg h, min_eq_left (not_lt.1 h')]

/-- For prefix lengths from 1 to 32, `doCIDRsOverlap` compares the first
`min p q` bits of the two addresses. -/
theorem doCIDRsOverlap_of_pos (a b c d p a' b' c' d' q : Nat)
    (ha : a < 256) (hb : b < 256) (hc : c < 256) (hd : d < 256)
    (ha' : a' < 256) (hb' : b' < 256) (hc' : c' < 256) (hd' : d' < 256)
    (hp1 : 1 ≤ p) (hp2 : p ≤ 32) (hq1 : 1 ≤ q) (hq2 : q ≤ 32) :
    doCIDRsOverlap (.str (cidrText a b c d p)) (.str (cidrText a' b' c' d' q)) =
      decide (firstBits (min p q) (ipv4 a b c d) = firstBits (min p q) (ipv4 a' b' c' d')) := by
  have hp : p < 256 := by omega
  have hq : q < 256 := by omega
  have hm1 : 1 ≤ min p q := by omega
  have hm2 : min p q ≤ 32 := by omega
  unfold doCIDRsOverlap
  simp only [truthy_cidrText a b c d p ha, truthy_cidrText a' b' c' d' q ha', Bool.not_true,
    Bool.or_self, Bool.false_eq_true, if_false,
    splitChar_cidrText a b c d p ha hb hc hd hp,
    splitChar_cidrText a' b' c' d' q ha' hb' hc' hd' hq, List.headD_cons,
    parseMaskBits_cidrText a b c d p ha hb hc hd hp,
    parseMaskBits_cidrText a' b' c' d' q ha' hb' hc' hd' hq, jsMin_ofInt,
    ipToInt_dotted a b c d ha hb hc hd, ipToInt_dotted a' b' c' d' ha' hb' hc' hd',
    masked_eq_iff _ _ _ hm1 hm2, signed_address_mod a b c d ha hb hc hd,
    signed_address_mod a' b' c' d' ha' hb' hc' hd', firstBits]

theorem JSNum.toInt32_ofInt_of_range (s : Int) (h1 : -2 ^ 31 ≤ s) (h2 : s < 2 ^ 31) :
    JSNum.toInt32 (.ofInt s) = s := by
  simp only [JSNum.toInt32, JSNum.toUint32_ofInt]
  split_ifs <;> omega

theorem JSNum.shiftCount_ofInt (k : Nat) (hk : k < 32) : JSNum.shiftCount (.ofInt k) = k := by
  simp only [JSNum.shiftCount, JSNum.toUint32_ofInt]
  omega

/-- Shifting a signed 32-bit number right and left by `k < 32` clears its
last `k` bits. -/
theorem shl_sar_clear (s : Int) (k : Nat) (hk : k < 32) (h1 : -2 ^ 31 ≤ s) (h2 : s < 2 ^ 31) :
    JSNum.shl (JSNum.sar (.ofInt s) (.ofInt k)) (.ofInt k) = .ofInt (s / 2 ^ k * 2 ^ k) := by
  have hr1 : -2 ^ 31 ≤ s / 2 ^ k ∧ s / 2 ^ k < 2 ^ 31 := by
    interval_cases k <;> norm_num <;> omega
  have hr2 : -2 ^ 31 ≤ s / 2 ^ k * 2 ^ k ∧ s / 2 ^ k * 2 ^ k < 2 ^ 31 := by
    interval_cases k <;> norm_num <;> omega
  unfold JSNum.shl JSNum.sar
  rw [JSNum.shiftCount_ofInt k hk, JSNum.toInt32_ofInt_of_range s h1 h2,
    JSNum.toInt32_ofInt_of_range _ hr1.1 hr1.2, JSNum.toInt32_ofInt_of_range _ hr2.1 hr2.2]

/-- The unsigned form of a signed 32-bit number with its last `k` bits
cleared. -/
theorem clear_mod (s : Int) (k : Nat) (hk : k < 32) :
    ((s / 2 ^ k * 2 ^ k) % 2 ^ 32).toNat = (s % 2 ^ 32).toNat / 2 ^ k * 2 ^ k := by
  interval_cases k <;> norm_num <;> omega

theorem land_255 (u : Nat) : Nat.land u 255 = u % 256 :=
  Nat.and_pow_two_sub_one_eq_mod u 8

theorem JSNum.band_255 (x : Int) :
    JSNum.band (.ofInt x) (.ofInt 255) = .ofInt (((x % 2 ^ 32).toNat % 256 : Nat) : Int) := by
  have h255 : (JSNum.toUint32 (.ofInt 255)).toNat = 255 := by decide
  unfold JSNum.band
  rw [h255, JSNum.toUint32_ofInt, land_255]
  rw [JSNum.toInt32_ofInt_of_range _ (by omega) (by omega)]

/-- The octet of `x` that `(x >>> j) & 0xFF` reads, for `j` = 24, 16, 8. -/
theorem JSNum.band_shr_255 (x : Int) (j : Nat) (hj : j < 32) :
    JSNum.band (JSNum.shr (.ofInt x) (.ofInt j)) (.ofInt 255) =
      .ofInt (((x % 2 ^ 32).toNat / 2 ^ j % 256 : Nat) : Int) := by
  have hx0 : 0 ≤ x % 2 ^ 32 := Int.emod_nonneg x (by norm_num)
  have hx1 : x % 2 ^ 32 < 2 ^ 32 := Int.emod_lt_of_pos x (by norm_num)
  unfold JSNum.shr
  rw [JSNum.shiftCount_ofInt j hj, JSNum.toUint32_ofInt, JSNum.band_255]
  congr 2
  have e : x % 2 ^ 32 / 2 ^ j = (((x % 2 ^ 32).toNat / 2 ^ j : Nat) : Int) := by
    rw [Int.natCast_div, Int.toNat_of_nonneg hx0]
    norm_cast
  rw [e]
  have hlt : (x % 2 ^ 32).toNat / 2 ^ j < 2 ^ 32 := by
    have : (x % 2 ^ 32).toNat < 2 ^ 32 := by omega
    exact lt_of_le_of_lt (Nat.div_le_self _ _) this
  have e2 : ∀ N : Nat, N < 2 ^ 32 → (((N : Int)) % 2 ^ 32).toNat = N := by
    intro N hN
    omega
  rw [e2 _ hlt]

theorem JSNum.pow2_ofInt (k : Nat) : JSNum.pow2 (.ofInt k) = some (.ofInt (2 ^ k)) := by
  simp [JSNum.pow2, JSNum.ofInt, JSNum.finIsInt]

theorem JSNum.mul_ofInt (m n : Int) : JSNum.mul (.ofInt m) (.ofInt n) = .ofInt (m * n) := by
  simp [JSNum.mul, JSNum.ofInt]

theorem JSNum.gt_ofInt (m n : Int) : JSNum.gt (.ofInt m) (.ofInt n) = decide (n < m) := by
  simp [JSNum.gt, JSNum.lt, JSNum.ofInt]

/-- The signed number of `a.b.c.d` lies in the signed 32-bit range. -/
theorem signed_address_range (a b c d : Nat) (ha : a < 256) (hb : b < 256) (hc : c < 256)
    (hd : d < 256) :
    -2 ^ 31 ≤ ((if a < 128 then (a : Int) * 2 ^ 24 else (a : Int) * 2 ^ 24 - 2 ^ 32) +
        (b : Int) * 2 ^ 16 + (c : Int) * 2 ^ 8 + d) ∧
      ((if a < 128 then (a : Int) * 2 ^ 24 else (a : Int) * 2 ^ 24 - 2 ^ 32) +
        (b : Int) * 2 ^ 16 + (c : Int) * 2 ^ 8 + d) < 2 ^ 31 := by
  split_ifs <;> norm_num <;> omega

/-- Adding an offset below `2 ^ k` to a 32-bit number whose last `k` bits are
clear does not leave the 32-bit range. -/
theorem base_add_offset_lt (u k m : Nat) (hk : k ≤ 32) (hu : u < 2 ^ 32) (hm : m < 2 ^ k) :
    u / 2 ^ k * 2 ^ k + m < 2 ^ 32 := by
  have hpos : 0 < 2 ^ k := Nat.pow_pos (by norm_num)
  have h32 : 2 ^ 32 = 2 ^ (32 - k) * 2 ^ k := by
    rw [← pow_add, Nat.sub_add_cancel hk]
  have hq : u / 2 ^ k < 2 ^ (32 - k) := by
    rw [Nat.div_lt_iff_lt_mul hpos, ← h32]
    exact hu
  have h3 : (u / 2 ^ k + 1) * 2 ^ k ≤ 2 ^ (32 - k) * 2 ^ k :=
    Nat.mul_le_mul_right _ hq
  rw [h32]
  have h4 : (u / 2 ^ k + 1) * 2 ^ k = u / 2 ^ k * 2 ^ k + 2 ^ k := by ring
  omega

/-- The unsigned form of the subnet address that `cidrsubnet` computes. -/
theorem subnet_address_mod (s : Int) (k m : Nat) (hk : k < 32) (hm : m < 2 ^ k) :
    ((s / 2 ^ k * 2 ^ k + (m : Int)) % 2 ^ 32).toNat =
      (s % 2 ^ 32).toNat / 2 ^ k * 2 ^ k + m := by
  have h1 := clear_mod s k hk
  have hu : (s % 2 ^ 32).toNat < 2 ^ 32 := by
    have := Int.emod_lt_of_pos s (by norm_num : (0 : Int) < 2 ^ 32)
    have := Int.emod_nonneg s (by norm_num : (2 ^ 32 : Int) ≠ 0)
    omega
  have h2 := base_add_offset_lt (s % 2 ^ 32).toNat k m (le_of_lt hk) hu hm
  generalize (s % 2 ^ 32).toNat / 2 ^ k * 2 ^ k = base at h1 h2 ⊢
  generalize s / 2 ^ k * 2 ^ k = t at h1 ⊢
  omega

theorem numToStr_octet (n : Nat) (h : n < 256) : numToStr (.ofInt (n : Int)) = natToStr n :=
  (octet_text n h).2.2.2.2.2

/-- The closed form of `cidrsubnet` for a parent prefix length from 1 to 32:
the parent address with its bits after the first `p` cleared, plus
`index * 2 ^ (32 - (p + newBits))`, at the prefix length `p + newBits`. -/
theorem cidrsubnet_of_pos (a b c d p newBits index : Nat)
    (ha : a < 256) (hb : b < 256) (hc : c < 256) (hd : d < 256)
    (h1 : 1 ≤ p) (h2 : p + newBits ≤ 32) (hi : index < 2 ^ newBits) :
    cidrsubnet (.str (cidrText a b c d p)) (.num (.ofInt newBits)) (.ofInt index) =
      some (dottedOfNat (ipv4 a b c d / 2 ^ (32 - p) * 2 ^ (32 - p) +
        index * 2 ^ (32 - (p + newBits))) ++ '/' :: natToStr (p + newBits)) := by
  have hp : p < 256 := by omega
  have hk : 32 - p < 32 := by omega
  have hsr := signed_address_range a b c d ha hb hc hd
  have hoff : index * 2 ^ (32 - (p + newBits)) < 2 ^ (32 - p) := by
    have e : 2 ^ (32 - p) = 2 ^ newBits * 2 ^ (32 - (p + newBits)) := by
      rw [← pow_add]
      congr 1
      omega
    rw [e]
    exact Nat.mul_lt_mul_of_pos_right hi (Nat.pow_pos (by norm_num))
  have hnp : JSNum.add (.ofInt (p : Int)) (.ofInt (newBits : Int)) =
      .ofInt ((p + newBits : Nat) : Int) := by
    rw [JSNum.add_ofInt]
    norm_cast
  have hsub1 : JSNum.sub (.ofInt 32) (.ofInt ((p + newBits : Nat) : Int)) =
      .ofInt ((32 - (p + newBits) : Nat) : Int) := by
    rw [JSNum.sub_ofInt]
    congr 1
    omega
  have hsub2 : JSNum.sub (.ofInt 32) (.ofInt (p : Int)) = .ofInt ((32 - p : Nat) : Int) := by
    rw [JSNum.sub_ofInt]
    congr 1
    omega
  have hgt : JSNum.gt (.ofInt ((p + newBits : Nat) : Int)) (.ofInt 32) = false := by
    rw [JSNum.gt_ofInt]
    simp only [decide_eq_false_iff_not, not_lt]
    exact_mod_cast h2
  have hmod := subnet_address_mod
    ((if a < 128 then (a : Int) * 2 ^ 24 else (a : Int) * 2 ^ 24 - 2 ^ 32) +
      (b : Int) * 2 ^ 16 + (c : Int) * 2 ^ 8 + d) (32 - p)
    (index * 2 ^ (32 - (p + newBits))) hk hoff
  rw [signed_address_mod a b c d ha hb hc hd] at hmod
  have hcast : ((index : Int) * 2 ^ (32 - (p + newBits))) =
      ((index * 2 ^ (32 - (p + newBits)) : Nat) : Int) := by
    norm_cast
  unfold cidrsubnet
  simp only [splitChar_cidrText a b c d p ha hb hc hd hp, List.headD_cons, List.get?_cons_succ,
    List.get?_cons_zero, (octet_text p hp).2.2.2.1, addToNumber, Value.toNumber, hnp, hgt,
    Bool.false_eq_true, if_false, splitChar_dotted a b c d ha hb hc hd, List.map_cons,
    List.map_nil, (octet_text a ha).2.2.2.1, (octet_text b hb).2.2.2.1,
    (octet_text c hc).2.2.2.1, (octet_text d hd).2.2.2.1, List.getD_cons_zero,
    List.getD_cons_succ, (octet_shl a ha).1, (octet_shl b hb).2.1, (octet_shl c hc).2.2,
    JSNum.add_ofInt, hsub1, hsub2, JSNum.pow2_ofInt,
    shl_sar_clear _ _ hk hsr.1 hsr.2, JSNum.mul_ofInt, Nat.cast_ofNat]
  rw [hcast]
  have o1 := JSNum.band_shr_255
    (((if a < 128 then (a : Int) * 2 ^ 24 else (a : Int) * 2 ^ 24 - 2 ^ 32) +
      (b : Int) * 2 ^ 16 + (c : Int) * 2 ^ 8 + d) / 2 ^ (32 - p) * 2 ^ (32 - p) +
      ((index * 2 ^ (32 - (p + newBits)) : Nat) : Int)) 24 (by norm_num)
  have o2 := JSNum.band_shr_255
    (((if a < 128 then (a : Int) * 2 ^ 24 else (a : Int) * 2 ^ 24 - 2 ^ 32) +
      (b : Int) * 2 ^ 16 + (c : Int) * 2 ^ 8 + d) / 2 ^ (32 - p) * 2 ^ (32 - p) +
      ((index * 2 ^ (32 - (p + newBits)) : Nat) : Int)) 16 (by norm_num)
  have o3 := JSNum.band_shr_255
    (((if a < 128 then (a : Int) * 2 ^ 24 else (a : Int) * 2 ^ 24 - 2 ^ 32) +
      (b : Int) * 2 ^ 16 + (c : Int) * 2 ^ 8 + d) / 2 ^ (32 - p) * 2 ^ (32 - p) +
      ((index * 2 ^ (32 - (p + newBits)) : Nat) : Int)) 8 (by norm_num)
  have o4 := JSNum.band_255
    (((if a < 128 then (a : Int) * 2 ^ 24 else (a : Int) * 2 ^ 24 - 2 ^ 32) +
      (b : Int) * 2 ^ 16 + (c : Int) * 2 ^ 8 + d) / 2 ^ (32 - p) * 2 ^ (32 - p) +
      ((index * 2 ^ (32 - (p + newBits)) : Nat) : Int))
  simp only [Nat.cast_ofNat] at o1 o2 o3
  rw [o1, o2, o3, o4, hmod, numToStr_octet _ (Nat.mod_lt _ (by norm_num)),
    numToStr_octet _ (Nat.mod_lt _ (by norm_num)), numToStr_octet _ (Nat.mod_lt _ (by norm_num)),
    numToStr_octet _ (Nat.mod_lt _ (by norm_num)), Value.toStr,
    numToStr_octet _ (by omega : p + newBits < 256)]
  simp [dottedOfNat, dotted]

/-- C3: for a parent prefix length from 1 to 32 the result is the claimed
one, the parent address with its bits after the first `p` cleared plus
`index * 2 ^ (32 - (p + newBits))`, at the prefix length `p + newBits`; at the
parent `10.0.0.0/16` of the claim it is `10.0.2.0/24`.  With the parent
`10.0.0.0/0` the shift count `32 - 0` is reduced to `0`, so the base is the
parent address itself and not the address masked to zero bits: the result is
`12.0.0.0/8` where the claim gives `2.0.0.0/8`. -/
theorem cidrsubnet_zero_prefix_base :
    (∀ a b c d p newBits index : Nat, a < 256 → b < 256 → c < 256 → d < 256 →
      1 ≤ p → p + newBits ≤ 32 → index < 2 ^ newBits →
      cidrsubnet (.str (cidrText a b c d p)) (.num (.ofInt newBits)) (.ofInt index) =
        some (dottedOfNat (ipv4 a b c d / 2 ^ (32 - p) * 2 ^ (32 - p) +
          index * 2 ^ (32 - (p + newBits))) ++ '/' :: natToStr (p + newBits))) ∧
      cidrsubnet (.str "10.0.0.0/16".toList) (.num (.ofInt 8)) (.ofInt 2) =
        some "10.0.2.0/24".toList ∧
      cidrsubnet (.str "10.0.0.0/0".toList) (.num (.ofInt 8)) (.ofInt 2) =
        some "12.0.0.0/8".toList ∧
      dottedOfNat (ipv4 10 0 0 0 / 2 ^ 32 * 2 ^ 32 + 2 * 2 ^ (32 - (0 + 8))) ++
        '/' :: natToStr (0 + 8) = "2.0.0.0/8".toList :=
  ⟨fun a b c d p newBits index ha hb hc hd h1 h2 hi =>
      cidrsubnet_of_pos a b c d p newBits index ha hb hc hd h1 h2 hi,
    by decide, by decide, by decide⟩

/-- C3, for the parent `200.100.50.25/20`, whose first octet is above 127:
4 more bits and index 9 give `200.100.57.0/24`. -/
theorem cidrsubnet_zero_prefix_base_witness :
    cidrsubnet (.str "200.100.50.25/20".toList) (.num (.ofInt 4)) (.ofInt 9) =
      some "200.100.57.0/24".toList :=
  (cidrsubnet_zero_prefix_base.1 200 100 50 25 20 4 9 (by decide) (by decide) (by decide)
    (by decide) (by decide) (by decide) (by decide)).trans (by decide)

/-- C4: for a prefix length from 1 to 32, `isIPWithinCIDR` is true iff the
first `p` bits of the two addresses are equal, also for addresses whose first
octet is above 127, and the two examples of the claim hold.  For a `/0` block
the mask `~((1 << 32) - 1)` is `~0`, all ones, since the shift count 32 is
reduced to 0: an address is inside `0.0.0.0/0` only if it is `0.0.0.0`. -/
theorem isIPWithinCIDR_prefix_zero :
    (∀ a b c d a' b' c' d' p : Nat, a < 256 → b < 256 → c < 256 → d < 256 →
      a' < 256 → b' < 256 → c' < 256 → d' < 256 → 1 ≤ p → p ≤ 32 →
      isIPWithinCIDR (.str (dotted a b c d)) (.str (cidrText a' b' c' d' p)) =
        decide (firstBits p (ipv4 a b c d) = firstBits p (ipv4 a' b' c' d'))) ∧
      isIPWithinCIDR (.str "10.0.0.200".toList) (.str "10.0.0.0/24".toList) = true ∧
      isIPWithinCIDR (.str "10.0.1.1".toList) (.str "10.0.0.0/24".toList) = false ∧
      maskOf (.ofInt 0) = .ofInt (-1) ∧
      isIPWithinCIDR (.str "10.0.0.1".toList) (.str "0.0.0.0/0".toList) = false :=
  ⟨fun a b c d a' b' c' d' p ha hb hc hd ha' hb' hc' hd' h1 h2 =>
      isIPWithinCIDR_of_pos a b c d a' b' c' d' p ha hb hc hd ha' hb' hc' hd' h1 h2,
    by decide, by decide, by decide, by decide⟩

/-- C4, for the address `200.1.2.2` and the block `200.1.2.3/31`. -/
theorem isIPWithinCIDR_prefix_zero_witness :
    isIPWithinCIDR (.str "200.1.2.2".toList) (.str "200.1.2.3/31".toList) = true :=
  (isIPWithinCIDR_prefix_zero.1 200 1 2 2 200 1 2 3 31 (by decide) (by decide) (by decide)
    (by decide) (by decide) (by decide) (by decide) (by decide) (by decide)
    (by decide)).trans (by decide)

/-- C5: for prefix lengths from 1 to 32, `doCIDRsOverlap` is true iff the two
addresses agree on their first `min p q` bits, and the two examples of the
claim hold.  When the smaller prefix length is 0 the mask is all ones, as for
C4, and `0.0.0.0/0` does not overlap `10.0.0.0/8`. -/
theorem doCIDRsOverlap_prefix_zero :
    (∀ a b c d p a' b' c' d' q : Nat, a < 256 → b < 256 → c < 256 → d < 256 →
      a' < 256 → b' < 256 → c' < 256 → d' < 256 → 1 ≤ p → p ≤ 32 → 1 ≤ q → q ≤ 32 →
      doCIDRsOverlap (.str (cidrText a b c d p)) (.str (cidrText a' b' c' d' q)) =
        decide (firstBits (min p q) (ipv4 a b c d) =
          firstBits (min p q) (ipv4 a' b' c' d'))) ∧
      doCIDRsOverlap (.str "10.0.0.0/24".toList) (.str "10.0.0.128/25".toList) = true ∧
      doCIDRsOverlap (.str "10.0.0.0/24".toList) (.str "10.0.1.0/24".toList) = false ∧
      doCIDRsOverlap (.str "0.0.0.0/0".toList) (.str "10.0.0.0/8".toList) = false :=
  ⟨fun a b c d p a' b' c' d' q ha hb hc hd ha' hb' hc' hd' hp1 hp2 hq1 hq2 =>
      doCIDRsOverlap_of_pos a b c d p a' b' c' d' q ha hb hc hd ha' hb' hc' hd'
        hp1 hp2 hq1 hq2,
    by decide, by decide, by decide⟩

/-- C5, for the blocks `200.1.0.0/16` and `200.1.2.0/24`. -/
theorem doCIDRsOverlap_prefix_zero_witness :
    doCIDRsOverlap (.str "200.1.0.0/16".toList) (.str "200.1.2.0/24".toList) = true :=
  (doCIDRsOverlap_prefix_zero.1 200 1 0 0 16 200 1 2 0 24 (by decide) (by decide) (by decide)
    (by decide) (by decide) (by decide) (by decide) (by decide) (by decide) (by decide)
    (by decide) (by decide)).trans (by decide)

/-- C6: a malformed argument does not make the helpers fail.  The address
`abc` is read as `NaN`, which the bit operators take as 0, so it is inside
`0.0.0.0/8` and overlaps it; a CIDR with no prefix part has the mask of all
ones and contains its own address. -/
theorem network_helpers_accept_malformed :
    ipToInt "abc".toList = .nan ∧
      isIPWithinCIDR (.str "abc".toList) (.str "0.0.0.0/8".toList) = true ∧
      doCIDRsOverlap (.str "abc".toList) (.str "0.0.0.0/8".toList) = true ∧
      isIPWithinCIDR (.str "10.0.0.1".toList) (.str "10.0.0.1".toList) = true := by
  decide

theorem takeWhile_append_stop {p : Char → Bool} (xs ys : Str)
    (hx : ∀ c ∈ xs, p c = true) (hy : ∀ c, ys.head? = some c → p c = false) :
    (xs ++ ys).takeWhile p = xs := by
  induction xs with
  | nil =>
    cases ys with
    | nil => rfl
    | cons y ys => simp [List.takeWhile, hy y rfl]
  | cons x xs ih =>
    simp [List.takeWhile, hx x (by simp), ih (fun c hc => hx c (List.mem_cons_of_mem _ hc))]

theorem dropWhile_append_stop {p : Char → Bool} (xs ys : Str)
    (hx : ∀ c ∈ xs, p c = true) (hy : ∀ c, ys.head? = some c → p c = false) :
    (xs ++ ys).dropWhile p = ys := by
  induction xs with
  | nil =>
    cases ys with
    | nil => rfl
    | cons y ys => simp [List.dropWhile, hy y rfl]
  | cons x xs ih =>
    simp [List.dropWhile, hx x (by simp), ih (fun c hc => hx c (List.mem_cons_of_mem _ hc))]

theorem findSome?_reverse_range_succ {α : Type} (f : Nat → Option α) (n : Nat) (a : α)
    (h : f n = some a) : (List.range (n + 1)).reverse.findSome? f = some a := by
  rw [List.range_succ, List.reverse_append]
  simp [List.findSome?, h]

theorem isWord_not_space (c : Char) (h : isWord c = true) : isSpace c = false := by
  unfold isWord isDigit at h
  unfold isSpace
  simp only [Bool.or_eq_true, Bool.and_eq_true, decide_eq_true_eq, beq_iff_eq] at h
  simp only [Bool.or_eq_false_iff, Bool.and_eq_false_iff, beq_eq_false_iff_ne, ne_eq,
    decide_eq_false_iff_not]
  omega

theorem isDigit_not_space (c : Char) (h : isDigit c = true) : isSpace c = false := by
  unfold isDigit at h
  unfold isSpace
  simp only [Bool.and_eq_true, decide_eq_true_eq] at h
  simp only [Bool.or_eq_false_iff, Bool.and_eq_false_iff, beq_eq_false_iff_ne, ne_eq,
    decide_eq_false_iff_not]
  omega

theorem isWord_ne_comma (c : Char) (h : isWord c = true) : (c != ',') = true := by
  rw [bne_iff_ne]
  rintro rfl
  exact absurd h (by decide)

theorem isDigit_isRadixDigit (c : Char) (h : isDigit c = true) : isRadixDigit 10 c = true := by
  unfold isDigit at h
  simp only [Bool.and_eq_true, decide_eq_true_eq] at h
  unfold isRadixDigit digitValue
  have h1 : (decide (0x30 ≤ c.toNat) && decide (c.toNat ≤ 0x39)) = true := by simp [h]
  simp only [h1, if_true]
  simp only [decide_eq_true_eq]
  omega

theorem dropWhile_eq_self_of_head {p : Char → Bool} (s : Str)
    (h : ∀ c, s.head? = some c → p c = false) : s.dropWhile p = s := by
  cases s with
  | nil => rfl
  | cons x xs => simp [List.dropWhile, h x rfl]

theorem jsTrim_eq_self (s : Str) (hh : ∀ c, s.head? = some c → isSpace c = false)
    (hl : ∀ c, s.getLast? = some c → isSpace c = false) : jsTrim s = s := by
  rw [jsTrim_eq, dropWhile_eq_self_of_head s hh, List.rdropWhile_eq_self_iff]
  intro hne
  have := hl (s.getLast hne) (List.getLast?_eq_getLast _ hne)
  simp [this]

theorem jsTrim_word (s : Str) (h : ∀ c ∈ s, isWord c = true) : jsTrim s = s := by
  apply jsTrim_eq_self
  · intro c hc
    exact isWord_not_space c (h c (List.mem_of_mem_head? hc))
  · intro c hc
    exact isWord_not_space c (h c (List.mem_of_mem_getLast? hc))

theorem parseIntStr_digits (i : Str) (hne : i ≠ []) (hd : ∀ c ∈ i, isDigit c = true) :
    parseIntStr false i = .ofInt (radixValue 10 i) := by
  have h1 : i.dropWhile isSpace = i :=
    dropWhile_eq_self_of_head i
      (fun c hc => isDigit_not_space c (hd c (List.mem_of_mem_head? hc)))
  have h2 : startsWithChar '-' i = false := by
    cases i with
    | nil => rfl
    | cons x xs =>
      have hx := hd x (by simp)
      simp only [startsWithChar, beq_eq_false_iff_ne, ne_eq]
      rintro rfl
      exact absurd hx (by decide)
  have h3 : startsWithChar '+' i = false := by
    cases i with
    | nil => rfl
    | cons x xs =>
      have hx := hd x (by simp)
      simp only [startsWithChar, beq_eq_false_iff_ne, ne_eq]
      rintro rfl
      exact absurd hx (by decide)
  have h4 : i.takeWhile (isRadixDigit 10) = i := by
    have := takeWhile_append_stop (p := isRadixDigit 10) i []
      (fun c hc => isDigit_isRadixDigit c (hd c hc)) (by simp)
    simpa using this
  unfold parseIntStr
  simp only [h1, h2, h3, Bool.or_self, Bool.false_eq_true, if_false, Bool.false_and, h4,
    if_neg hne]

theorem matchCidrsubnet_of_at (s : Str) (m : Str × Str × Str)
    (h : matchCidrsubnetAt s = some m) : matchCidrsubnet s = some m := by
  cases s with
  | nil => simp [matchCidrsubnetAt] at h
  | cons c cs => simp [matchCidrsubnet, h]

theorem captureArg_space_word (b : Str) (hne : b ≠ []) (hb : ∀ c ∈ b, isWord c = true) :
    captureArg (' ' :: b) = some b := by
  have htw : (' ' :: b).takeWhile isSpace = [' '] := by
    have := takeWhile_append_stop (p := isSpace) [' '] b (by decide)
      (fun c hc => isWord_not_space c (hb c (List.mem_of_mem_head? hc)))
    simpa using this
  unfold captureArg
  rw [htw]
  exact findSome?_reverse_range_succ _ 1 b (by simp [hne])

/-- The subnet pattern matches an expression `cidrsubnet(a, b, i)` at its
start and captures `a`, `b` and `i`. -/
theorem matchCidrsubnet_form (a b i : Str)
    (ha : a ≠ []) (haw : ∀ c ∈ a, isWord c = true)
    (hb : b ≠ []) (hbw : ∀ c ∈ b, isWord c = true)
    (hi : i ≠ []) (hid : ∀ c ∈ i, isDigit c = true) :
    matchCidrsubnet ("cidrsubnet(".toList ++ a ++ ", ".toList ++ b ++ ", ".toList ++ i ++
      ")".toList) = some (a, b, i) := by
  apply matchCidrsubnet_of_at
  have e : "cidrsubnet(".toList ++ a ++ ", ".toList ++ b ++ ", ".toList ++ i ++ ")".toList =
      "cidrsubnet(".toList ++ (a ++ ',' :: (' ' :: b ++ ',' :: (' ' :: i ++ [')']))) := by
    simp
  rw [e]
  have hpre : "cidrsubnet(".toList.isPrefixOf
      ("cidrsubnet(".toList ++ (a ++ ',' :: (' ' :: b ++ ',' :: (' ' :: i ++ [')'])))) = true := by
    rw [List.isPrefixOf_iff_prefix]
    exact List.prefix_append _ _
  have hdrop : ("cidrsubnet(".toList ++ (a ++ ',' :: (' ' :: b ++ ',' :: (' ' :: i ++ [')'])))).drop 11
      = a ++ ',' :: (' ' :: b ++ ',' :: (' ' :: i ++ [')'])) := by
    exact List.drop_left' (by decide)
  have h1 : (a ++ ',' :: (' ' :: b ++ ',' :: (' ' :: i ++ [')']))).takeWhile (fun c => c != ',')
      = a := takeWhile_append_stop a _ (fun c hc => isWord_ne_comma c (haw c hc)) (by simp)
  have h2 : (a ++ ',' :: (' ' :: b ++ ',' :: (' ' :: i ++ [')']))).dropWhile (fun c => c != ',')
      = ',' :: (' ' :: b ++ ',' :: (' ' :: i ++ [')'])) :=
    dropWhile_append_stop a _ (fun c hc => isWord_ne_comma c (haw c hc)) (by simp)
  have hsb : ∀ c ∈ ' ' :: b, (c != ',') = true := by
    intro c hc
    rcases List.mem_cons.1 hc with rfl | hc
    · decide
    · exact isWord_ne_comma c (hbw c hc)
  have h3 : (' ' :: b ++ ',' :: (' ' :: i ++ [')'])).takeWhile (fun c => c != ',') = ' ' :: b :=
    takeWhile_append_stop (' ' :: b) _ hsb (by simp)
  have h4 : (' ' :: b ++ ',' :: (' ' :: i ++ [')'])).dropWhile (fun c => c != ',')
      = ',' :: (' ' :: i ++ [')']) :=
    dropWhile_append_stop (' ' :: b) _ hsb (by simp)
  have h5 : (' ' :: i ++ [')']).dropWhile isSpace = i ++ [')'] := by
    have := dropWhile_append_stop (p := isSpace) [' '] (i ++ [')']) (by decide) (by
      intro c hc
      cases i with
      | nil => exact absurd rfl hi
      | cons x xs =>
        simp only [List.cons_append, List.head?_cons, Option.some.injEq] at hc
        subst hc
        exact isDigit_not_space _ (hid _ (by simp)))
    simpa using this
  have h6 : (i ++ [')']).takeWhile isDigit = i :=
    takeWhile_append_stop i _ hid (by simp; decide)
  have h7 : (i ++ [')']).dropWhile isDigit = [')'] :=
    dropWhile_append_stop i _ hid (by simp; decide)
  unfold matchCidrsubnetAt
  simp only [hpre, if_true, hdrop, h1, h2, h3, h4, h5, h6, h7,
    captureArg_space_word b hb hbw]
  simp [ha, hi, startsWithChar]

/-- C7 (amended): for an expression `cidrsubnet(a, b, i)` with field names
`a`, `b` and a decimal literal `i`, `computeValue` returns the empty string
when `config[a]` or `config[b]` is falsy (absent, `null`, the empty string,
and also `0`, `NaN` or `false`), and otherwise exactly
`cidrsubnet(config[a], config[b], i)`. -/
theorem computeValue_cidrsubnet_form (config : Config) (a b i : Str)
    (ha : a ≠ []) (haw : ∀ c ∈ a, isWord c = true)
    (hb : b ≠ []) (hbw : ∀ c ∈ b, isWord c = true)
    (hi : i ≠ []) (hid : ∀ c ∈ i, isDigit c = true) :
    computeValue (.str ("cidrsubnet(".toList ++ a ++ ", ".toList ++ b ++ ", ".toList ++ i ++
        ")".toList)) config =
      if (config a).truthy = false ∨ (config b).truthy = false then some []
      else cidrsubnet (config a) (config b) (.ofInt (radixValue 10 i)) := by
  have hm := matchCidrsubnet_form a b i ha haw hb hbw hi hid
  have htr : Value.truthy (.str ("cidrsubnet(".toList ++ a ++ ", ".toList ++ b ++
      ", ".toList ++ i ++ ")".toList)) = true := by
    simp [Value.truthy]
  unfold computeValue
  simp only [htr, Bool.not_true, Bool.false_eq_true, if_false, hm, jsTrim_word a haw,
    jsTrim_word b hbw, parseIntStr_digits i hi hid]
  by_cases h1 : (config a).truthy = true <;> by_cases h2 : (config b).truthy = true <;>
    simp [h1, h2]

/-- C7 as stated fails: the number 0 is a set value of `config[b]`, and
`cidrsubnet` gives the parent block for it, but `computeValue` returns the
empty string. -/
theorem computeValue_cidrsubnet_form_counterexample :
    Value.isUnset (.num (.ofInt 0)) = false ∧
      computeValue (.str "cidrsubnet(a, b, 0)".toList)
        (Config.ofList [("a".toList, .str "10.0.0.0/16".toList),
          ("b".toList, .num (.ofInt 0))]) = some [] ∧
      cidrsubnet (.str "10.0.0.0/16".toList) (.num (.ofInt 0)) (.ofInt 0) =
        some "10.0.0.0/16".toList := by
  decide

/-- C7 (amended), at `cidrsubnet(vpc_cidr, subnet_bits, 2)` with the parent
`10.0.0.0/16` and 8 bits. -/
theorem computeValue_cidrsubnet_form_witness :
    computeValue (.str "cidrsubnet(vpc_cidr, subnet_bits, 2)".toList)
        (Config.ofList [("vpc_cidr".toList, .str "10.0.0.0/16".toList),
          ("subnet_bits".toList, .num (.ofInt 8))]) =
      some "10.0.2.0/24".toList :=
  (computeValue_cidrsubnet_form
    (Config.ofList [("vpc_cidr".toList, .str "10.0.0.0/16".toList),
      ("subnet_bits".toList, .num (.ofInt 8))])
    "vpc_cidr".toList "subnet_bits".toList "2".toList
    (by decide) (by decide) (by decide) (by decide) (by decide) (by decide)).trans (by decide)

theorem matchPlaceholderAt_eq_none (s : Str) (h : ∀ r, s ≠ '$' :: '{' :: r) :
    matchPlaceholderAt s = none := by
  unfold matchPlaceholderAt
  split
  · rename_i r
    exact absurd rfl (h r)
  · rfl

theorem replacePlaceholders_text (config : Config) (rest : Str)
    (hrest : rest.head? ≠ some '{') :
    ∀ t : Str, ¬ ['$', '{'] <:+: t →
      replacePlaceholders config 0 (t ++ rest) = t ++ replacePlaceholders config 0 rest
  | [], _ => rfl
  | c :: t, h => by
    have hnone : matchPlaceholderAt (c :: (t ++ rest)) = none := by
      apply matchPlaceholderAt_eq_none
      intro r hr
      cases t with
      | nil =>
        simp only [List.nil_append, List.cons.injEq] at hr
        rw [hr.2] at hrest
        exact hrest rfl
      | cons y t =>
        simp only [List.cons_append, List.cons.injEq] at hr
        obtain ⟨rfl, rfl, -⟩ := hr
        exact h ⟨[], t, rfl⟩
    have ih := replacePlaceholders_text config rest hrest t
      (fun hi => h (hi.trans (List.suffix_cons c t).isInfix))
    rw [List.cons_append, replacePlaceholders, hnone]
    simp only [ih, List.cons_append]

theorem replacePlaceholders_skip (config : Config) (rest : Str) :
    ∀ xs : Str, replacePlaceholders config xs.length (xs ++ rest) =
      replacePlaceholders config 0 rest
  | [] => rfl
  | x :: xs => by
    rw [List.length_cons, List.cons_append]
    show replacePlaceholders config (xs.length + 1) (x :: (xs ++ rest)) = _
    rw [replacePlaceholders]
    exact replacePlaceholders_skip config rest xs

theorem ne_brace_of_not_mem (name : Str) (h : '}' ∉ name) :
    ∀ c ∈ name, (c != '}') = true := by
  intro c hc
  rw [bne_iff_ne]
  rintro rfl
  exact h hc

theorem replacePlaceholders_hole (config : Config) (name rest : Str)
    (hne : name ≠ []) (hb : '}' ∉ name) :
    replacePlaceholders config 0 ('$' :: '{' :: name ++ '}' :: rest) =
      (if (config (jsTrim name)).isUnset then '$' :: '{' :: name ++ ['}']
        else (config (jsTrim name)).toStr) ++ replacePlaceholders config 0 rest := by
  have h1 : (name ++ '}' :: rest).takeWhile (fun c => c != '}') = name :=
    takeWhile_append_stop name _ (ne_brace_of_not_mem name hb) (by simp)
  have h2 : (name ++ '}' :: rest).dropWhile (fun c => c != '}') = '}' :: rest :=
    dropWhile_append_stop name _ (ne_brace_of_not_mem name hb) (by simp)
  have hm : matchPlaceholderAt ('$' :: '{' :: (name ++ '}' :: rest)) = some name := by
    simp only [matchPlaceholderAt, h1, h2]
    simp [hne, startsWithChar]
  have hs := replacePlaceholders_skip config rest ('{' :: name ++ ['}'])
  have hl : ('{' :: name ++ ['}']).length = name.length + 2 := by simp
  have he : '{' :: name ++ ['}'] ++ rest = '{' :: (name ++ '}' :: rest) := by simp
  rw [hl, he] at hs
  show replacePlaceholders config 0 ('$' :: '{' :: (name ++ '}' :: rest)) = _
  rw [replacePlaceholders, hm]
  simp only [hs]
  by_cases hu : (config (jsTrim name)).isUnset = true <;> simp [hu]

theorem evaluateTemplate_templateText (config : Config) (last : Str)
    (hlast : ¬ ['$', '{'] <:+: last) :
    ∀ parts : List (Str × Str),
      (∀ p ∈ parts, ¬ ['$', '{'] <:+: p.1) →
      (∀ p ∈ parts, p.2 ≠ [] ∧ '}' ∉ p.2 ∧ jsTrim p.2 = p.2) →
      evaluateTemplate (templateText parts last) config = templateExpansion config parts last
  | [], _, _ => by
    have := replacePlaceholders_text config [] (by simp) last hlast
    simpa [evaluateTemplate, templateText, templateExpansion, replacePlaceholders] using this
  | (text, name) :: rest, ht, hn => by
    have ih := evaluateTemplate_templateText config last hlast rest
      (fun p hp => ht p (List.mem_cons_of_mem _ hp))
      (fun p hp => hn p (List.mem_cons_of_mem _ hp))
    obtain ⟨hne, hb, htrim⟩ := hn (text, name) (by simp)
    unfold evaluateTemplate at ih ⊢
    simp only at hne hb htrim
    rw [templateText, templateExpansion, List.append_assoc,
      replacePlaceholders_text config _ (by simp) text (ht (text, name) (by simp)),
      replacePlaceholders_hole config name _ hne hb, ih, htrim]
    simp

theorem matchTemplate_of_at (s m : Str) (h : matchTemplateAt s = some m) :
    matchTemplate s = some m := by
  cases s with
  | nil => simp [matchTemplateAt] at h
  | cons c cs => simp [matchTemplate, h]

/-- The template pattern matches `template("T")` at its start and captures
`T`, when `T` is not empty and has no line terminator. -/
theorem matchTemplate_form (T : Str) (hne : T ≠ [])
    (hline : ∀ c ∈ T, isLineTerminator c = false) :
    matchTemplate ("template(".toList ++ '"' :: T ++ ['"', ')']) = some T := by
  apply matchTemplate_of_at
  have e : "template(".toList ++ '"' :: T ++ ['"', ')'] =
      ("template(".toList ++ ['"']) ++ (T ++ ['"', ')']) := by simp
  rw [e]
  have hpre : ("template(".toList ++ ['"']).isPrefixOf
      (("template(".toList ++ ['"']) ++ (T ++ ['"', ')'])) = true := by
    rw [List.isPrefixOf_iff_prefix]
    exact List.prefix_append _ _
  have hdrop : (("template(".toList ++ ['"']) ++ (T ++ ['"', ')'])).drop 10 = T ++ ['"', ')'] :=
    List.drop_left' (by decide)
  have hrun : (T ++ ['"', ')']).takeWhile (fun c => !isLineTerminator c) = T ++ ['"', ')'] := by
    have := takeWhile_append_stop (p := fun c => !isLineTerminator c) (T ++ ['"', ')']) []
      (by
        intro c hc
        rcases List.mem_append.1 hc with hc | hc
        · simp [hline c hc]
        · simp only [List.mem_cons, List.mem_singleton, List.not_mem_nil, or_false] at hc
          rcases hc with rfl | rfl <;> decide)
      (by simp)
    simpa using this
  unfold matchTemplateAt
  simp only [hpre, if_true, hdrop, hrun]
  have hlen : (T ++ ['"', ')']).length - 1 = T.length + 1 := by simp
  rw [hlen]
  apply findSome?_reverse_range_succ
  have h1 : 1 ≤ T.length := List.length_pos.2 hne
  simp [h1]

/-- C8 (amended): for an expression `template("T")` that does not match the
subnet pattern, where `T` has no line terminator and is made of literal texts
free of `${` and of placeholders `${name}` whose names are not empty, have no
`}` and no surrounding white space, `computeValue` returns `T` with each
placeholder replaced by the string form of `config[name]` when that value is
set and left as it is when the value is unset; the literal texts are
unchanged. -/
theorem computeValue_template (config : Config) (parts : List (Str × Str)) (last : Str)
    (htext : ∀ p ∈ parts, ¬ ['$', '{'] <:+: p.1) (hlast : ¬ ['$', '{'] <:+: last)
    (hname : ∀ p ∈ parts, p.2 ≠ [] ∧ '}' ∉ p.2 ∧ jsTrim p.2 = p.2)
    (hline : ∀ c ∈ templateText parts last, isLineTerminator c = false)
    (hsub : matchCidrsubnet
      ("template(".toList ++ '"' :: templateText parts last ++ ['"', ')']) = none) :
    computeValue (.str ("template(".toList ++ '"' :: templateText parts last ++ ['"', ')']))
      config = some (templateExpansion config parts last) := by
  by_cases hT : templateText parts last = []
  · have hp : parts = [] := by
      cases parts with
      | nil => rfl
      | cons p ps =>
        obtain ⟨text, name⟩ := p
        simp [templateText] at hT
    subst hp
    have hl : last = [] := by simpa [templateText] using hT
    subst hl
    rfl
  · have hm := matchTemplate_form (templateText parts last) hT hline
    have htr : Value.truthy
        (.str ("template(".toList ++ '"' :: templateText parts last ++ ['"', ')'])) = true := by
      simp [Value.truthy]
    unfold computeValue
    simp only [htr, Bool.not_true, Bool.false_eq_true, if_false, hsub, hm,
      evaluateTemplate_templateText config last hlast parts htext hname]

/-- C8 as stated fails: the template `T` made of `a`, a line feed and `b` has
no placeholder, and `template("T")` does not match the subnet pattern, but
the result is the empty string and not `T`. -/
theorem computeValue_template_counterexample :
    matchCidrsubnet ("template(".toList ++ '"' :: ['a', Char.ofNat 10, 'b'] ++ ['"', ')']) =
        none ∧
      templateExpansion (Config.ofList []) [] ['a', Char.ofNat 10, 'b'] =
        ['a', Char.ofNat 10, 'b'] ∧
      computeValue (.str ("template(".toList ++ '"' :: ['a', Char.ofNat 10, 'b'] ++ ['"', ')']))
        (Config.ofList []) = some [] := by
  decide

/-- C8 (amended), at the template `${env}-${role}-x` of the claim, with both
fields set and with `role` unset. -/
theorem computeValue_template_witness :
    computeValue (.str ("template(".toList ++ '"' ::
        templateText [([], "env".toList), ("-".toList, "role".toList)] "-x".toList ++ ['"', ')']))
        (Config.ofList [("env".toList, .str "prod".toList), ("role".toList, .str "web".toList)]) =
      some "prod-web-x".toList ∧
    computeValue (.str ("template(".toList ++ '"' ::
        templateText [([], "env".toList), ("-".toList, "role".toList)] "-x".toList ++ ['"', ')']))
        (Config.ofList [("env".toList, .str "prod".toList)]) =
      some ("prod-".toList ++ '$' :: '{' :: "role".toList ++ '}' :: "-x".toList) :=
  ⟨(computeValue_template
      (Config.ofList [("env".toList, .str "prod".toList), ("role".toList, .str "web".toList)])
      [([], "env".toList), ("-".toList, "role".toList)] "-x".toList
      (by decide) (by decide) (by decide) (by decide) (by decide)).trans (by decide),
    (computeValue_template (Config.ofList [("env".toList, .str "prod".toList)])
      [([], "env".toList), ("-".toList, "role".toList)] "-x".toList
      (by decide) (by decide) (by decide) (by decide) (by decide)).trans (by decide)⟩

theorem isSpace_not_word (c : Char) (h : isSpace c = true) : isWord c = false := by
  cases hw : isWord c with
  | false => rfl
  | true => rw [isWord_not_space c hw] at h; exact absurd h (by decide)

/-- The match of an atom pattern on `f ws r`: the field is `f`, and the
operator is looked for at the start of `r`. -/
theorem matchOp_form (op f ws r : Str) (hf : f ≠ []) (hfw : ∀ c ∈ f, isWord c = true)
    (hws : ∀ c ∈ ws, isSpace c = true)
    (hr : ∀ c, r.head? = some c → isWord c = false ∧ isSpace c = false) :
    matchOp op (f ++ ws ++ r) =
      if op.isPrefixOf r then (captureValue (r.drop op.length)).map fun v => (f, v)
      else none := by
  have hstop : ∀ c, (ws ++ r).head? = some c → isWord c = false := by
    intro c hc
    cases ws with
    | nil => exact (hr c hc).1
    | cons w ws =>
      simp only [List.cons_append, List.head?_cons, Option.some.injEq] at hc
      subst hc
      exact isSpace_not_word _ (hws _ (by simp))
  have h1 : (f ++ (ws ++ r)).takeWhile isWord = f := takeWhile_append_stop f _ hfw hstop
  have h2 : (f ++ (ws ++ r)).dropWhile isWord = ws ++ r := dropWhile_append_stop f _ hfw hstop
  have h3 : (ws ++ r).dropWhile isSpace = r :=
    dropWhile_append_stop ws r hws (fun c hc => (hr c hc).2)
  unfold matchOp
  rw [List.append_assoc]
  simp only [h1, h2, h3, hf, ne_eq, not_false_eq_true, true_and]

theorem captureValue_form (ws v : Str) (hws : ∀ c ∈ ws, isSpace c = true) (hv : v ≠ [])
    (hh : ∀ c, v.head? = some c → isSpace c = false)
    (hl : ∀ c ∈ v, isLineTerminator c = false) :
    captureValue (ws ++ v) = some v := by
  have h1 : (ws ++ v).takeWhile isSpace = ws := takeWhile_append_stop ws v hws hh
  unfold captureValue
  rw [h1]
  apply findSome?_reverse_range_succ
  have h2 : (ws ++ v).drop ws.length = v := List.drop_left' rfl
  have h3 : v.all (fun x => !isLineTerminator x) = true := by
    rw [List.all_eq_true]
    intro c hc
    simp [hl c hc]
  simp [h2, hv, h3]

theorem evaluateSingleCondition_eq_atom (config : Config) (f ws1 ws2 v : Str)
    (hf : f ≠ []) (hfw : ∀ c ∈ f, isWord c = true)
    (hws1 : ∀ c ∈ ws1, isSpace c = true) (hws2 : ∀ c ∈ ws2, isSpace c = true)
    (hv : v ≠ []) (hh : ∀ c, v.head? = some c → isSpace c = false)
    (hl : ∀ c ∈ v, isLineTerminator c = false) :
    evaluateSingleCondition (f ++ ws1 ++ "==".toList ++ ws2 ++ v) config =
      compareValues (config f) (parseValue v) := by
  have e : f ++ ws1 ++ "==".toList ++ ws2 ++ v = f ++ ws1 ++ ('=' :: '=' :: (ws2 ++ v)) := by
    simp
  have hr : ∀ c, ('=' :: '=' :: (ws2 ++ v)).head? = some c →
      isWord c = false ∧ isSpace c = false := by
    intro c hc
    simp only [List.head?_cons, Option.some.injEq] at hc
    subst hc
    decide
  have hcap := captureValue_form ws2 v hws2 hv hh hl
  rw [e]
  unfold evaluateSingleCondition
  simp only [matchOp_form _ f ws1 _ hf hfw hws1 hr]
  simp [List.isPrefixOf, hcap]

theorem evaluateSingleCondition_neq_atom (config : Config) (f ws1 ws2 v : Str)
    (hf : f ≠ []) (hfw : ∀ c ∈ f, isWord c = true)
    (hws1 : ∀ c ∈ ws1, isSpace c = true) (hws2 : ∀ c ∈ ws2, isSpace c = true)
    (hv : v ≠ []) (hh : ∀ c, v.head? = some c → isSpace c = false)
    (hl : ∀ c ∈ v, isLineTerminator c = false) :
    evaluateSingleCondition (f ++ ws1 ++ "!=".toList ++ ws2 ++ v) config =
      !compareValues (config f) (parseValue v) := by
  have e : f ++ ws1 ++ "!=".toList ++ ws2 ++ v = f ++ ws1 ++ ('!' :: '=' :: (ws2 ++ v)) := by
    simp
  have hr : ∀ c, ('!' :: '=' :: (ws2 ++ v)).head? = some c →
      isWord c = false ∧ isSpace c = false := by
    intro c hc
    simp only [List.head?_cons, Option.some.injEq] at hc
    subst hc
    decide
  have hcap := captureValue_form ws2 v hws2 hv hh hl
  rw [e]
  unfold evaluateSingleCondition
  simp only [matchOp_form _ f ws1 _ hf hfw hws1 hr]
  simp [List.isPrefixOf, hcap]

theorem startsWithChar_iff (c : Char) (s : Str) :
    startsWithChar c s = true ↔ s.head? = some c := by
  cases s with
  | nil => simp [startsWithChar]
  | cons x xs => simp [startsWithChar]

theorem endsWithChar_iff (c : Char) (s : Str) :
    endsWithChar c s = true ↔ s.getLast? = some c := by
  rw [endsWithChar, startsWithChar_iff, List.head?_reverse]

theorem parseValue_string (v : Str) (hv : jsTrim v = v) (h1 : v ≠ "true".toList)
    (h2 : v ≠ "false".toList) (h3 : isDecimalLiteral v = false) :
    parseValue v = .str (stripQuotes v) := by
  unfold parseValue stripQuotes
  simp only [hv, h1, h2, h3, if_false, Bool.false_eq_true, Bool.or_eq_true, Bool.and_eq_true,
    startsWithChar_iff, endsWithChar_iff]
  split <;> rfl

/-- C9: for a field name `f` (word characters) and a literal `v` (not empty,
on one line, without surrounding white space), the atom `f == v` is true iff:
`v` is `true` or `false` and the truthiness of `config[f]` equals it; or `v`
is a signed decimal literal and the numeric coercion of `config[f]` equals
that number; or otherwise the string form of `config[f]` equals `v` with one
pair of surrounding matching quotes stripped, ignoring letter case.  The atom
`f != v` is true iff `f == v` is false. -/
theorem atom_equality_semantics (config : Config) (f ws1 ws2 v : Str)
    (hf : f ≠ []) (hfw : ∀ c ∈ f, isWord c = true)
    (hws1 : ∀ c ∈ ws1, isSpace c = true) (hws2 : ∀ c ∈ ws2, isSpace c = true)
    (hv : v ≠ []) (hh : ∀ c, v.head? = some c → isSpace c = false)
    (hlast : ∀ c, v.getLast? = some c → isSpace c = false)
    (hl : ∀ c ∈ v, isLineTerminator c = false) :
    evaluateSingleCondition (f ++ ws1 ++ "==".toList ++ ws2 ++ v) config =
        (if v = "true".toList then (config f).truthy == true
        else if v = "false".toList then (config f).truthy == false
        else if isDecimalLiteral v then JSNum.eq (config f).toNumber (strToNum v)
        else jsToLowerCase (config f).toStr == jsToLowerCase (stripQuotes v)) ∧
      evaluateSingleCondition (f ++ ws1 ++ "!=".toList ++ ws2 ++ v) config =
        !evaluateSingleCondition (f ++ ws1 ++ "==".toList ++ ws2 ++ v) config := by
  have htrim : jsTrim v = v := jsTrim_eq_self v hh hlast
  rw [evaluateSingleCondition_eq_atom config f ws1 ws2 v hf hfw hws1 hws2 hv hh hl,
    evaluateSingleCondition_neq_atom config f ws1 ws2 v hf hfw hws1 hws2 hv hh hl]
  refine ⟨?_, rfl⟩
  by_cases h1 : v = "true".toList
  · subst h1
    rfl
  by_cases h2 : v = "false".toList
  · subst h2
    rfl
  rw [if_neg h1, if_neg h2]
  cases h3 : isDecimalLiteral v with
  | true =>
    have hp : parseValue v = .num (strToNum v) := by
      unfold parseValue
      simp only [htrim, h1, h2, h3, if_false, if_true]
    rw [hp]
    rfl
  | false =>
    rw [parseValue_string v htrim h1 h2 h3]
    rfl

/-- C9, at the atoms `env == "Prod"` and `env != "Prod"` with `env` set to
`PROD`: the quotes are stripped and the letter case is ignored. -/
theorem atom_equality_semantics_witness :
    evaluateSingleCondition ("env".toList ++ " ".toList ++ "==".toList ++ " ".toList ++
        ['"', 'P', 'r', 'o', 'd', '"']) (Config.ofList [("env".toList, .str "PROD".toList)]) =
        true ∧
      evaluateSingleCondition ("env".toList ++ " ".toList ++ "!=".toList ++ " ".toList ++
        ['"', 'P', 'r', 'o', 'd', '"']) (Config.ofList [("env".toList, .str "PROD".toList)]) =
        false :=
  have h := atom_equality_semantics (Config.ofList [("env".toList, .str "PROD".toList)])
    "env".toList " ".toList " ".toList ['"', 'P', 'r', 'o', 'd', '"']
    (by decide) (by decide) (by decide) (by decide) (by decide) (by decide) (by decide)
    (by decide)
  ⟨h.1.trans (by decide), h.2.trans (by rw [h.1]; decide)⟩

theorem JSNum.lt_nan_left (b : JSNum) : JSNum.lt .nan b = false := by
  cases b <;> rfl

theorem JSNum.lt_nan_right (a : JSNum) : JSNum.lt a .nan = false := by
  cases a <;> rfl

theorem JSNum.ge_nan_left (b : JSNum) : JSNum.ge .nan b = false := rfl

theorem JSNum.le_nan_left (b : JSNum) : JSNum.le .nan b = false := rfl

theorem JSNum.gt_nan_left (b : JSNum) : JSNum.gt .nan b = false :=
  JSNum.lt_nan_right b

/-- The characters of a decimal literal: digits, a minus sign, a point. -/
theorem isDecimalLiteral_chars (n : Str) (h : isDecimalLiteral n = true) :
    n ≠ [] ∧ ∀ c ∈ n, isDigit c = true ∨ c = '-' ∨ c = '.' := by
  unfold isDecimalLiteral at h
  simp only [Bool.and_eq_true, decide_eq_true_eq] at h
  obtain ⟨hip, hr⟩ := h
  have hu : ∀ u : Str, u.takeWhile isDigit ≠ [] →
      (match u.dropWhile isDigit with
        | [] => true
        | c :: fp => c == '.' && decide (fp ≠ []) && fp.all isDigit) = true →
      u ≠ [] ∧ ∀ c ∈ u, isDigit c = true ∨ c = '-' ∨ c = '.' := by
    intro u h1 h2
    refine ⟨fun hnil => h1 (by simp [hnil]), ?_⟩
    intro c hc
    rw [← List.takeWhile_append_dropWhile isDigit u] at hc
    rcases List.mem_append.1 hc with hc | hc
    · exact Or.inl (List.mem_takeWhile_imp hc)
    · cases hd : u.dropWhile isDigit with
      | nil => rw [hd] at hc; exact absurd hc (List.not_mem_nil _)
      | cons x fp =>
        rw [hd] at hc h2
        simp only [Bool.and_eq_true, beq_iff_eq, decide_eq_true_eq, List.all_eq_true] at h2
        rcases List.mem_cons.1 hc with rfl | hc
        · exact Or.inr (Or.inr h2.1.1)
        · exact Or.inl (h2.2 c hc)
  by_cases hs : startsWithChar '-' n = true
  · simp only [hs, if_true] at hip hr
    obtain ⟨-, hall⟩ := hu (n.drop 1) hip hr
    cases n with
    | nil => simp [startsWithChar] at hs
    | cons x xs =>
      refine ⟨by simp, ?_⟩
      intro c hc
      rcases List.mem_cons.1 hc with rfl | hc
      · simp only [startsWithChar, beq_iff_eq] at hs
        exact Or.inr (Or.inl hs)
      · exact hall c (by simpa using hc)
  · simp only [hs, if_false, Bool.false_eq_true] at hip hr
    exact hu n hip hr

theorem not_pair_infix_of_not_mem (c : Char) (s : Str) (h : c ∉ s) : ¬ [c, c] <:+: s := by
  intro hi
  exact h (hi.subset (by simp))

/-- An expression without `|` and `&` and without surrounding white space is
a single atom. -/
theorem evaluateCondition_single_atom (config : Config) (s : Str) (hne : s ≠ [])
    (hbar : '|' ∉ s) (hamp : '&' ∉ s)
    (hh : ∀ c, s.head? = some c → isSpace c = false)
    (hl : ∀ c, s.getLast? = some c → isSpace c = false) :
    evaluateCondition (.str s) config = evaluateSingleCondition s config := by
  have htr : Value.truthy (.str s) = true := by simp [Value.truthy, hne]
  have ht : jsTrim s = s := jsTrim_eq_self s hh hl
  have h1 := split2_eq_singleton '|' '|' s (not_pair_infix_of_not_mem '|' s hbar)
  have h2 := split2_eq_singleton '&' '&' s (not_pair_infix_of_not_mem '&' s hamp)
  unfold evaluateCondition
  simp [htr, h1, h2, ht]

theorem ordering_atom_false (config : Config) (f n : Str)
    (hf : f ≠ []) (hfw : ∀ c ∈ f, isWord c = true) (hn : isDecimalLiteral n = true)
    (hnan : (config f).toNumber = .nan) :
    evaluateSingleCondition (f ++ " > ".toList ++ n) config = false ∧
      evaluateSingleCondition (f ++ " >= ".toList ++ n) config = false ∧
      evaluateSingleCondition (f ++ " < ".toList ++ n) config = false ∧
      evaluateSingleCondition (f ++ " <= ".toList ++ n) config = false := by
  obtain ⟨hne, hch⟩ := isDecimalLiteral_chars n hn
  have hsp : ∀ c ∈ n, isSpace c = false := by
    intro c hc
    rcases hch c hc with h | rfl | rfl
    · exact isDigit_not_space c h
    · decide
    · decide
  have hlt : ∀ c ∈ n, isLineTerminator c = false := by
    intro c hc
    rcases hch c hc with h | rfl | rfl
    · unfold isDigit at h
      simp only [Bool.and_eq_true, decide_eq_true_eq] at h
      unfold isLineTerminator
      simp only [Bool.or_eq_false_iff, beq_eq_false_iff_ne, ne_eq]
      omega
    · decide
    · decide
  have hcap : captureValue (' ' :: n) = some n :=
    captureValue_form [' '] n (by decide) hne
      (fun c hc => hsp c (List.mem_of_mem_head? hc)) hlt
  have hr : ∀ (o : Char) (t : Str), isWord o = false → isSpace o = false →
      ∀ c, (o :: t).head? = some c → isWord c = false ∧ isSpace c = false := by
    intro o t h1 h2 c hc
    simp only [List.head?_cons, Option.some.injEq] at hc
    subst hc
    exact ⟨h1, h2⟩
  have e1 : f ++ " > ".toList ++ n = f ++ [' '] ++ ('>' :: ' ' :: n) := by simp
  have e2 : f ++ " >= ".toList ++ n = f ++ [' '] ++ ('>' :: '=' :: ' ' :: n) := by simp
  have e3 : f ++ " < ".toList ++ n = f ++ [' '] ++ ('<' :: ' ' :: n) := by simp
  have e4 : f ++ " <= ".toList ++ n = f ++ [' '] ++ ('<' :: '=' :: ' ' :: n) := by simp
  rw [e1, e2, e3, e4]
  unfold evaluateSingleCondition
  refine ⟨?_, ?_, ?_, ?_⟩
  · simp only [matchOp_form _ f [' '] _ hf hfw (by decide) (hr '>' _ (by decide) (by decide))]
    simp [List.isPrefixOf, hcap, hnan, JSNum.gt_nan_left]
  · simp only [matchOp_form _ f [' '] _ hf hfw (by decide) (hr '>' _ (by decide) (by decide))]
    simp [List.isPrefixOf, hcap, hnan, JSNum.ge_nan_left]
  · simp only [matchOp_form _ f [' '] _ hf hfw (by decide) (hr '<' _ (by decide) (by decide))]
    simp [List.isPrefixOf, hcap, hnan, JSNum.lt_nan_left]
  · simp only [matchOp_form _ f [' '] _ hf hfw (by decide) (hr '<' _ (by decide) (by decide))]
    simp [List.isPrefixOf, hcap, hnan, JSNum.le_nan_left]

theorem evaluateCondition_field_literal (config : Config) (f mid n : Str)
    (hf : f ≠ []) (hfw : ∀ c ∈ f, isWord c = true) (hn : isDecimalLiteral n = true)
    (hmid : '|' ∉ mid ∧ '&' ∉ mid) :
    evaluateCondition (.str (f ++ mid ++ n)) config =
      evaluateSingleCondition (f ++ mid ++ n) config := by
  obtain ⟨hne, hch⟩ := isDecimalLiteral_chars n hn
  have hfc : ∀ c ∈ f, c ≠ '|' ∧ c ≠ '&' := by
    intro c hc
    constructor <;> rintro rfl <;> exact absurd (hfw _ hc) (by decide)
  have hnc : ∀ c ∈ n, c ≠ '|' ∧ c ≠ '&' ∧ isSpace c = false := by
    intro c hc
    rcases hch c hc with h | rfl | rfl
    · refine ⟨?_, ?_, isDigit_not_space c h⟩ <;> rintro rfl <;> exact absurd h (by decide)
    · decide
    · decide
  apply evaluateCondition_single_atom
  · simp [hf]
  · simp only [List.mem_append, not_or]
    exact ⟨⟨fun h => (hfc _ h).1 rfl, hmid.1⟩, fun h => (hnc _ h).1 rfl⟩
  · simp only [List.mem_append, not_or]
    exact ⟨⟨fun h => (hfc _ h).2 rfl, hmid.2⟩, fun h => (hnc _ h).2.1 rfl⟩
  · intro c hc
    cases f with
    | nil => exact absurd rfl hf
    | cons x xs =>
      simp only [List.cons_append, List.head?_cons, Option.some.injEq] at hc
      subst hc
      exact isWord_not_space _ (hfw _ (by simp))
  · intro c hc
    rw [List.getLast?_append_of_ne_nil _ hne] at hc
    exact (hnc c (List.mem_of_mem_getLast? hc)).2.2

/-- C10: when the numeric coercion of `config[f]` is `NaN` (a string that
denotes no number, such as `abc`, or a field that is absent), each of the
atoms `f > n`, `f >= n`, `f < n`, `f <= n` with a numeric literal `n`
evaluates to `false` under `evaluateCondition`. -/
theorem ordering_false_of_non_numeric (config : Config) (f n : Str)
    (hf : f ≠ []) (hfw : ∀ c ∈ f, isWord c = true) (hn : isDecimalLiteral n = true)
    (hnan : (config f).toNumber = .nan) :
    evaluateCondition (.str (f ++ " > ".toList ++ n)) config = false ∧
      evaluateCondition (.str (f ++ " >= ".toList ++ n)) config = false ∧
      evaluateCondition (.str (f ++ " < ".toList ++ n)) config = false ∧
      evaluateCondition (.str (f ++ " <= ".toList ++ n)) config = false := by
  have h := ordering_atom_false config f n hf hfw hn hnan
  rw [evaluateCondition_field_literal config f _ n hf hfw hn (by decide),
    evaluateCondition_field_literal config f _ n hf hfw hn (by decide),
    evaluateCondition_field_literal config f _ n hf hfw hn (by decide),
    evaluateCondition_field_literal config f _ n hf hfw hn (by decide)]
  exact h

/-- C10, at the example of the claim, `count >= 3` with `count` set to `abc`,
and at the same atom with `count` absent. -/
theorem ordering_false_of_non_numeric_witness :
    Value.toNumber (.str "abc".toList) = .nan ∧ Value.toNumber .undefined = .nan ∧
      evaluateCondition (.str "count >= 3".toList)
        (Config.ofList [("count".toList, .str "abc".toList)]) = false ∧
      evaluateCondition (.str "count >= 3".toList) (Config.ofList []) = false :=
  ⟨by decide, by decide,
    (ordering_false_of_non_numeric (Config.ofList [("count".toList, .str "abc".toList)])
      "count".toList "3".toList (by decide) (by decide) (by decide) (by decide)).2.1,
    (ordering_false_of_non_numeric (Config.ofList [])
      "count".toList "3".toList (by decide) (by decide) (by decide) (by decide)).2.1⟩

theorem JSNum.lt_eq_false_iff_ge (a b : JSNum) :
    JSNum.lt a b = false ↔ a.isNaN = true ∨ b.isNaN = true ∨ JSNum.ge a b = true := by
  unfold JSNum.ge
  cases a <;> cases b <;> simp [JSNum.isNaN, JSNum.lt]
  rename_i x y
  cases x <;> cases y <;> simp

theorem JSNum.gt_eq_false_iff_le (a b : JSNum) :
    JSNum.gt a b = false ↔ a.isNaN = true ∨ b.isNaN = true ∨ JSNum.le a b = true := by
  unfold JSNum.le JSNum.gt
  cases a <;> cases b <;> simp [JSNum.isNaN, JSNum.lt]
  rename_i x y
  cases x <;> cases y <;> simp

/-- The name and the parameter that `validateRule` reads from `name:param`
when neither has a colon. -/
theorem validateRule_name_param (name param : Str) (value : Value) (config : Config)
    (hn : ':' ∉ name) (hp : ':' ∉ param) :
    validateRule (name ++ ':' :: param) value config =
      applyRule name (.str param) value config := by
  unfold validateRule
  simp only [splitChar_append ':' param name hn, splitChar_not_mem ':' param hp,
    List.headD_cons, List.get?_cons_succ, List.get?_cons_zero]

theorem applyRule_min (p value : Value) (config : Config) :
    applyRule "min".toList p value config = .ok (ruleMin p value) := by
  unfold applyRule
  rw [if_neg (by decide), if_neg (by decide), if_pos rfl]

theorem applyRule_max (p value : Value) (config : Config) :
    applyRule "max".toList p value config = .ok (ruleMax p value) := by
  unfold applyRule
  rw [if_neg (by decide), if_neg (by decide), if_neg (by decide), if_pos rfl]

theorem ruleMin_pass (p value : Value) :
    ruleMin p value = none ↔ JSNum.lt value.toNumber p.toNumber = false := by
  unfold ruleMin
  cases h : JSNum.lt value.toNumber p.toNumber <;> simp

theorem ruleMax_pass (p value : Value) :
    ruleMax p value = none ↔ JSNum.gt value.toNumber p.toNumber = false := by
  unfold ruleMax
  cases h : JSNum.gt value.toNumber p.toNumber <;> simp

/-- C11 (amended): for a numeric parameter `N`, the rule `min:N` passes iff
the numeric coercion of the value is `NaN` or is `>= N`, and the rule `max:N`
passes iff it is `NaN` or is `<= N`. -/
theorem rule_min_max_pass (value : Value) (config : Config) (N : Str)
    (hcolon : ':' ∉ N) (hnum : (strToNum N).isNaN = false) :
    (validateRule ("min:".toList ++ N) value config = .ok none ↔
        value.toNumber.isNaN = true ∨ JSNum.ge value.toNumber (strToNum N) = true) ∧
      (validateRule ("max:".toList ++ N) value config = .ok none ↔
        value.toNumber.isNaN = true ∨ JSNum.le value.toNumber (strToNum N) = true) := by
  have e1 : "min:".toList ++ N = "min".toList ++ ':' :: N := by simp
  have e2 : "max:".toList ++ N = "max".toList ++ ':' :: N := by simp
  rw [e1, e2, validateRule_name_param _ N value config (by decide) hcolon,
    validateRule_name_param _ N value config (by decide) hcolon, applyRule_min, applyRule_max]
  constructor
  · rw [Except.ok.injEq, ruleMin_pass, JSNum.lt_eq_false_iff_ge]
    simp [Value.toNumber, hnum]
  · rw [Except.ok.injEq, ruleMax_pass, JSNum.gt_eq_false_iff_le]
    simp [Value.toNumber, hnum]

/-- C11 as stated fails: the numeric coercion of `abc` is `NaN`, which is
neither `>= 5` nor `<= 5`, and the value passes `min:5` and `max:5`. -/
theorem rule_min_max_pass_counterexample :
    Value.toNumber (.str "abc".toList) = .nan ∧
      JSNum.ge .nan (strToNum "5".toList) = false ∧
      JSNum.le .nan (strToNum "5".toList) = false ∧
      validateRule "min:5".toList (.str "abc".toList) (Config.ofList []) = .ok none ∧
      validateRule "max:5".toList (.str "abc".toList) (Config.ofList []) = .ok none := by
  decide

/-- C11 (amended), at the parameter `5`: the value `7` passes `min:5` and the
value `3` does not. -/
theorem rule_min_max_pass_witness :
    validateRule "min:5".toList (.str "7".toList) (Config.ofList []) = .ok none ∧
      validateRule "min:5".toList (.str "3".toList) (Config.ofList []) ≠ .ok none :=
  ⟨((rule_min_max_pass (.str "7".toList) (Config.ofList []) "5".toList
      (by decide) (by decide)).1).2 (by decide),
    fun h => absurd (((rule_min_max_pass (.str "3".toList) (Config.ofList []) "5".toList
      (by decide) (by decide)).1).1 h) (by decide)⟩

theorem applyRule_gte (p value : Value) (config : Config) :
    applyRule "gte".toList p value config = .ok (ruleGte p value config) := by
  unfold applyRule
  rw [if_neg (by decide), if_neg (by decide), if_neg (by decide), if_neg (by decide),
    if_pos rfl]

theorem applyRule_lte (p value : Value) (config : Config) :
    applyRule "lte".toList p value config = .ok (ruleLte p value config) := by
  unfold applyRule
  rw [if_neg (by decide), if_neg (by decide), if_neg (by decide), if_neg (by decide),
    if_neg (by decide), if_pos rfl]

theorem ruleGte_pass (r : Str) (value : Value) (config : Config) :
    ruleGte (.str r) value config = none ↔
      (config r).isUnset = true ∨ JSNum.lt value.toNumber (config r).toNumber = false := by
  unfold ruleGte
  simp only [Value.toStr]
  cases h1 : (config r).isUnset <;> cases h2 : JSNum.lt value.toNumber (config r).toNumber <;>
    simp

theorem ruleLte_pass (r : Str) (value : Value) (config : Config) :
    ruleLte (.str r) value config = none ↔
      (config r).isUnset = true ∨ JSNum.gt value.toNumber (config r).toNumber = false := by
  unfold ruleLte
  simp only [Value.toStr]
  cases h1 : (config r).isUnset <;> cases h2 : JSNum.gt value.toNumber (config r).toNumber <;>
    simp

/-- C12 (amended): if `config[r]` is unset the rules `gte:r` and `lte:r`
pass; otherwise `gte:r` passes iff the numeric coercion of the value or of
`config[r]` is `NaN` or the first is `>=` the second, and `lte:r` passes iff
one of them is `NaN` or the first is `<=` the second. -/
theorem rule_gte_lte_pass (value : Value) (config : Config) (r : Str) (hcolon : ':' ∉ r) :
    ((config r).isUnset = true →
        validateRule ("gte:".toList ++ r) value config = .ok none ∧
          validateRule ("lte:".toList ++ r) value config = .ok none) ∧
      ((config r).isUnset = false →
        (validateRule ("gte:".toList ++ r) value config = .ok none ↔
          value.toNumber.isNaN = true ∨ (config r).toNumber.isNaN = true ∨
            JSNum.ge value.toNumber (config r).toNumber = true) ∧
        (validateRule ("lte:".toList ++ r) value config = .ok none ↔
          value.toNumber.isNaN = true ∨ (config r).toNumber.isNaN = true ∨
            JSNum.le value.toNumber (config r).toNumber = true)) := by
  have e1 : "gte:".toList ++ r = "gte".toList ++ ':' :: r := by simp
  have e2 : "lte:".toList ++ r = "lte".toList ++ ':' :: r := by simp
  rw [e1, e2, validateRule_name_param _ r value config (by decide) hcolon,
    validateRule_name_param _ r value config (by decide) hcolon, applyRule_gte, applyRule_lte]
  simp only [Except.ok.injEq, ruleGte_pass, ruleLte_pass, JSNum.lt_eq_false_iff_ge,
    JSNum.gt_eq_false_iff_le]
  constructor
  · intro h
    exact ⟨Or.inl h, Or.inl h⟩
  · intro h
    simp [h]

/-- C12 as stated fails: with `config[r]` set to 5, the value `abc`, whose
numeric coercion `NaN` is not `>= 5`, passes `gte:r`; and with `config[r]` set
to `abc` the value 3 passes `gte:r` and `lte:r`. -/
theorem rule_gte_lte_pass_counterexample :
    JSNum.ge (Value.toNumber (.str "abc".toList)) (Value.toNumber (.num (.ofInt 5))) = false ∧
      validateRule "gte:r".toList (.str "abc".toList)
        (Config.ofList [("r".toList, .num (.ofInt 5))]) = .ok none ∧
      JSNum.ge (Value.toNumber (.num (.ofInt 3))) (Value.toNumber (.str "abc".toList)) = false ∧
      JSNum.le (Value.toNumber (.num (.ofInt 3))) (Value.toNumber (.str "abc".toList)) = false ∧
      validateRule "gte:r".toList (.num (.ofInt 3))
        (Config.ofList [("r".toList, .str "abc".toList)]) = .ok none ∧
      validateRule "lte:r".toList (.num (.ofInt 3))
        (Config.ofList [("r".toList, .str "abc".toList)]) = .ok none := by
  decide

/-- C12 (amended), at the reference `r`: unset, every value passes; set to 5,
the value 7 passes `gte:r`. -/
theorem rule_gte_lte_pass_witness :
    validateRule "gte:r".toList (.num (.ofInt 1)) (Config.ofList []) = .ok none ∧
      validateRule "gte:r".toList (.num (.ofInt 7))
        (Config.ofList [("r".toList, .num (.ofInt 5))]) = .ok none :=
  ⟨((rule_gte_lte_pass (.num (.ofInt 1)) (Config.ofList []) "r".toList (by decide)).1
      (by decide)).1,
    (((rule_gte_lte_pass (.num (.ofInt 7)) (Config.ofList [("r".toList, .num (.ofInt 5))])
      "r".toList (by decide)).2 (by decide)).1).2 (by decide)⟩

theorem isDigit_mem (c : Char) (h : isDigit c = true) :
    c ∈ ['0', '1', '2', '3', '4', '5', '6', '7', '8', '9'] := by
  unfold isDigit at h
  simp only [Bool.and_eq_true, decide_eq_true_eq] at h
  have hc : c = Char.ofNat c.toNat := (Char.ofNat_toNat c).symm
  generalize c.toNat = n at h hc
  obtain ⟨h1, h2⟩ := h
  subst hc
  interval_cases n <;> decide

theorem all_isDigit_iff (s : Str) : s.all isDigit = true ↔ ∀ c ∈ s, isDigit c = true := by
  simp [List.all_eq_true]

/-- What a successful `eatOctet` says of its input. -/
theorem eatOctet_some (sep : Char) (s rest : Str) (h : eatOctet sep s = some rest) :
    ∃ ds : Str, s = ds ++ sep :: rest ∧ 1 ≤ ds.length ∧ ds.length ≤ 3 ∧
      ∀ c ∈ ds, isDigit c = true := by
  unfold eatOctet at h
  cases hd : s.dropWhile isDigit with
  | nil => simp [hd] at h
  | cons c r =>
    simp only [hd] at h
    split_ifs at h with hc
    · obtain ⟨h1, h2, rfl⟩ := hc
      injection h with h
      subst h
      refine ⟨s.takeWhile isDigit, ?_, h1, h2, fun x hx => List.mem_takeWhile_imp hx⟩
      rw [← hd, List.takeWhile_append_dropWhile]

theorem eatOctet_of (sep : Char) (hsep : isDigit sep = false) (ds rest : Str)
    (h1 : 1 ≤ ds.length) (h2 : ds.length ≤ 3) (hd : ∀ c ∈ ds, isDigit c = true) :
    eatOctet sep (ds ++ sep :: rest) = some rest := by
  unfold eatOctet
  rw [takeWhile_append_stop ds _ hd (by simp [hsep]),
    dropWhile_append_stop ds _ hd (by simp [hsep])]
  simp [h1, h2]

set_option maxRecDepth 100000 in
theorem isPrefixLength_natToStr : ∀ p, p ≤ 32 → isPrefixLength (natToStr p) = true := by
  decide

set_option maxRecDepth 100000 in
theorem isPrefixLength_some (rest : Str) (h : isPrefixLength rest = true) :
    ∃ p, p < 33 ∧ rest = natToStr p := by
  unfold isPrefixLength at h
  split at h
  · rename_i d
    have hd := isDigit_mem d h
    simp only [List.mem_cons, List.mem_singleton, List.not_mem_nil, or_false] at hd
    rcases hd with rfl | rfl | rfl | rfl | rfl | rfl | rfl | rfl | rfl | rfl <;> decide
  · rename_i c d
    simp only [Bool.or_eq_true, Bool.and_eq_true, beq_iff_eq] at h
    rcases h with ⟨hc, hd⟩ | ⟨rfl, hd⟩
    · have hd := isDigit_mem d hd
      simp only [List.mem_cons, List.mem_singleton, List.not_mem_nil, or_false] at hd
      rcases hc with rfl | rfl <;>
        rcases hd with rfl | rfl | rfl | rfl | rfl | rfl | rfl | rfl | rfl | rfl <;> decide
    · rcases hd with (rfl | rfl) | rfl <;> decide
  · cases h

/-- The CIDR pattern matches exactly the texts made of four runs of one to
three digits separated by dots, a slash, and the decimal text of a number from
0 to 32. -/
theorem matchesCidrRegex_iff (s : Str) :
    matchesCidrRegex s = true ↔
      ∃ o1 o2 o3 o4 : Str, ∃ p : Nat,
        (1 ≤ o1.length ∧ o1.length ≤ 3 ∧ ∀ c ∈ o1, isDigit c = true) ∧
        (1 ≤ o2.length ∧ o2.length ≤ 3 ∧ ∀ c ∈ o2, isDigit c = true) ∧
        (1 ≤ o3.length ∧ o3.length ≤ 3 ∧ ∀ c ∈ o3, isDigit c = true) ∧
        (1 ≤ o4.length ∧ o4.length ≤ 3 ∧ ∀ c ∈ o4, isDigit c = true) ∧ p ≤ 32 ∧
        s = o1 ++ ('.' :: (o2 ++ ('.' :: (o3 ++ ('.' :: (o4 ++ ('/' :: natToStr p))))))) := by
  constructor
  · intro h
    unfold matchesCidrRegex at h
    cases h1 : eatOctet '.' s with
    | none => simp [h1] at h
    | some r1 =>
      cases h2 : eatOctet '.' r1 with
      | none => simp [h1, h2] at h
      | some r2 =>
        cases h3 : eatOctet '.' r2 with
        | none => simp [h1, h2, h3] at h
        | some r3 =>
          cases h4 : eatOctet '/' r3 with
          | none => simp [h1, h2, h3, h4] at h
          | some r4 =>
            simp only [h1, h2, h3, h4, Option.some_bind] at h
            obtain ⟨o1, e1, a1, b1, c1⟩ := eatOctet_some _ _ _ h1
            obtain ⟨o2, e2, a2, b2, c2⟩ := eatOctet_some _ _ _ h2
            obtain ⟨o3, e3, a3, b3, c3⟩ := eatOctet_some _ _ _ h3
            obtain ⟨o4, e4, a4, b4, c4⟩ := eatOctet_some _ _ _ h4
            obtain ⟨p, hp, e5⟩ := isPrefixLength_some r4 h
            refine ⟨o1, o2, o3, o4, p, ⟨a1, b1, c1⟩, ⟨a2, b2, c2⟩, ⟨a3, b3, c3⟩, ⟨a4, b4, c4⟩,
              by omega, ?_⟩
            rw [e1, e2, e3, e4, e5]
  · rintro ⟨o1, o2, o3, o4, p, ⟨a1, b1, c1⟩, ⟨a2, b2, c2⟩, ⟨a3, b3, c3⟩, ⟨a4, b4, c4⟩, hp, rfl⟩
    unfold matchesCidrRegex
    rw [eatOctet_of '.' (by decide) o1 _ a1 b1 c1]
    simp only [Option.some_bind]
    rw [eatOctet_of '.' (by decide) o2 _ a2 b2 c2]
    simp only [Option.some_bind]
    rw [eatOctet_of '.' (by decide) o3 _ a3 b3 c3]
    simp only [Option.some_bind]
    rw [eatOctet_of '/' (by decide) o4 _ a4 b4 c4]
    exact isPrefixLength_natToStr p hp

theorem parseIntStr_hex_digits (i : Str) (hne : i ≠ []) (hd : ∀ c ∈ i, isDigit c = true) :
    parseIntStr true i = .ofInt (radixValue 10 i) := by
  have h1 : i.dropWhile isSpace = i :=
    dropWhile_eq_self_of_head i
      (fun c hc => isDigit_not_space c (hd c (List.mem_of_mem_head? hc)))
  have hnot : ∀ x : Char, isDigit x = false → startsWithChar x i = false := by
    intro x hx
    cases i with
    | nil => rfl
    | cons y ys =>
      have hy := hd y (by simp)
      simp only [startsWithChar, beq_eq_false_iff_ne, ne_eq]
      rintro rfl
      rw [hy] at hx
      exact absurd hx (by decide)
  have h2 := hnot '-' (by decide)
  have h3 := hnot '+' (by decide)
  have h4 : i.takeWhile (isRadixDigit 10) = i := by
    have := takeWhile_append_stop (p := isRadixDigit 10) i []
      (fun c hc => isDigit_isRadixDigit c (hd c hc)) (by simp)
    simpa using this
  have h5 : (i.take 2 == ['0', 'x'] || i.take 2 == ['0', 'X']) = false := by
    have hx : ∀ x : Char, isDigit x = false → (i.take 2 == ['0', x]) = false := by
      intro x hx
      rw [beq_eq_false_iff_ne]
      intro he
      have hm : x ∈ i := List.mem_of_mem_take (by rw [he]; simp)
      rw [hd x hm] at hx
      exact absurd hx (by decide)
    rw [hx 'x' (by decide), hx 'X' (by decide)]
    rfl
  unfold parseIntStr
  simp only [h1, h2, h3, Bool.or_self, Bool.false_eq_true, if_false, h5, Bool.and_false, h4,
    if_neg hne]

theorem octet_in_range (o : Str) (hne : o ≠ []) (hd : ∀ c ∈ o, isDigit c = true) :
    (JSNum.ge (parseIntStr true o) (.ofInt 0) && JSNum.le (parseIntStr true o) (.ofInt 255)) =
      decide (radixValue 10 o ≤ 255) := by
  rw [parseIntStr_hex_digits o hne hd]
  simp only [JSNum.ge, JSNum.le, JSNum.lt, JSNum.isNaN, JSNum.ofInt, pow_zero, mul_one,
    Bool.not_false, Bool.true_and]
  have h0 : ¬ ((radixValue 10 o : Int) < 0) := by omega
  by_cases h : radixValue 10 o ≤ 255
  · have h' : ¬ ((255 : Int) < radixValue 10 o) := by omega
    simp [h0, h, h']
  · have h' : (255 : Int) < radixValue 10 o := by omega
    simp [h, h']

theorem not_mem_digits (c : Char) (hc : isDigit c = false) (o : Str)
    (h : ∀ x ∈ o, isDigit x = true) : c ∉ o := by
  intro hm
  rw [h c hm] at hc
  exact absurd hc (by decide)

/-- On a text that the CIDR pattern matches, `isValidCIDR` checks that the
four octets are at most 255. -/
theorem isValidCIDR_of_shape (o1 o2 o3 o4 : Str) (p : Nat)
    (h1 : 1 ≤ o1.length ∧ o1.length ≤ 3 ∧ ∀ c ∈ o1, isDigit c = true)
    (h2 : 1 ≤ o2.length ∧ o2.length ≤ 3 ∧ ∀ c ∈ o2, isDigit c = true)
    (h3 : 1 ≤ o3.length ∧ o3.length ≤ 3 ∧ ∀ c ∈ o3, isDigit c = true)
    (h4 : 1 ≤ o4.length ∧ o4.length ≤ 3 ∧ ∀ c ∈ o4, isDigit c = true) (hp : p ≤ 32) :
    isValidCIDR (.str (o1 ++ ('.' :: (o2 ++ ('.' :: (o3 ++ ('.' :: (o4 ++
        ('/' :: natToStr p))))))))) =
      .ok (decide (radixValue 10 o1 ≤ 255) && decide (radixValue 10 o2 ≤ 255) &&
        decide (radixValue 10 o3 ≤ 255) && decide (radixValue 10 o4 ≤ 255)) := by
  have hne : ∀ o : Str, 1 ≤ o.length → o ≠ [] := by
    intro o h hnil
    rw [hnil] at h
    simp at h
  have hre := (matchesCidrRegex_iff _).2 ⟨o1, o2, o3, o4, p, h1, h2, h3, h4, hp, rfl⟩
  have htr : Value.truthy (.str (o1 ++ ('.' :: (o2 ++ ('.' :: (o3 ++ ('.' :: (o4 ++
      ('/' :: natToStr p))))))))) = true := by
    simp [Value.truthy, hne o1 h1.1]
  have hslash : '/' ∉ o1 ++ ('.' :: (o2 ++ ('.' :: (o3 ++ ('.' :: o4))))) := by
    simp only [List.mem_append, List.mem_cons, not_or]
    exact ⟨not_mem_digits '/' (by decide) o1 h1.2.2, by decide,
      not_mem_digits '/' (by decide) o2 h2.2.2, by decide,
      not_mem_digits '/' (by decide) o3 h3.2.2, by decide,
      not_mem_digits '/' (by decide) o4 h4.2.2⟩
  have hassoc : o1 ++ ('.' :: (o2 ++ ('.' :: (o3 ++ ('.' :: (o4 ++ ('/' :: natToStr p))))))) =
      (o1 ++ ('.' :: (o2 ++ ('.' :: (o3 ++ ('.' :: o4)))))) ++ '/' :: natToStr p := by
    simp
  have hsplit1 : (splitChar '/' (o1 ++ ('.' :: (o2 ++ ('.' :: (o3 ++ ('.' :: (o4 ++
      ('/' :: natToStr p))))))))).headD [] = o1 ++ ('.' :: (o2 ++ ('.' :: (o3 ++ ('.' :: o4))))) := by
    rw [hassoc, splitChar_append '/' _ _ hslash]
    rfl
  have hsplit2 : splitChar '.' (o1 ++ ('.' :: (o2 ++ ('.' :: (o3 ++ ('.' :: o4))))))
      = [o1, o2, o3, o4] := by
    rw [splitChar_append _ _ _ (not_mem_digits '.' (by decide) o1 h1.2.2),
      splitChar_append _ _ _ (not_mem_digits '.' (by decide) o2 h2.2.2),
      splitChar_append _ _ _ (not_mem_digits '.' (by decide) o3 h3.2.2),
      splitChar_not_mem _ _ (not_mem_digits '.' (by decide) o4 h4.2.2)]
  unfold isValidCIDR
  simp only [htr, Value.toStr, hre, Bool.not_true, Bool.false_eq_true, if_false, hsplit1,
    hsplit2, List.all_cons, List.all_nil, Bool.and_true,
    octet_in_range o1 (hne o1 h1.1) h1.2.2, octet_in_range o2 (hne o2 h2.1) h2.2.2,
    octet_in_range o3 (hne o3 h3.1) h3.2.2, octet_in_range o4 (hne o4 h4.1) h4.2.2,
    Bool.and_assoc]

/-- For a string, `isValidCIDR` is true exactly on the valid CIDR texts, and
throws nothing. -/
theorem isValidCIDR_str (s : Str) :
    (IsCidrText s → isValidCIDR (.str s) = .ok true) ∧
      (¬ IsCidrText s → isValidCIDR (.str s) = .ok false) := by
  constructor
  · rintro ⟨o1, o2, o3, o4, p, ⟨a1, b1, c1, d1⟩, ⟨a2, b2, c2, d2⟩, ⟨a3, b3, c3, d3⟩,
      ⟨a4, b4, c4, d4⟩, hp, rfl⟩
    rw [isValidCIDR_of_shape o1 o2 o3 o4 p ⟨a1, b1, c1⟩ ⟨a2, b2, c2⟩ ⟨a3, b3, c3⟩ ⟨a4, b4, c4⟩ hp]
    simp [d1, d2, d3, d4]
  · intro hn
    by_cases hre : matchesCidrRegex s = true
    · obtain ⟨o1, o2, o3, o4, p, h1, h2, h3, h4, hp, rfl⟩ := (matchesCidrRegex_iff s).1 hre
      rw [isValidCIDR_of_shape o1 o2 o3 o4 p h1 h2 h3 h4 hp]
      congr 1
      by_contra hb
      apply hn
      simp only [Bool.not_eq_false, Bool.and_eq_true, decide_eq_true_eq] at hb
      exact ⟨o1, o2, o3, o4, p, ⟨h1.1, h1.2.1, h1.2.2, hb.1.1.1⟩, ⟨h2.1, h2.2.1, h2.2.2, hb.1.1.2⟩,
        ⟨h3.1, h3.2.1, h3.2.2, hb.1.2⟩, ⟨h4.1, h4.2.1, h4.2.2, hb.2⟩, hp, rfl⟩
    · unfold isValidCIDR
      by_cases htr : Value.truthy (.str s) = true
      · simp [htr, Value.toStr, hre]
      · simp [htr]

theorem validateRule_cidr (value : Value) (config : Config) :
    validateRule "cidr".toList value config = ruleCidr value := by
  unfold validateRule
  simp only [splitChar_not_mem ':' "cidr".toList (by decide), List.headD_cons]
  unfold applyRule
  rw [if_neg (by decide), if_neg (by decide), if_neg (by decide), if_neg (by decide),
    if_neg (by decide), if_neg (by decide), if_pos rfl]

/-- C13: for every string `s`, `isValidCIDR(s)` is true, and the `cidr` rule
passes, iff `s` is four dot-separated octets of one to three digits with value
at most 255, then `/` and the decimal text of a prefix length from 0 to 32;
every other string, the empty string included, fails with the message
`Invalid CIDR format (e.g., 10.0.0.0/16)`. -/
theorem cidr_rule_iff (s : Str) (config : Config) :
    (isValidCIDR (.str s) = .ok true ↔ IsCidrText s) ∧
      (validateRule "cidr".toList (.str s) config = .ok none ↔ IsCidrText s) ∧
      (¬ IsCidrText s → validateRule "cidr".toList (.str s) config =
        .ok (some "Invalid CIDR format (e.g., 10.0.0.0/16)".toList)) ∧
      validateRule "cidr".toList (.str []) config =
        .ok (some "Invalid CIDR format (e.g., 10.0.0.0/16)".toList) := by
  have hs := isValidCIDR_str s
  refine ⟨?_, ?_, ?_, ?_⟩
  · constructor
    · intro h
      by_contra hn
      rw [hs.2 hn] at h
      cases h
    · exact hs.1
  · rw [validateRule_cidr]
    unfold ruleCidr
    constructor
    · intro h
      by_contra hn
      rw [hs.2 hn] at h
      simp at h
    · intro h
      rw [hs.1 h]
      rfl
  · intro hn
    rw [validateRule_cidr]
    unfold ruleCidr
    rw [hs.2 hn]
    rfl
  · rw [validateRule_cidr]
    rfl

/-- C13, at the text `10.0.0.0/16`, which passes, and at `10.0.0.256/16`,
which the rule rejects. -/
theorem cidr_rule_iff_witness :
    validateRule "cidr".toList (.str "10.0.0.0/16".toList) (Config.ofList []) = .ok none ∧
      ¬ IsCidrText "10.0.0.256/16".toList :=
  ⟨(cidr_rule_iff "10.0.0.0/16".toList (Config.ofList [])).2.1.2
      ⟨"10".toList, "0".toList, "0".toList, "0".toList, 16,
        by decide, by decide, by decide, by decide, by decide, by decide⟩,
    fun h => absurd ((cidr_rule_iff "10.0.0.256/16".toList (Config.ofList [])).1.2 h)
      (by decide)⟩

/-- C14: for a parent text `ip/p` with a prefix length `p` from 0 to 32 (any
address text `ip` without a slash, so every valid CIDR) and a number of extra
bits with `p + newBits > 32`, `cidrsubnet` returns the empty string for every
index. -/
theorem cidrsubnet_above_32 (ip : Str) (p newBits : Nat) (index : JSNum)
    (hip : '/' ∉ ip) (hp : p ≤ 32) (h : p + newBits > 32) :
    cidrsubnet (.str (ip ++ '/' :: natToStr p)) (.num (.ofInt newBits)) index = some [] := by
  have hp' : p < 256 := by omega
  have hsplit : splitChar '/' (ip ++ '/' :: natToStr p) = [ip, natToStr p] := by
    rw [splitChar_append '/' _ ip hip, splitChar_not_mem _ _ (slash_not_mem_octet p hp')]
  have hgt : JSNum.gt (.ofInt ((p : Int) + newBits)) (.ofInt 32) = true := by
    rw [JSNum.gt_ofInt]
    simp only [decide_eq_true_eq]
    omega
  unfold cidrsubnet
  simp only [hsplit, List.headD_cons, List.get?_cons_succ, List.get?_cons_zero,
    (octet_text p hp').2.2.2.1, addToNumber, Value.toNumber, JSNum.add_ofInt, hgt, if_true]

/-- C14, at the example of the claim: `10.0.0.0/30` with 4 more bits. -/
theorem cidrsubnet_above_32_witness :
    cidrsubnet (.str "10.0.0.0/30".toList) (.num (.ofInt 4)) (.ofInt 0) = some [] :=
  cidrsubnet_above_32 "10.0.0.0".toList 30 4 (.ofInt 0) (by decide) (by decide) (by decide)

/-- Shifting by 32 is shifting by 0: a signed 32-bit number is unchanged. -/
theorem shl_sar_32 (s : Int) (h1 : -2 ^ 31 ≤ s) (h2 : s < 2 ^ 31) :
    JSNum.shl (JSNum.sar (.ofInt s) (.ofInt 32)) (.ofInt 32) = .ofInt s := by
  have hc : JSNum.shiftCount (.ofInt 32) = 0 := by decide
  unfold JSNum.shl JSNum.sar
  rw [hc, JSNum.toInt32_ofInt_of_range s h1 h2]
  simp only [pow_zero, Int.ediv_one, mul_one]
  rw [JSNum.toInt32_ofInt_of_range s h1 h2, JSNum.toInt32_ofInt_of_range s h1 h2]

theorem wrapped_add_mod (s : Int) (u m : Nat) (hu : (s % 2 ^ 32).toNat = u) :
    ((s + (m : Int)) % 2 ^ 32).toNat = (u + m) % 2 ^ 32 := by
  omega

/-- The closed form of `cidrsubnet` for a parent of prefix length 0: the base
is the whole parent address, and the sum is reduced modulo `2 ^ 32`. -/
theorem cidrsubnet_of_zero (a b c d newBits index : Nat)
    (ha : a < 256) (hb : b < 256) (hc : c < 256) (hd : d < 256)
    (h2 : newBits ≤ 32) :
    cidrsubnet (.str (cidrText a b c d 0)) (.num (.ofInt newBits)) (.ofInt index) =
      some (dottedOfNat ((ipv4 a b c d + index * 2 ^ (32 - newBits)) % 2 ^ 32) ++
        '/' :: natToStr newBits) := by
  have hsr := signed_address_range a b c d ha hb hc hd
  have hparse : parseIntStr false (natToStr 0) = .ofInt 0 := by decide
  have hnp : JSNum.add (.ofInt 0) (.ofInt (newBits : Int)) = .ofInt (newBits : Int) := by
    rw [JSNum.add_ofInt, zero_add]
  have hsub1 : JSNum.sub (.ofInt 32) (.ofInt (newBits : Int)) =
      .ofInt ((32 - newBits : Nat) : Int) := by
    rw [JSNum.sub_ofInt]
    congr 1
    omega
  have hsub2 : JSNum.sub (.ofInt 32) (.ofInt 0) = .ofInt 32 := by decide
  have hgt : JSNum.gt (.ofInt (newBits : Int)) (.ofInt 32) = false := by
    rw [JSNum.gt_ofInt]
    simp only [decide_eq_false_iff_not, not_lt]
    exact_mod_cast h2
  have hmod := wrapped_add_mod
    ((if a < 128 then (a : Int) * 2 ^ 24 else (a : Int) * 2 ^ 24 - 2 ^ 32) +
      (b : Int) * 2 ^ 16 + (c : Int) * 2 ^ 8 + d) (ipv4 a b c d)
    (index * 2 ^ (32 - newBits)) (signed_address_mod a b c d ha hb hc hd)
  have hcast : ((index : Int) * 2 ^ (32 - newBits)) =
      ((index * 2 ^ (32 - newBits) : Nat) : Int) := by
    norm_cast
  unfold cidrsubnet
  simp only [splitChar_cidrText a b c d 0 ha hb hc hd (by norm_num), List.headD_cons,
    List.get?_cons_succ, List.get?_cons_zero, hparse, addToNumber, Value.toNumber, hnp, hgt,
    Bool.false_eq_true, if_false, splitChar_dotted a b c d ha hb hc hd, List.map_cons,
    List.map_nil, (octet_text a ha).2.2.2.1, (octet_text b hb).2.2.2.1,
    (octet_text c hc).2.2.2.1, (octet_text d hd).2.2.2.1, List.getD_cons_zero,
    List.getD_cons_succ, (octet_shl a ha).1, (octet_shl b hb).2.1, (octet_shl c hc).2.2,
    JSNum.add_ofInt, hsub1, hsub2, JSNum.pow2_ofInt,
    shl_sar_32 _ hsr.1 hsr.2, JSNum.mul_ofInt, Nat.cast_ofNat]
  rw [hcast]
  have o1 := JSNum.band_shr_255
    (((if a < 128 then (a : Int) * 2 ^ 24 else (a : Int) * 2 ^ 24 - 2 ^ 32) +
      (b : Int) * 2 ^ 16 + (c : Int) * 2 ^ 8 + d) +
      ((index * 2 ^ (32 - newBits) : Nat) : Int)) 24 (by norm_num)
  have o2 := JSNum.band_shr_255
    (((if a < 128 then (a : Int) * 2 ^ 24 else (a : Int) * 2 ^ 24 - 2 ^ 32) +
      (b : Int) * 2 ^ 16 + (c : Int) * 2 ^ 8 + d) +
      ((index * 2 ^ (32 - newBits) : Nat) : Int)) 16 (by norm_num)
  have o3 := JSNum.band_shr_255
    (((if a < 128 then (a : Int) * 2 ^ 24 else (a : Int) * 2 ^ 24 - 2 ^ 32) +
      (b : Int) * 2 ^ 16 + (c : Int) * 2 ^ 8 + d) +
      ((index * 2 ^ (32 - newBits) : Nat) : Int)) 8 (by norm_num)
  have o4 := JSNum.band_255
    (((if a < 128 then (a : Int) * 2 ^ 24 else (a : Int) * 2 ^ 24 - 2 ^ 32) +
      (b : Int) * 2 ^ 16 + (c : Int) * 2 ^ 8 + d) +
      ((index * 2 ^ (32 - newBits) : Nat) : Int))
  simp only [Nat.cast_ofNat] at o1 o2 o3
  rw [o1, o2, o3, o4, hmod, numToStr_octet _ (Nat.mod_lt _ (by norm_num)),
    numToStr_octet _ (Nat.mod_lt _ (by norm_num)), numToStr_octet _ (Nat.mod_lt _ (by norm_num)),
    numToStr_octet _ (Nat.mod_lt _ (by norm_num)), Value.toStr,
    numToStr_octet _ (by omega : newBits < 256)]
  simp [dottedOfNat, dotted]

/-- The text of an octet has no leading characters to skip: its value is at
most 255 and `cidrsubnet` reads the parent octets as their decimal values, so
a valid CIDR text behaves as the canonical text of the same numbers. -/
theorem cidrsubnet_octet_texts (o1 o2 o3 o4 : Str) (p : Nat)
    (h1 : IsOctetText o1) (h2 : IsOctetText o2) (h3 : IsOctetText o3) (h4 : IsOctetText o4)
    (hp : p ≤ 32) (newBits : Value) (netNum : JSNum) :
    cidrsubnet (.str (o1 ++ ('.' :: (o2 ++ ('.' :: (o3 ++ ('.' :: (o4 ++
        ('/' :: natToStr p))))))))) newBits netNum =
      cidrsubnet (.str (cidrText (radixValue 10 o1) (radixValue 10 o2) (radixValue 10 o3)
        (radixValue 10 o4) p)) newBits netNum := by
  have hne : ∀ o : Str, 1 ≤ o.length → o ≠ [] := by
    intro o h hnil
    rw [hnil] at h
    simp at h
  have hslash : '/' ∉ o1 ++ ('.' :: (o2 ++ ('.' :: (o3 ++ ('.' :: o4))))) := by
    simp only [List.mem_append, List.mem_cons, not_or]
    exact ⟨not_mem_digits '/' (by decide) o1 h1.2.2.1, by decide,
      not_mem_digits '/' (by decide) o2 h2.2.2.1, by decide,
      not_mem_digits '/' (by decide) o3 h3.2.2.1, by decide,
      not_mem_digits '/' (by decide) o4 h4.2.2.1⟩
  have hassoc : o1 ++ ('.' :: (o2 ++ ('.' :: (o3 ++ ('.' :: (o4 ++ ('/' :: natToStr p))))))) =
      (o1 ++ ('.' :: (o2 ++ ('.' :: (o3 ++ ('.' :: o4)))))) ++ '/' :: natToStr p := by
    simp
  have hsplit1 : splitChar '/' (o1 ++ ('.' :: (o2 ++ ('.' :: (o3 ++ ('.' :: (o4 ++
      ('/' :: natToStr p)))))))) =
      [o1 ++ ('.' :: (o2 ++ ('.' :: (o3 ++ ('.' :: o4))))), natToStr p] := by
    rw [hassoc, splitChar_append '/' _ _ hslash,
      splitChar_not_mem _ _ (slash_not_mem_octet p (by omega))]
  have hsplit2 : splitChar '.' (o1 ++ ('.' :: (o2 ++ ('.' :: (o3 ++ ('.' :: o4))))))
      = [o1, o2, o3, o4] := by
    rw [splitChar_append _ _ _ (not_mem_digits '.' (by decide) o1 h1.2.2.1),
      splitChar_append _ _ _ (not_mem_digits '.' (by decide) o2 h2.2.2.1),
      splitChar_append _ _ _ (not_mem_digits '.' (by decide) o3 h3.2.2.1),
      splitChar_not_mem _ _ (not_mem_digits '.' (by decide) o4 h4.2.2.1)]
  have r1 : radixValue 10 o1 < 256 := Nat.lt_succ_of_le h1.2.2.2
  have r2 : radixValue 10 o2 < 256 := Nat.lt_succ_of_le h2.2.2.2
  have r3 : radixValue 10 o3 < 256 := Nat.lt_succ_of_le h3.2.2.2
  have r4 : radixValue 10 o4 < 256 := Nat.lt_succ_of_le h4.2.2.2
  unfold cidrsubnet
  simp only [hsplit1, hsplit2, splitChar_cidrText _ _ _ _ p r1 r2 r3 r4 (by omega),
    splitChar_dotted _ _ _ _ r1 r2 r3 r4, List.headD_cons, List.map_cons, List.map_nil,
    List.get?_cons_succ, List.get?_cons_zero,
    parseIntStr_digits o1 (hne o1 h1.1) h1.2.2.1, parseIntStr_digits o2 (hne o2 h2.1) h2.2.2.1,
    parseIntStr_digits o3 (hne o3 h3.1) h3.2.2.1, parseIntStr_digits o4 (hne o4 h4.1) h4.2.2.1,
    (octet_text _ r1).2.2.2.1, (octet_text _ r2).2.2.2.1, (octet_text _ r3).2.2.2.1,
    (octet_text _ r4).2.2.2.1]

set_option maxRecDepth 100000 in
/-- The decimal value of the text of a number below 256 is the number. -/
theorem radixValue_natToStr (n : Nat) (h : n < 256) : radixValue 10 (natToStr n) = n := by
  revert n
  decide

/-- The address of a canonical dotted text followed by a slash part. -/
theorem addressOfText_dottedOfNat (x : Nat) (hx : x < 2 ^ 32) (t : Str) :
    addressOfText (dottedOfNat x ++ '/' :: t) = x := by
  have h1 : x / 2 ^ 24 % 256 < 256 := Nat.mod_lt _ (by norm_num)
  have h2 : x / 2 ^ 16 % 256 < 256 := Nat.mod_lt _ (by norm_num)
  have h3 : x / 2 ^ 8 % 256 < 256 := Nat.mod_lt _ (by norm_num)
  have h4 : x % 256 < 256 := Nat.mod_lt _ (by norm_num)
  unfold addressOfText dottedOfNat
  rw [splitChar_append '/' _ _ (slash_not_mem_dotted _ _ _ _ h1 h2 h3 h4)]
  simp only [List.headD_cons, splitChar_dotted _ _ _ _ h1 h2 h3 h4, List.map_cons, List.map_nil,
    radixValue_natToStr _ h1, radixValue_natToStr _ h2, radixValue_natToStr _ h3,
    radixValue_natToStr _ h4, ipv4]
  norm_num at hx ⊢
  omega

/-- The address of a text of four octet texts and a slash part. -/
theorem addressOfText_octet_texts (o1 o2 o3 o4 t : Str)
    (h1 : IsOctetText o1) (h2 : IsOctetText o2) (h3 : IsOctetText o3) (h4 : IsOctetText o4) :
    addressOfText (o1 ++ ('.' :: (o2 ++ ('.' :: (o3 ++ ('.' :: (o4 ++ ('/' :: t))))))))
      = ipv4 (radixValue 10 o1) (radixValue 10 o2) (radixValue 10 o3) (radixValue 10 o4) := by
  have hslash : '/' ∉ o1 ++ ('.' :: (o2 ++ ('.' :: (o3 ++ ('.' :: o4))))) := by
    simp only [List.mem_append, List.mem_cons, not_or]
    exact ⟨not_mem_digits '/' (by decide) o1 h1.2.2.1, by decide,
      not_mem_digits '/' (by decide) o2 h2.2.2.1, by decide,
      not_mem_digits '/' (by decide) o3 h3.2.2.1, by decide,
      not_mem_digits '/' (by decide) o4 h4.2.2.1⟩
  have hassoc : o1 ++ ('.' :: (o2 ++ ('.' :: (o3 ++ ('.' :: (o4 ++ ('/' :: t))))))) =
      (o1 ++ ('.' :: (o2 ++ ('.' :: (o3 ++ ('.' :: o4)))))) ++ '/' :: t := by
    simp
  have hsplit2 : splitChar '.' (o1 ++ ('.' :: (o2 ++ ('.' :: (o3 ++ ('.' :: o4))))))
      = [o1, o2, o3, o4] := by
    rw [splitChar_append _ _ _ (not_mem_digits '.' (by decide) o1 h1.2.2.1),
      splitChar_append _ _ _ (not_mem_digits '.' (by decide) o2 h2.2.2.1),
      splitChar_append _ _ _ (not_mem_digits '.' (by decide) o3 h3.2.2.1),
      splitChar_not_mem _ _ (not_mem_digits '.' (by decide) o4 h4.2.2.1)]
  unfold addressOfText
  rw [hassoc, splitChar_append '/' _ _ hslash]
  simp only [List.headD_cons, hsplit2, List.map_cons, List.map_nil]

/-- The address bits of a subnet of a parent with a prefix length of at least
1: the first `p` bits are the parent's and the bits after the first
`p + newBits` are zero. -/
theorem subnet_bits_pos (u p newBits index : Nat) (h2 : p + newBits ≤ 32)
    (hi : index < 2 ^ newBits) :
    firstBits p (u / 2 ^ (32 - p) * 2 ^ (32 - p) + index * 2 ^ (32 - (p + newBits))) =
        firstBits p u ∧
      (u / 2 ^ (32 - p) * 2 ^ (32 - p) + index * 2 ^ (32 - (p + newBits))) %
        2 ^ (32 - (p + newBits)) = 0 := by
  have e : 2 ^ (32 - p) = 2 ^ newBits * 2 ^ (32 - (p + newBits)) := by
    rw [← pow_add]
    congr 1
    omega
  have hEpos : 0 < 2 ^ (32 - (p + newBits)) := Nat.pow_pos (by norm_num)
  have hKpos : 0 < 2 ^ (32 - p) := Nat.pow_pos (by norm_num)
  have hoff : index * 2 ^ (32 - (p + newBits)) < 2 ^ (32 - p) := by
    rw [e]
    exact Nat.mul_lt_mul_of_pos_right hi hEpos
  constructor
  · unfold firstBits
    rw [Nat.add_comm, Nat.add_mul_div_right _ _ hKpos, Nat.div_eq_of_lt hoff, zero_add]
  · have e2 : u / 2 ^ (32 - p) * 2 ^ (32 - p) + index * 2 ^ (32 - (p + newBits)) =
        (u / 2 ^ (32 - p) * 2 ^ newBits + index) * 2 ^ (32 - (p + newBits)) := by
      rw [e]
      ring
    rw [e2, Nat.mul_mod_left]

/-- The address bits of a subnet of a parent with prefix length 0: the
bits after the first `newBits` are the parent's. -/
theorem subnet_bits_zero (u newBits index : Nat) (h2 : newBits ≤ 32) :
    (u + index * 2 ^ (32 - newBits)) % 2 ^ 32 % 2 ^ (32 - newBits) =
      u % 2 ^ (32 - newBits) := by
  have hd : 2 ^ (32 - newBits) ∣ 2 ^ 32 := pow_dvd_pow 2 (by omega)
  rw [Nat.mod_mod_of_dvd _ hd, Nat.add_mul_mod_self_right]

/-- The address of one subnet of a valid parent: its first `p` bits are the
parent's, and its bits after the first `p + newBits` do not depend on the
index. -/
theorem cidrsubnet_address (o1 o2 o3 o4 : Str) (p newBits index : Nat)
    (h1 : IsOctetText o1) (h2 : IsOctetText o2) (h3 : IsOctetText o3) (h4 : IsOctetText o4)
    (h : p + newBits ≤ 32) (hi : index < 2 ^ newBits) :
    ∃ r : Str,
      cidrsubnet (.str (o1 ++ ('.' :: (o2 ++ ('.' :: (o3 ++ ('.' :: (o4 ++
        ('/' :: natToStr p))))))))) (.num (.ofInt newBits)) (.ofInt index) = some r ∧
      firstBits p (addressOfText r) =
        firstBits p (ipv4 (radixValue 10 o1) (radixValue 10 o2) (radixValue 10 o3)
          (radixValue 10 o4)) ∧
      addressOfText r % 2 ^ (32 - (p + newBits)) =
        if p = 0 then
          ipv4 (radixValue 10 o1) (radixValue 10 o2) (radixValue 10 o3) (radixValue 10 o4) %
            2 ^ (32 - (p + newBits))
        else 0 := by
  have r1 : radixValue 10 o1 < 256 := Nat.lt_succ_of_le h1.2.2.2
  have r2 : radixValue 10 o2 < 256 := Nat.lt_succ_of_le h2.2.2.2
  have r3 : radixValue 10 o3 < 256 := Nat.lt_succ_of_le h3.2.2.2
  have r4 : radixValue 10 o4 < 256 := Nat.lt_succ_of_le h4.2.2.2
  have hu : ipv4 (radixValue 10 o1) (radixValue 10 o2) (radixValue 10 o3) (radixValue 10 o4) <
      2 ^ 32 := by
    unfold ipv4
    norm_num
    omega
  rw [cidrsubnet_octet_texts o1 o2 o3 o4 p h1 h2 h3 h4 (by omega)]
  generalize radixValue 10 o1 = a at r1 hu ⊢
  generalize radixValue 10 o2 = b at r2 hu ⊢
  generalize radixValue 10 o3 = c at r3 hu ⊢
  generalize radixValue 10 o4 = d at r4 hu ⊢
  by_cases hp : p = 0
  · subst hp
    rw [cidrsubnet_of_zero a b c d newBits index r1 r2 r3 r4 (by omega)]
    refine ⟨_, rfl, ?_, ?_⟩
    · rw [addressOfText_dottedOfNat _ (Nat.mod_lt _ (by norm_num))]
      unfold firstBits
      rw [Nat.div_eq_of_lt (Nat.mod_lt _ (by norm_num)), Nat.div_eq_of_lt hu]
    · rw [addressOfText_dottedOfNat _ (Nat.mod_lt _ (by norm_num)), if_pos rfl, Nat.zero_add]
      exact subnet_bits_zero _ newBits index (by omega)
  · have hoff : index * 2 ^ (32 - (p + newBits)) < 2 ^ (32 - p) := by
      have e : 2 ^ (32 - p) = 2 ^ newBits * 2 ^ (32 - (p + newBits)) := by
        rw [← pow_add]
        congr 1
        omega
      rw [e]
      exact Nat.mul_lt_mul_of_pos_right hi (Nat.pow_pos (by norm_num))
    have hlt := base_add_offset_lt (ipv4 a b c d) (32 - p) _ (by omega) hu hoff
    rw [cidrsubnet_of_pos a b c d p newBits index r1 r2 r3 r4 (by omega) h hi]
    refine ⟨_, rfl, ?_, ?_⟩
    · rw [addressOfText_dottedOfNat _ hlt]
      exact (subnet_bits_pos (ipv4 a b c d) p newBits index h hi).1
    · rw [addressOfText_dottedOfNat _ hlt, if_neg hp]
      exact (subnet_bits_pos (ipv4 a b c d) p newBits index h hi).2

/-- C15: for a valid parent CIDR text (four octet texts of value at most
255 and a prefix length `p`, whatever the first octet), a number of extra bits
with `p + newBits ≤ 32` and two indices below `2 ^ newBits`, `cidrsubnet`
returns two CIDR texts whose addresses have the first `p` bits of the parent
address and agree with each other on the bits after the first `p + newBits`:
they can differ only in the `newBits` bits in between. -/
theorem cidrsubnet_parent_bits (o1 o2 o3 o4 : Str) (p newBits i j : Nat)
    (h1 : IsOctetText o1) (h2 : IsOctetText o2) (h3 : IsOctetText o3) (h4 : IsOctetText o4)
    (h : p + newBits ≤ 32) (hi : i < 2 ^ newBits) (hj : j < 2 ^ newBits) :
    ∃ ri rj : Str,
      cidrsubnet (.str (o1 ++ ('.' :: (o2 ++ ('.' :: (o3 ++ ('.' :: (o4 ++
        ('/' :: natToStr p))))))))) (.num (.ofInt newBits)) (.ofInt i) = some ri ∧
      cidrsubnet (.str (o1 ++ ('.' :: (o2 ++ ('.' :: (o3 ++ ('.' :: (o4 ++
        ('/' :: natToStr p))))))))) (.num (.ofInt newBits)) (.ofInt j) = some rj ∧
      firstBits p (addressOfText ri) =
        firstBits p (addressOfText (o1 ++ ('.' :: (o2 ++ ('.' :: (o3 ++ ('.' :: (o4 ++
          ('/' :: natToStr p))))))))) ∧
      firstBits p (addressOfText rj) =
        firstBits p (addressOfText (o1 ++ ('.' :: (o2 ++ ('.' :: (o3 ++ ('.' :: (o4 ++
          ('/' :: natToStr p))))))))) ∧
      addressOfText ri % 2 ^ (32 - (p + newBits)) =
        addressOfText rj % 2 ^ (32 - (p + newBits)) := by
  obtain ⟨ri, e1, f1, m1⟩ := cidrsubnet_address o1 o2 o3 o4 p newBits i h1 h2 h3 h4 h hi
  obtain ⟨rj, e2, f2, m2⟩ := cidrsubnet_address o1 o2 o3 o4 p newBits j h1 h2 h3 h4 h hj
  refine ⟨ri, rj, e1, e2, ?_, ?_, ?_⟩
  · rw [addressOfText_octet_texts o1 o2 o3 o4 _ h1 h2 h3 h4]
    exact f1
  · rw [addressOfText_octet_texts o1 o2 o3 o4 _ h1 h2 h3 h4]
    exact f2
  · rw [m1, m2]

/-- C15, on the parent `200.10.0.0/8` (first octet above 128) with 4 extra
bits and the indices 3 and 5. -/
theorem cidrsubnet_parent_bits_witness :
    ∃ ri rj : Str,
      cidrsubnet (.str "200.10.0.0/8".toList) (.num (.ofInt 4)) (.ofInt 3) = some ri ∧
      cidrsubnet (.str "200.10.0.0/8".toList) (.num (.ofInt 4)) (.ofInt 5) = some rj ∧
      firstBits 8 (addressOfText ri) = firstBits 8 (addressOfText "200.10.0.0/8".toList) ∧
      firstBits 8 (addressOfText rj) = firstBits 8 (addressOfText "200.10.0.0/8".toList) ∧
      addressOfText ri % 2 ^ (32 - (8 + 4)) = addressOfText rj % 2 ^ (32 - (8 + 4)) :=
  cidrsubnet_parent_bits "200".toList "10".toList "0".toList "0".toList 8 4 3 5
    (by decide) (by decide) (by decide) (by decide) (by decide) (by decide) (by decide)

theorem JSNum.add_nan_right (x : JSNum) : JSNum.add x .nan = .nan := by
  cases x <;> rfl

theorem JSNum.mul_nan_right (x : JSNum) : JSNum.mul x .nan = .nan := by
  cases x <;> rfl

theorem JSNum.add_nan_left (x : JSNum) : JSNum.add .nan x = .nan := by
  cases x <;> rfl

/-- A number greater than zero is truthy. -/
theorem truthy_of_pos (n : JSNum) (h : JSNum.gt n (.ofInt 0) = true) :
    Value.truthy (.num n) = true := by
  cases n with
  | nan => simp [JSNum.gt, JSNum.lt, JSNum.ofInt] at h
  | inf b => rfl
  | fin m e =>
    simp only [JSNum.gt, JSNum.lt, JSNum.ofInt, zero_mul, pow_zero, mul_one,
      decide_eq_true_eq] at h
    simp only [Value.truthy, decide_eq_true_eq]
    omega

/-- On a parent text without a slash, the prefix length is `NaN`, no check
fails, and `cidrsubnet` returns the text `0.0.0.0/NaN`. -/
theorem cidrsubnet_no_slash (s : Str) (n index : JSNum) (hslash : '/' ∉ s) :
    cidrsubnet (.str s) (.num n) index = some "0.0.0.0/NaN".toList := by
  have hgt : JSNum.gt .nan (.ofInt 32) = false := rfl
  have hsub : JSNum.sub (.ofInt 32) .nan = .nan := rfl
  have hpow : JSNum.pow2 .nan = some .nan := rfl
  unfold cidrsubnet
  simp only [splitChar_not_mem '/' s hslash, List.headD_cons, List.get?_cons_succ,
    List.get?_nil, addToNumber, Value.toNumber, JSNum.add_nan_left, hgt, Bool.false_eq_true,
    if_false, hsub, hpow, JSNum.mul_nan_right, JSNum.add_nan_right, Value.toStr]
  decide

/-- C16 fails on the code: when `config[a]` is a non-empty text without a
slash (so not a valid CIDR, as `10.0.0.0`) and `config[b]` is a positive
number, `computeValue` on `cidrsubnet(a, b, i)` returns the text
`0.0.0.0/NaN`, not the empty string; and on the parent `a.b.c.d/16`, whose
octets are not numbers, it returns `0.0.0.0/24`. -/
theorem computeValue_malformed_parent (config : Config) (a b i s : Str) (n : JSNum)
    (ha : a ≠ []) (haw : ∀ c ∈ a, isWord c = true)
    (hb : b ≠ []) (hbw : ∀ c ∈ b, isWord c = true)
    (hi : i ≠ []) (hid : ∀ c ∈ i, isDigit c = true)
    (hs : s ≠ []) (hslash : '/' ∉ s) (hva : config a = .str s) (hvb : config b = .num n)
    (hn : JSNum.gt n (.ofInt 0) = true) :
    computeValue (.str ("cidrsubnet(".toList ++ a ++ ", ".toList ++ b ++ ", ".toList ++ i ++
        ")".toList)) config = some "0.0.0.0/NaN".toList ∧
      isValidCIDR (.str "a.b.c.d/16".toList) = .ok false ∧
      computeValue (.str "cidrsubnet(a, b, 0)".toList)
        (Config.ofList [("a".toList, .str "a.b.c.d/16".toList),
          ("b".toList, .num (.ofInt 8))]) = some "0.0.0.0/24".toList := by
  have hm := matchCidrsubnet_form a b i ha haw hb hbw hi hid
  have htr : Value.truthy (.str ("cidrsubnet(".toList ++ a ++ ", ".toList ++ b ++
      ", ".toList ++ i ++ ")".toList)) = true := by
    simp [Value.truthy]
  have hts : Value.truthy (.str s) = true := by
    simp [Value.truthy, hs]
  refine ⟨?_, by decide, by decide⟩
  unfold computeValue
  simp only [htr, Bool.not_true, Bool.false_eq_true, if_false, hm, jsTrim_word a haw,
    jsTrim_word b hbw, hva, hvb, hts, truthy_of_pos n hn, Bool.or_self]
  exact cidrsubnet_no_slash s n _ hslash

/-- C16, at the parent `10.0.0.0` of the claim, which the `cidr` rule
rejects, with 8 bits. -/
theorem computeValue_malformed_parent_witness :
    isValidCIDR (.str "10.0.0.0".toList) = .ok false ∧
      computeValue (.str "cidrsubnet(vpc_cidr, subnet_bits, 0)".toList)
        (Config.ofList [("vpc_cidr".toList, .str "10.0.0.0".toList),
          ("subnet_bits".toList, .num (.ofInt 8))]) = some "0.0.0.0/NaN".toList :=
  ⟨by decide,
    (computeValue_malformed_parent
      (Config.ofList [("vpc_cidr".toList, .str "10.0.0.0".toList),
        ("subnet_bits".toList, .num (.ofInt 8))])
      "vpc_cidr".toList "subnet_bits".toList "0".toList "10.0.0.0".toList (.ofInt 8)
      (by decide) (by decide) (by decide) (by decide) (by decide) (by decide)
      (by decide) (by decide) (by decide) (by decide) (by decide)).1⟩

/-- The two fragments are the parts of `cidrsubnet`: it parses the parent,
computes the subnet address and serialises it. -/
theorem cidrsubnet_fragments (s : Str) (newBits : Value) (netNum : JSNum) :
    cidrsubnet (.str s) newBits netNum =
      if JSNum.gt (addToNumber (cidrsubnetParse s).2 newBits).toNumber (.ofInt 32) then some []
      else
        match JSNum.pow2 (JSNum.sub (.ofInt 32)
          (addToNumber (cidrsubnetParse s).2 newBits).toNumber) with
        | none => none
        | some subnetSize =>
          some (cidrsubnetFormat
            (JSNum.add
              (JSNum.shl (JSNum.sar (cidrsubnetParse s).1
                (JSNum.sub (.ofInt 32) (cidrsubnetParse s).2))
                (JSNum.sub (.ofInt 32) (cidrsubnetParse s).2))
              (JSNum.mul netNum subnetSize))
            (addToNumber (cidrsubnetParse s).2 newBits)) :=
  rfl

/-- What the parsing part of `cidrsubnet` reads from a valid CIDR text. -/
theorem cidrsubnetParse_octet_texts (o1 o2 o3 o4 : Str) (p : Nat)
    (h1 : IsOctetText o1) (h2 : IsOctetText o2) (h3 : IsOctetText o3) (h4 : IsOctetText o4)
    (hp : p ≤ 32) :
    cidrsubnetParse (o1 ++ ('.' :: (o2 ++ ('.' :: (o3 ++ ('.' :: (o4 ++
        ('/' :: natToStr p)))))))) =
      (.ofInt ((if radixValue 10 o1 < 128 then (radixValue 10 o1 : Int) * 2 ^ 24
          else (radixValue 10 o1 : Int) * 2 ^ 24 - 2 ^ 32) +
        (radixValue 10 o2 : Int) * 2 ^ 16 + (radixValue 10 o3 : Int) * 2 ^ 8 +
          radixValue 10 o4), .ofInt p) := by
  have hne : ∀ o : Str, 1 ≤ o.length → o ≠ [] := by
    intro o h hnil
    rw [hnil] at h
    simp at h
  have hslash : '/' ∉ o1 ++ ('.' :: (o2 ++ ('.' :: (o3 ++ ('.' :: o4))))) := by
    simp only [List.mem_append, List.mem_cons, not_or]
    exact ⟨not_mem_digits '/' (by decide) o1 h1.2.2.1, by decide,
      not_mem_digits '/' (by decide) o2 h2.2.2.1, by decide,
      not_mem_digits '/' (by decide) o3 h3.2.2.1, by decide,
      not_mem_digits '/' (by decide) o4 h4.2.2.1⟩
  have hassoc : o1 ++ ('.' :: (o2 ++ ('.' :: (o3 ++ ('.' :: (o4 ++ ('/' :: natToStr p))))))) =
      (o1 ++ ('.' :: (o2 ++ ('.' :: (o3 ++ ('.' :: o4)))))) ++ '/' :: natToStr p := by
    simp
  have hsplit1 : splitChar '/' (o1 ++ ('.' :: (o2 ++ ('.' :: (o3 ++ ('.' :: (o4 ++
      ('/' :: natToStr p)))))))) =
      [o1 ++ ('.' :: (o2 ++ ('.' :: (o3 ++ ('.' :: o4))))), natToStr p] := by
    rw [hassoc, splitChar_append '/' _ _ hslash,
      splitChar_not_mem _ _ (slash_not_mem_octet p (by omega))]
  have hsplit2 : splitChar '.' (o1 ++ ('.' :: (o2 ++ ('.' :: (o3 ++ ('.' :: o4))))))
      = [o1, o2, o3, o4] := by
    rw [splitChar_append _ _ _ (not_mem_digits '.' (by decide) o1 h1.2.2.1),
      splitChar_append _ _ _ (not_mem_digits '.' (by decide) o2 h2.2.2.1),
      splitChar_append _ _ _ (not_mem_digits '.' (by decide) o3 h3.2.2.1),
      splitChar_not_mem _ _ (not_mem_digits '.' (by decide) o4 h4.2.2.1)]
  have r1 : radixValue 10 o1 < 256 := Nat.lt_succ_of_le h1.2.2.2
  have r2 : radixValue 10 o2 < 256 := Nat.lt_succ_of_le h2.2.2.2
  have r3 : radixValue 10 o3 < 256 := Nat.lt_succ_of_le h3.2.2.2
  unfold cidrsubnetParse
  simp only [hsplit1, hsplit2, List.headD_cons, List.map_cons, List.map_nil,
    List.get?_cons_succ, List.get?_cons_zero, (octet_text p (by omega)).2.2.2.1,
    parseIntStr_digits o1 (hne o1 h1.1) h1.2.2.1, parseIntStr_digits o2 (hne o2 h2.1) h2.2.2.1,
    parseIntStr_digits o3 (hne o3 h3.1) h3.2.2.1, parseIntStr_digits o4 (hne o4 h4.1) h4.2.2.1,
    List.getD_cons_zero, List.getD_cons_succ, (octet_shl _ r1).1, (octet_shl _ r2).2.1,
    (octet_shl _ r3).2.2, JSNum.add_ofInt]

/-- The serialising part of `cidrsubnet` on the signed sum of four octets
and a prefix length gives the canonical text. -/
theorem cidrsubnetFormat_signed (a b c d p : Nat) (ha : a < 256) (hb : b < 256)
    (hc : c < 256) (hd : d < 256) (hp : p < 256) :
    cidrsubnetFormat
      (.ofInt ((if a < 128 then (a : Int) * 2 ^ 24 else (a : Int) * 2 ^ 24 - 2 ^ 32) +
        (b : Int) * 2 ^ 16 + (c : Int) * 2 ^ 8 + d)) (.num (.ofInt p)) =
      cidrText a b c d p := by
  have hmod := signed_address_mod a b c d ha hb hc hd
  have o1 := JSNum.band_shr_255
    ((if a < 128 then (a : Int) * 2 ^ 24 else (a : Int) * 2 ^ 24 - 2 ^ 32) +
      (b : Int) * 2 ^ 16 + (c : Int) * 2 ^ 8 + d) 24 (by norm_num)
  have o2 := JSNum.band_shr_255
    ((if a < 128 then (a : Int) * 2 ^ 24 else (a : Int) * 2 ^ 24 - 2 ^ 32) +
      (b : Int) * 2 ^ 16 + (c : Int) * 2 ^ 8 + d) 16 (by norm_num)
  have o3 := JSNum.band_shr_255
    ((if a < 128 then (a : Int) * 2 ^ 24 else (a : Int) * 2 ^ 24 - 2 ^ 32) +
      (b : Int) * 2 ^ 16 + (c : Int) * 2 ^ 8 + d) 8 (by norm_num)
  have o4 := JSNum.band_255
    ((if a < 128 then (a : Int) * 2 ^ 24 else (a : Int) * 2 ^ 24 - 2 ^ 32) +
      (b : Int) * 2 ^ 16 + (c : Int) * 2 ^ 8 + d)
  simp only [Nat.cast_ofNat] at o1 o2 o3
  have e1 : ipv4 a b c d / 2 ^ 24 % 256 = a := by
    unfold ipv4
    omega
  have e2 : ipv4 a b c d / 2 ^ 16 % 256 = b := by
    unfold ipv4
    omega
  have e3 : ipv4 a b c d / 2 ^ 8 % 256 = c := by
    unfold ipv4
    omega
  have e4 : ipv4 a b c d % 256 = d := by
    unfold ipv4
    omega
  unfold cidrsubnetFormat
  simp only [o1, o2, o3, o4, hmod, e1, e2, e3, e4, Value.toStr, (octet_text a ha).2.2.2.2.2,
    (octet_text b hb).2.2.2.2.2, (octet_text c hc).2.2.2.2.2, (octet_text d hd).2.2.2.2.2,
    (octet_text p hp).2.2.2.2.2]
  simp [cidrText, dotted]

/-- C17 (amended): on a valid CIDR text, parsing as `cidrsubnet` does and
serialising the address and prefix length as `cidrsubnet` does gives the
canonical text of the same numbers, each octet written without leading
zeros; the result is the text itself exactly when each of its octets is
written that way. -/
theorem cidr_round_trip (o1 o2 o3 o4 : Str) (p : Nat)
    (h1 : IsOctetText o1) (h2 : IsOctetText o2) (h3 : IsOctetText o3) (h4 : IsOctetText o4)
    (hp : p ≤ 32) :
    cidrsubnetFormat
        (cidrsubnetParse (o1 ++ ('.' :: (o2 ++ ('.' :: (o3 ++ ('.' :: (o4 ++
          ('/' :: natToStr p))))))))).1
        (.num (cidrsubnetParse (o1 ++ ('.' :: (o2 ++ ('.' :: (o3 ++ ('.' :: (o4 ++
          ('/' :: natToStr p))))))))).2) =
      cidrText (radixValue 10 o1) (radixValue 10 o2) (radixValue 10 o3) (radixValue 10 o4) p ∧
    (cidrsubnetFormat
        (cidrsubnetParse (o1 ++ ('.' :: (o2 ++ ('.' :: (o3 ++ ('.' :: (o4 ++
          ('/' :: natToStr p))))))))).1
        (.num (cidrsubnetParse (o1 ++ ('.' :: (o2 ++ ('.' :: (o3 ++ ('.' :: (o4 ++
          ('/' :: natToStr p))))))))).2) =
      o1 ++ ('.' :: (o2 ++ ('.' :: (o3 ++ ('.' :: (o4 ++ ('/' :: natToStr p))))))) ↔
      natToStr (radixValue 10 o1) = o1 ∧ natToStr (radixValue 10 o2) = o2 ∧
        natToStr (radixValue 10 o3) = o3 ∧ natToStr (radixValue 10 o4) = o4) := by
  have r1 : radixValue 10 o1 < 256 := Nat.lt_succ_of_le h1.2.2.2
  have r2 : radixValue 10 o2 < 256 := Nat.lt_succ_of_le h2.2.2.2
  have r3 : radixValue 10 o3 < 256 := Nat.lt_succ_of_le h3.2.2.2
  have r4 : radixValue 10 o4 < 256 := Nat.lt_succ_of_le h4.2.2.2
  have hrt := cidrsubnetFormat_signed _ _ _ _ p r1 r2 r3 r4 (by omega)
  rw [cidrsubnetParse_octet_texts o1 o2 o3 o4 p h1 h2 h3 h4 hp]
  refine ⟨hrt, ?_⟩
  simp only [hrt]
  constructor
  · intro e
    have hslash : '/' ∉ o1 ++ ('.' :: (o2 ++ ('.' :: (o3 ++ ('.' :: o4))))) := by
      simp only [List.mem_append, List.mem_cons, not_or]
      exact ⟨not_mem_digits '/' (by decide) o1 h1.2.2.1, by decide,
        not_mem_digits '/' (by decide) o2 h2.2.2.1, by decide,
        not_mem_digits '/' (by decide) o3 h3.2.2.1, by decide,
        not_mem_digits '/' (by decide) o4 h4.2.2.1⟩
    have hassoc : o1 ++ ('.' :: (o2 ++ ('.' :: (o3 ++ ('.' :: (o4 ++ ('/' :: natToStr p))))))) =
        (o1 ++ ('.' :: (o2 ++ ('.' :: (o3 ++ ('.' :: o4)))))) ++ '/' :: natToStr p := by
      simp
    have e1 := congrArg (fun t => (splitChar '/' t).headD []) e
    simp only [splitChar_cidrText _ _ _ _ p r1 r2 r3 r4 (by omega), List.headD_cons] at e1
    rw [hassoc, splitChar_append '/' _ _ hslash] at e1
    simp only [List.headD_cons] at e1
    have e2 := congrArg (splitChar '.') e1
    rw [splitChar_dotted _ _ _ _ r1 r2 r3 r4,
      splitChar_append _ _ _ (not_mem_digits '.' (by decide) o1 h1.2.2.1),
      splitChar_append _ _ _ (not_mem_digits '.' (by decide) o2 h2.2.2.1),
      splitChar_append _ _ _ (not_mem_digits '.' (by decide) o3 h3.2.2.1),
      splitChar_not_mem _ _ (not_mem_digits '.' (by decide) o4 h4.2.2.1)] at e2
    simpa using e2
  · rintro ⟨e1, e2, e3, e4⟩
    unfold cidrText dotted
    rw [e1, e2, e3, e4]
    simp

/-- C17 as stated fails: the `cidr` rule accepts `010.0.0.0/8`, and the
round trip gives `10.0.0.0/8`. -/
theorem cidr_round_trip_counterexample :
    validateRule "cidr".toList (.str "010.0.0.0/8".toList) (Config.ofList []) = .ok none ∧
      cidrsubnetFormat (cidrsubnetParse "010.0.0.0/8".toList).1
        (.num (cidrsubnetParse "010.0.0.0/8".toList).2) = "10.0.0.0/8".toList ∧
      cidrsubnetFormat (cidrsubnetParse "010.0.0.0/8".toList).1
        (.num (cidrsubnetParse "010.0.0.0/8".toList).2) ≠ "010.0.0.0/8".toList := by
  decide

/-- C17 (amended), at `200.10.0.0/16`, whose octets have no leading zeros. -/
theorem cidr_round_trip_witness :
    cidrsubnetFormat (cidrsubnetParse "200.10.0.0/16".toList).1
        (.num (cidrsubnetParse "200.10.0.0/16".toList).2) = "200.10.0.0/16".toList :=
  (cidr_round_trip "200".toList "10".toList "0".toList "0".toList 16
    (by decide) (by decide) (by decide) (by decide) (by decide)).2.2
    ⟨by decide, by decide, by decide, by decide⟩

/-- An atom pattern matches only an atom that contains its operator. -/
theorem matchOp_eq_none (op s : Str) (h : ¬ op <:+: s) : matchOp op s = none := by
  unfold matchOp
  simp only
  rw [if_neg]
  rintro ⟨-, hp⟩
  rw [List.isPrefixOf_iff_prefix] at hp
  exact h (hp.isInfix.trans
    (((List.dropWhile_suffix isSpace).trans (List.dropWhile_suffix isWord)).isInfix))

/-- An atom without any of the six operators is the name of a field, tested
for truthiness. -/
theorem evaluateSingleCondition_field (config : Config) (s : Str)
    (hops : ∀ op ∈ [">=".toList, "<=".toList, ">".toList, "<".toList, "!=".toList,
      "==".toList], ¬ op <:+: s) :
    evaluateSingleCondition s config = (config (jsTrim s)).truthy := by
  unfold evaluateSingleCondition
  rw [matchOp_eq_none _ s (hops _ (by simp)), matchOp_eq_none _ s (hops _ (by simp)),
    matchOp_eq_none _ s (hops _ (by simp)), matchOp_eq_none _ s (hops _ (by simp)),
    matchOp_eq_none _ s (hops _ (by simp)), matchOp_eq_none _ s (hops _ (by simp))]

/-- The values that are falsy. -/
theorem truthy_eq_false_iff (v : Value) :
    v.truthy = false ↔
      v = .undefined ∨ v = .null ∨ v = .bool false ∨ v = .str [] ∨
        ∃ n, v = .num n ∧ (n.isNaN = true ∨ JSNum.eq n (.ofInt 0) = true) := by
  cases v with
  | undefined => simp [Value.truthy]
  | null => simp [Value.truthy]
  | bool b => simp [Value.truthy]
  | str s => simp [Value.truthy]
  | list r items => simp [Value.truthy]
  | num n =>
    cases n with
    | nan => simp [Value.truthy, JSNum.isNaN]
    | inf b => simp [Value.truthy, JSNum.isNaN, JSNum.eq, JSNum.ofInt]
    | fin m e => simp [Value.truthy, JSNum.isNaN, JSNum.eq, JSNum.ofInt]

/-- C18 (amended): for a non-empty expression that is one atom with none of
the six operators, `evaluateCondition` returns the truthiness of the field
whose name is the trimmed atom; that is false exactly when the value is
absent, `null`, `false`, the empty string, zero or `NaN`. -/
theorem evaluateCondition_field_truthiness (config : Config) (s : Str) (hne : s ≠ [])
    (hor : ¬ "||".toList <:+: s) (hand : ¬ "&&".toList <:+: s)
    (hops : ∀ op ∈ [">=".toList, "<=".toList, ">".toList, "<".toList, "!=".toList,
      "==".toList], ¬ op <:+: s) :
    evaluateCondition (.str s) config = (config (jsTrim s)).truthy ∧
      ((config (jsTrim s)).truthy = false ↔
        config (jsTrim s) = .undefined ∨ config (jsTrim s) = .null ∨
          config (jsTrim s) = .bool false ∨ config (jsTrim s) = .str [] ∨
          ∃ n, config (jsTrim s) = .num n ∧
            (n.isNaN = true ∨ JSNum.eq n (.ofInt 0) = true)) := by
  refine ⟨?_, truthy_eq_false_iff _⟩
  have htr : Value.truthy (.str s) = true := by simp [Value.truthy, hne]
  have h1 := split2_eq_singleton '|' '|' s hor
  have h2 := split2_eq_singleton '&' '&' (jsTrim s)
    (fun hi => hand (hi.trans (jsTrim_infix_self s)))
  have h3 := evaluateSingleCondition_field config (jsTrim s)
    (fun op hop hi => hops op hop (hi.trans (jsTrim_infix_self s)))
  unfold evaluateCondition
  simp only [htr, Bool.not_true, Bool.false_eq_true, if_false, h1, List.map_cons, List.map_nil,
    List.any_cons, List.any_nil, Bool.or_false, h2, List.all_cons, List.all_nil, Bool.and_true,
    jsTrim_idem, h3]

/-- C18 as stated fails: `NaN` is none of 0, the empty string, `false`,
`null` and an absent key, and a field of that value is false. -/
theorem evaluateCondition_field_truthiness_counterexample :
    evaluateCondition (.str "enabled".toList)
        (Config.ofList [("enabled".toList, .num .nan)]) = false ∧
      JSNum.eq .nan (.ofInt 0) = false ∧
      Config.ofList [("enabled".toList, .num .nan)] "enabled".toList ≠ .undefined := by
  decide

/-- C18 (amended), at the atom `enabled` with surrounding spaces and a field
of value 1. -/
theorem evaluateCondition_field_truthiness_witness :
    evaluateCondition (.str " enabled ".toList)
        (Config.ofList [("enabled".toList, .num (.ofInt 1))]) = true :=
  (evaluateCondition_field_truthiness (Config.ofList [("enabled".toList, .num (.ofInt 1))])
    " enabled ".toList (by decide) (by decide) (by decide) (by decide)).1.trans (by decide)

/-- C19: for every configuration, `evaluateCondition` is true on the empty
string and on an absent (`undefined`) expression. -/
theorem evaluateCondition_empty (config : Config) :
    evaluateCondition (.str []) config = true ∧ evaluateCondition .undefined config = true :=
  ⟨rfl, rfl⟩

/-- C20: for every configuration, `computeValue` returns the empty string on
an expression that matches neither the subnet pattern nor the template
pattern, on the empty expression and on an absent one. -/
theorem computeValue_no_pattern (config : Config) (s : Str)
    (h1 : matchCidrsubnet s = none) (h2 : matchTemplate s = none) :
    computeValue (.str s) config = some [] ∧ computeValue (.str []) config = some [] ∧
      computeValue .undefined config = some [] := by
  refine ⟨?_, rfl, rfl⟩
  unfold computeValue
  by_cases htr : Value.truthy (.str s) = true
  · simp only [htr, Bool.not_true, Bool.false_eq_true, if_false, h1, h2]
  · simp only [htr, Bool.not_false, if_true]

/-- C20, at an expression with two arguments only, which neither pattern
matches. -/
theorem computeValue_no_pattern_witness :
    computeValue (.str "cidrsubnet(vpc_cidr, 8)".toList)
        (Config.ofList [("vpc_cidr".toList, .str "10.0.0.0/16".toList)]) = some [] :=
  (computeValue_no_pattern (Config.ofList [("vpc_cidr".toList, .str "10.0.0.0/16".toList)])
    "cidrsubnet(vpc_cidr, 8)".toList (by decide) (by decide)).1

theorem splitChar_ne_nil (c : Char) : ∀ s : Str, splitChar c s ≠ []
  | [] => by simp [splitChar]
  | x :: rest => by
    unfold splitChar
    split
    · simp
    · split <;> simp

/-- The first part of a split is the text before the first separator. -/
theorem headD_splitChar (c : Char) :
    ∀ s : Str, (splitChar c s).headD [] = s.takeWhile fun x => x != c
  | [] => rfl
  | x :: rest => by
    have ih := headD_splitChar c rest
    unfold splitChar
    by_cases hx : x = c
    · simp [hx]
    · rw [if_neg hx]
      cases hs : splitChar c rest with
      | nil => exact absurd hs (splitChar_ne_nil c rest)
      | cons p ps =>
        rw [hs] at ih
        simp only [List.headD_cons] at ih
        simp [hx, ih]

/-- The name that `validateRule` reads is the text before the first colon. -/
theorem validateRule_eq_applyRule (rule : Str) (value : Value) (config : Config) :
    ∃ param : Value,
      validateRule rule value config = applyRule (textBeforeColon rule) param value config := by
  unfold validateRule textBeforeColon
  simp only [headD_splitChar]
  exact ⟨_, rfl⟩

/-- A name that is none of the thirteen falls to the `default` case. -/
theorem applyRule_unknown (name : Str) (param value : Value) (config : Config)
    (h : name ∉ knownRuleNames) : applyRule name param value config = .ok none := by
  simp only [knownRuleNames, List.mem_cons, List.mem_singleton, List.not_mem_nil, or_false,
    not_or] at h
  obtain ⟨h1, h2, h3, h4, h5, h6, h7, h8, h9, h10, h11, h12, h13⟩ := h
  unfold applyRule
  rw [if_neg h1, if_neg h2, if_neg h3, if_neg h4, if_neg h5, if_neg h6, if_neg h7, if_neg h8,
    if_neg h9, if_neg h10, if_neg h11, if_neg h12, if_neg h13]

/-- A rule whose result is `null` can be left out of the list of rules. -/
theorem validateRules_skip (rule : Str) (value : Value) (config : Config)
    (h : validateRule rule value config = .ok none) (post : List Str) :
    ∀ pre : List Str, validateRules (pre ++ rule :: post) value config =
      validateRules (pre ++ post) value config
  | [] => by
    simp only [List.nil_append]
    rw [validateRules, h]
  | r :: pre => by
    have ih := validateRules_skip rule value config h post pre
    simp only [List.cons_append]
    rw [validateRules, validateRules, ih]

/-- C21: a rule whose name, the text before its first colon, is none of the
thirteen known names gets `null` from `validateRule` for every value and
configuration, and `validateField` gives the same result with the rule as
without it, wherever it stands in the list. -/
theorem unknown_rule_passes (rule : Str) (value : Value) (config : Config)
    (h : textBeforeColon rule ∉ knownRuleNames) :
    validateRule rule value config = .ok none ∧
      ∀ pre post : List Str,
        validateField (some (pre ++ rule :: post)) value config =
          validateField (some (pre ++ post)) value config := by
  have h1 : validateRule rule value config = .ok none := by
    obtain ⟨param, e⟩ := validateRule_eq_applyRule rule value config
    rw [e, applyRule_unknown _ param value config h]
  refine ⟨h1, ?_⟩
  intro pre post
  have h2 := validateRules_skip rule value config h1 post pre
  unfold validateField
  simp only
  rw [if_neg (by simp), h2]
  by_cases hl : (pre ++ post).length = 0
  · rw [if_pos hl, List.length_eq_zero.1 hl]
    rfl
  · rw [if_neg hl]

/-- C21, at the unknown rule `uppercase:yes` next to `min:5`: the value 3
fails with the message of `min:5`, and the value 7 passes. -/
theorem unknown_rule_passes_witness :
    validateRule "uppercase:yes".toList (.num (.ofInt 3)) (Config.ofList []) = .ok none ∧
      validateField (some ["uppercase:yes".toList, "min:5".toList]) (.num (.ofInt 3))
        (Config.ofList []) = .ok (some "Minimum value is 5".toList) ∧
      validateField (some ["uppercase:yes".toList, "min:5".toList]) (.num (.ofInt 7))
        (Config.ofList []) = .ok none :=
  ⟨(unknown_rule_passes "uppercase:yes".toList (.num (.ofInt 3)) (Config.ofList [])
      (by decide)).1,
    ((unknown_rule_passes "uppercase:yes".toList (.num (.ofInt 3)) (Config.ofList [])
      (by decide)).2 [] ["min:5".toList]).trans (by decide),
    ((unknown_rule_passes "uppercase:yes".toList (.num (.ofInt 7)) (Config.ofList [])
      (by decide)).2 [] ["min:5".toList]).trans (by decide)⟩

theorem takeWhile_ne_append (c : Char) (name rest : Str) (hn : c ∉ name) :
    (name ++ c :: rest).takeWhile (fun x => x != c) = name ∧
      (name ++ c :: rest).dropWhile (fun x => x != c) = c :: rest := by
  have hall : ∀ x ∈ name, (x != c) = true := by
    intro x hx
    simp only [bne_iff_ne, ne_eq]
    rintro rfl
    exact hn hx
  have hstop : ∀ x, (c :: rest).head? = some x → (x != c) = false := by
    intro x hx
    simp only [List.head?_cons, Option.some.injEq] at hx
    simp [hx]
  exact ⟨takeWhile_append_stop name _ hall hstop, dropWhile_append_stop name _ hall hstop⟩

/-- C22 (amended): for a rule `name:rest`, the text after the first colon is
`rest`, and the parameter that `validateRule` uses is the part of `rest`
before its first colon: `rest` itself only when it has no colon. -/
theorem rule_param_to_next_colon (name rest : Str) (value : Value) (config : Config)
    (hn : ':' ∉ name) :
    textBeforeColon (name ++ ':' :: rest) = name ∧
      textAfterColon (name ++ ':' :: rest) = rest ∧
      validateRule (name ++ ':' :: rest) value config =
        applyRule name (.str (textBeforeColon rest)) value config ∧
      (':' ∉ rest → validateRule (name ++ ':' :: rest) value config =
        applyRule name (.str rest) value config) := by
  have h := takeWhile_ne_append ':' name rest hn
  have hv : validateRule (name ++ ':' :: rest) value config =
      applyRule name (.str (textBeforeColon rest)) value config := by
    unfold validateRule textBeforeColon
    rw [splitChar_append ':' rest name hn]
    cases hs : splitChar ':' rest with
    | nil => exact absurd hs (splitChar_ne_nil ':' rest)
    | cons p ps =>
      have hp := headD_splitChar ':' rest
      rw [hs] at hp
      simp only [List.headD_cons] at hp
      simp only [List.headD_cons, List.get?_cons_succ, List.get?_cons_zero, hp]
  refine ⟨?_, ?_, hv, ?_⟩
  · unfold textBeforeColon
    exact h.1
  · unfold textAfterColon
    rw [h.2]
    rfl
  · intro hr
    rw [hv]
    unfold textBeforeColon
    rw [List.takeWhile_eq_self_iff.2 ?_]
    intro x hx
    simp only [bne_iff_ne, ne_eq]
    rintro rfl
    exact hr hx

/-- C22 as stated fails: for `min:5:6` the text after the first colon is
`5:6`, but the value 3 gets the message of the parameter `5`; with the
parameter `5:6`, which is no number, the rule would pass. -/
theorem rule_param_to_next_colon_counterexample :
    textAfterColon "min:5:6".toList = "5:6".toList ∧
      validateRule "min:5:6".toList (.num (.ofInt 3)) (Config.ofList []) =
        .ok (some "Minimum value is 5".toList) ∧
      applyRule "min".toList (.str "5:6".toList) (.num (.ofInt 3)) (Config.ofList []) =
        .ok none := by
  decide

/-- C22 (amended), at the rule `different-from:a:b`, whose parameter is `a`. -/
theorem rule_param_to_next_colon_witness :
    validateRule "different-from:a:b".toList (.num (.ofInt 1))
        (Config.ofList [("a".toList, .num (.ofInt 1))]) =
      .ok (some "Must be different from a".toList) :=
  (rule_param_to_next_colon "different-from".toList "a:b".toList (.num (.ofInt 1))
    (Config.ofList [("a".toList, .num (.ofInt 1))]) (by decide)).2.2.1.trans (by decide)

/-- Two atom patterns whose operators start with different characters do not
both match an atom: the operator stands right after the field name and the
white space. -/
theorem matchOp_disjoint (c1 c2 : Char) (t1 t2 s : Str) (hc : c1 ≠ c2) (x : Str × Str)
    (h : matchOp (c1 :: t1) s = some x) : matchOp (c2 :: t2) s = none := by
  unfold matchOp at h ⊢
  simp only at h ⊢
  split at h
  · rename_i h1
    rw [if_neg]
    rintro ⟨-, h2⟩
    have p1 := List.isPrefixOf_iff_prefix.1 h1.2
    have p2 := List.isPrefixOf_iff_prefix.1 h2
    obtain ⟨u1, e1⟩ := p1
    obtain ⟨u2, e2⟩ := p2
    rw [← e2] at e1
    simp only [List.cons_append, List.cons.injEq] at e1
    exact hc e1.1
  · exact absurd h (by simp)

/-- The two orders of the six patterns give the same result on every atom. -/
theorem evaluateAtomInGrammarOrder_eq (s : Str) (config : Config) :
    evaluateAtomInGrammarOrder s config = evaluateSingleCondition s config := by
  unfold evaluateAtomInGrammarOrder evaluateSingleCondition
  cases hge : matchOp ">=".toList s with
  | some x => rfl
  | none =>
    cases hle : matchOp "<=".toList s with
    | some x => rfl
    | none =>
      cases hgt : matchOp ">".toList s with
      | some x =>
        have n1 := matchOp_disjoint '>' '!' [] ['='] s (by decide) x hgt
        have n2 := matchOp_disjoint '>' '=' [] ['='] s (by decide) x hgt
        simp only [String.toList] at n1 n2 ⊢
        simp only [n1, n2]
      | none =>
        cases hlt : matchOp "<".toList s with
        | some x =>
          have n1 := matchOp_disjoint '<' '!' [] ['='] s (by decide) x hlt
          have n2 := matchOp_disjoint '<' '=' [] ['='] s (by decide) x hlt
          simp only [String.toList] at n1 n2 ⊢
          simp only [n1, n2]
        | none => rfl

/-- An atom `f >= v` is the `>=` comparison. -/
theorem evaluateSingleCondition_ge_atom (config : Config) (f ws1 ws2 v : Str)
    (hf : f ≠ []) (hfw : ∀ c ∈ f, isWord c = true)
    (hws1 : ∀ c ∈ ws1, isSpace c = true) (hws2 : ∀ c ∈ ws2, isSpace c = true)
    (hv : v ≠ []) (hh : ∀ c, v.head? = some c → isSpace c = false)
    (hl : ∀ c ∈ v, isLineTerminator c = false) :
    evaluateSingleCondition (f ++ ws1 ++ ">=".toList ++ ws2 ++ v) config =
      JSNum.ge (config f).toNumber (parseValue v).toNumber := by
  have e : f ++ ws1 ++ ">=".toList ++ ws2 ++ v = f ++ ws1 ++ ('>' :: '=' :: (ws2 ++ v)) := by
    simp
  have hr : ∀ c, ('>' :: '=' :: (ws2 ++ v)).head? = some c →
      isWord c = false ∧ isSpace c = false := by
    intro c hc
    simp only [List.head?_cons, Option.some.injEq] at hc
    subst hc
    decide
  have hcap := captureValue_form ws2 v hws2 hv hh hl
  rw [e]
  unfold evaluateSingleCondition
  simp only [matchOp_form _ f ws1 _ hf hfw hws1 hr]
  simp [List.isPrefixOf, hcap]

/-- An atom `f <= v` is the `<=` comparison. -/
theorem evaluateSingleCondition_le_atom (config : Config) (f ws1 ws2 v : Str)
    (hf : f ≠ []) (hfw : ∀ c ∈ f, isWord c = true)
    (hws1 : ∀ c ∈ ws1, isSpace c = true) (hws2 : ∀ c ∈ ws2, isSpace c = true)
    (hv : v ≠ []) (hh : ∀ c, v.head? = some c → isSpace c = false)
    (hl : ∀ c ∈ v, isLineTerminator c = false) :
    evaluateSingleCondition (f ++ ws1 ++ "<=".toList ++ ws2 ++ v) config =
      JSNum.le (config f).toNumber (parseValue v).toNumber := by
  have e : f ++ ws1 ++ "<=".toList ++ ws2 ++ v = f ++ ws1 ++ ('<' :: '=' :: (ws2 ++ v)) := by
    simp
  have hr : ∀ c, ('<' :: '=' :: (ws2 ++ v)).head? = some c →
      isWord c = false ∧ isSpace c = false := by
    intro c hc
    simp only [List.head?_cons, Option.some.injEq] at hc
    subst hc
    decide
  have hcap := captureValue_form ws2 v hws2 hv hh hl
  rw [e]
  unfold evaluateSingleCondition
  simp only [matchOp_form _ f ws1 _ hf hfw hws1 hr]
  simp [List.isPrefixOf, hcap]

/-- When the value pattern fails on a non-empty text, the text has a line
terminator, and the value pattern fails on `=` followed by the text as well. -/
theorem captureValue_eq_none (t : Str) (ht : t ≠ []) (h : captureValue t = none) :
    captureValue ('=' :: t) = none := by
  unfold captureValue at h
  rw [List.findSome?_eq_none_iff] at h
  have h0 := h 0 (by simp)
  simp only [List.drop_zero, ne_eq, ht, not_false_eq_true, true_and, ite_eq_right_iff,
    reduceCtorEq, imp_false] at h0
  have hs : ('=' :: t).takeWhile isSpace = [] := by
    rw [List.takeWhile_cons, if_neg (by decide)]
  have hall : ¬ (('=' :: t).all (fun x => !isLineTerminator x) = true) := by
    rw [List.all_cons]
    simp only [Bool.and_eq_true, not_and]
    intro _
    exact h0
  unfold captureValue
  rw [hs, show List.range (([] : Str).length + 1) = [0] from rfl]
  simp only [List.reverse_singleton, List.findSome?_cons, List.findSome?_nil, List.drop_zero]
  rw [if_neg (fun hh => hall hh.2)]

/-- An atom with `>=` after the field name and a non-empty text after it is
the `>=` comparison when the value pattern matches the text, and otherwise
matches no pattern: it is never the `>` comparison with a value that starts
with `=`.  The same holds of `<=`. -/
theorem evaluateSingleCondition_ge_le_text (config : Config) (f ws1 t : Str)
    (hf : f ≠ []) (hfw : ∀ c ∈ f, isWord c = true)
    (hws1 : ∀ c ∈ ws1, isSpace c = true) (ht : t ≠ []) :
    evaluateSingleCondition (f ++ ws1 ++ ('>' :: '=' :: t)) config =
        (match captureValue t with
        | some v => JSNum.ge (config f).toNumber (parseValue v).toNumber
        | none => (config (jsTrim (f ++ ws1 ++ ('>' :: '=' :: t)))).truthy) ∧
      evaluateSingleCondition (f ++ ws1 ++ ('<' :: '=' :: t)) config =
        (match captureValue t with
        | some v => JSNum.le (config f).toNumber (parseValue v).toNumber
        | none => (config (jsTrim (f ++ ws1 ++ ('<' :: '=' :: t)))).truthy) := by
  have hr : ∀ x : Char, isWord x = false → isSpace x = false →
      ∀ c, (x :: '=' :: t).head? = some c → isWord c = false ∧ isSpace c = false := by
    intro x h1 h2 c hc
    simp only [List.head?_cons, Option.some.injEq] at hc
    subst hc
    exact ⟨h1, h2⟩
  constructor
  · unfold evaluateSingleCondition
    simp only [matchOp_form _ f ws1 _ hf hfw hws1 (hr '>' (by decide) (by decide))]
    cases hc : captureValue t with
    | some v => simp [List.isPrefixOf, hc]
    | none => simp [List.isPrefixOf, hc, captureValue_eq_none t ht hc]
  · unfold evaluateSingleCondition
    simp only [matchOp_form _ f ws1 _ hf hfw hws1 (hr '<' (by decide) (by decide))]
    cases hc : captureValue t with
    | some v => simp [List.isPrefixOf, hc]
    | none => simp [List.isPrefixOf, hc, captureValue_eq_none t ht hc]

/-- C23: on every atom, trying the six patterns in the order `>=`, `<=`,
`!=`, `==`, `>`, `<` gives the result of `evaluateSingleCondition`, which tries
them in the order `>=`, `<=`, `>`, `<`, `!=`, `==`; and an atom `f >= v` (a
field name, optional white space around the operator, a non-empty value on one
line) is the comparison `>=` of `config[f]` with `v` in both orders, as
`f <= v` is the comparison `<=`.  Whatever non-empty text follows `>=` or
`<=`, the atom is that comparison or matches no pattern at all: it is never
the comparison `>` or `<` with a value that starts with `=`. -/
theorem operator_orders_agree (config : Config) (f ws1 ws2 v : Str)
    (hf : f ≠ []) (hfw : ∀ c ∈ f, isWord c = true)
    (hws1 : ∀ c ∈ ws1, isSpace c = true) (hws2 : ∀ c ∈ ws2, isSpace c = true)
    (hv : v ≠ []) (hh : ∀ c, v.head? = some c → isSpace c = false)
    (hl : ∀ c ∈ v, isLineTerminator c = false) :
    (∀ s : Str, evaluateAtomInGrammarOrder s config = evaluateSingleCondition s config) ∧
      evaluateSingleCondition (f ++ ws1 ++ ">=".toList ++ ws2 ++ v) config =
        JSNum.ge (config f).toNumber (parseValue v).toNumber ∧
      evaluateAtomInGrammarOrder (f ++ ws1 ++ ">=".toList ++ ws2 ++ v) config =
        JSNum.ge (config f).toNumber (parseValue v).toNumber ∧
      evaluateSingleCondition (f ++ ws1 ++ "<=".toList ++ ws2 ++ v) config =
        JSNum.le (config f).toNumber (parseValue v).toNumber ∧
      evaluateAtomInGrammarOrder (f ++ ws1 ++ "<=".toList ++ ws2 ++ v) config =
        JSNum.le (config f).toNumber (parseValue v).toNumber ∧
      ∀ t : Str, t ≠ [] →
        evaluateSingleCondition (f ++ ws1 ++ ('>' :: '=' :: t)) config =
          (match captureValue t with
          | some w => JSNum.ge (config f).toNumber (parseValue w).toNumber
          | none => (config (jsTrim (f ++ ws1 ++ ('>' :: '=' :: t)))).truthy) ∧
        evaluateSingleCondition (f ++ ws1 ++ ('<' :: '=' :: t)) config =
          (match captureValue t with
          | some w => JSNum.le (config f).toNumber (parseValue w).toNumber
          | none => (config (jsTrim (f ++ ws1 ++ ('<' :: '=' :: t)))).truthy) := by
  have hge := evaluateSingleCondition_ge_atom config f ws1 ws2 v hf hfw hws1 hws2 hv hh hl
  have hle := evaluateSingleCondition_le_atom config f ws1 ws2 v hf hfw hws1 hws2 hv hh hl
  refine ⟨fun s => evaluateAtomInGrammarOrder_eq s config, hge, ?_, hle, ?_,
    fun t ht => evaluateSingleCondition_ge_le_text config f ws1 t hf hfw hws1 ht⟩
  · rw [evaluateAtomInGrammarOrder_eq, hge]
  · rw [evaluateAtomInGrammarOrder_eq, hle]

/-- C23, at the atom `count>=3` with `count` set to 3: it is true, as
`3 >= 3` is, while the comparison `>` with the text `=3` is false. -/
theorem operator_orders_agree_witness :
    evaluateSingleCondition "count>=3".toList
        (Config.ofList [("count".toList, .num (.ofInt 3))]) = true ∧
      evaluateAtomInGrammarOrder "count>=3".toList
        (Config.ofList [("count".toList, .num (.ofInt 3))]) = true ∧
      JSNum.gt (Value.toNumber (.num (.ofInt 3))) (parseValue "=3".toList).toNumber = false :=
  ⟨(operator_orders_agree (Config.ofList [("count".toList, .num (.ofInt 3))])
      "count".toList [] [] "3".toList (by decide) (by decide) (by decide) (by decide)
      (by decide) (by decide) (by decide)).2.1.trans (by decide),
    (operator_orders_agree (Config.ofList [("count".toList, .num (.ofInt 3))])
      "count".toList [] [] "3".toList (by decide) (by decide) (by decide) (by decide)
      (by decide) (by decide) (by decide)).2.2.1.trans (by decide),
    by decide⟩

/-- An unset value is falsy. -/
theorem truthy_of_isUnset (v : Value) (h : v.isUnset = true) : v.truthy = false := by
  cases v with
  | str s =>
    cases s with
    | nil => rfl
    | cons c cs => simp [Value.isUnset] at h
  | undefined => rfl
  | null => rfl
  | bool b => simp [Value.isUnset] at h
  | num n => simp [Value.isUnset] at h
  | list r items => simp [Value.isUnset] at h

/-- C24: on an expression that both patterns match, with the captures `a`,
`b`, `i` of the subnet pattern, `computeValue` returns the result of the
subnet branch whatever the template pattern captures: the empty string when
`config[a]` or `config[b]` is falsy, as it is when unset, and
`cidrsubnet(config[a], config[b], i)` otherwise. -/
theorem subnet_form_first (config : Config) (s a b i t : Str)
    (h1 : matchCidrsubnet s = some (a, b, i)) (h2 : matchTemplate s = some t) :
    computeValue (.str s) config =
        (if (config (jsTrim a)).truthy = false ∨ (config (jsTrim b)).truthy = false then some []
        else cidrsubnet (config (jsTrim a)) (config (jsTrim b)) (parseIntStr false i)) ∧
      ((config (jsTrim a)).isUnset = true ∨ (config (jsTrim b)).isUnset = true →
        computeValue (.str s) config = some []) := by
  have hne : s ≠ [] := by
    rintro rfl
    simp [matchCidrsubnet] at h1
  have htr : Value.truthy (.str s) = true := by simp [Value.truthy, hne]
  have hc : computeValue (.str s) config =
      (if (config (jsTrim a)).truthy = false ∨ (config (jsTrim b)).truthy = false then some []
      else cidrsubnet (config (jsTrim a)) (config (jsTrim b)) (parseIntStr false i)) := by
    unfold computeValue
    simp only [htr, Bool.not_true, Bool.false_eq_true, if_false, h1]
    by_cases ha : (config (jsTrim a)).truthy = true <;>
      by_cases hb : (config (jsTrim b)).truthy = true <;> simp [ha, hb]
  refine ⟨hc, ?_⟩
  intro hu
  rw [hc, if_pos]
  rcases hu with hu | hu
  · exact Or.inl (truthy_of_isUnset _ hu)
  · exact Or.inr (truthy_of_isUnset _ hu)

/-- C24, at the example of the claim with the parent `10.0.0.0/16` and 8
bits: the result is the subnet, and the template expansion of the captured
text is another text. -/
theorem subnet_form_first_witness :
    computeValue (.str ("template(".toList ++ '"' :: "cidrsubnet(a, b, 0)".toList ++ ['"', ')']))
        (Config.ofList [("a".toList, .str "10.0.0.0/16".toList),
          ("b".toList, .num (.ofInt 8))]) = some "10.0.0.0/24".toList ∧
      evaluateTemplate "cidrsubnet(a, b, 0)".toList
        (Config.ofList [("a".toList, .str "10.0.0.0/16".toList),
          ("b".toList, .num (.ofInt 8))]) = "cidrsubnet(a, b, 0)".toList :=
  ⟨(subnet_form_first
      (Config.ofList [("a".toList, .str "10.0.0.0/16".toList), ("b".toList, .num (.ofInt 8))])
      ("template(".toList ++ '"' :: "cidrsubnet(a, b, 0)".toList ++ ['"', ')'])
      "a".toList "b".toList "0".toList "cidrsubnet(a, b, 0)".toList
      (by decide) (by decide)).1.trans (by decide),
    by decide⟩

theorem ipv4_octets (x : Nat) (hx : x < 2 ^ 32) :
    ipv4 (x / 2 ^ 24 % 256) (x / 2 ^ 16 % 256) (x / 2 ^ 8 % 256) (x % 256) = x := by
  unfold ipv4
  norm_num at hx ⊢
  omega

/-- Two canonical CIDR texts of the same prefix length from 1 to 32 whose
addresses differ in their first bits are different texts that do not
overlap. -/
theorem disjoint_of_firstBits_ne (x y q : Nat) (hx : x < 2 ^ 32) (hy : y < 2 ^ 32)
    (hq1 : 1 ≤ q) (hq2 : q ≤ 32) (hne : firstBits q x ≠ firstBits q y) :
    dottedOfNat x ++ '/' :: natToStr q ≠ dottedOfNat y ++ '/' :: natToStr q ∧
      doCIDRsOverlap (.str (dottedOfNat x ++ '/' :: natToStr q))
        (.str (dottedOfNat y ++ '/' :: natToStr q)) = false := by
  constructor
  · intro e
    have e2 := congrArg addressOfText e
    rw [addressOfText_dottedOfNat x hx, addressOfText_dottedOfNat y hy] at e2
    exact hne (by rw [e2])
  · have h := doCIDRsOverlap_of_pos (x / 2 ^ 24 % 256) (x / 2 ^ 16 % 256) (x / 2 ^ 8 % 256)
      (x % 256) q (y / 2 ^ 24 % 256) (y / 2 ^ 16 % 256) (y / 2 ^ 8 % 256) (y % 256) q
      (Nat.mod_lt _ (by norm_num)) (Nat.mod_lt _ (by norm_num)) (Nat.mod_lt _ (by norm_num))
      (Nat.mod_lt _ (by norm_num)) (Nat.mod_lt _ (by norm_num)) (Nat.mod_lt _ (by norm_num))
      (Nat.mod_lt _ (by norm_num)) (Nat.mod_lt _ (by norm_num)) hq1 hq2 hq1 hq2
    rw [ipv4_octets x hx, ipv4_octets y hy, min_self] at h
    unfold cidrText at h
    unfold dottedOfNat
    rw [h]
    simp [hne]

/-- The first `p + newBits` bits of the subnets of a parent with a prefix
length of at least 1 differ for different indices. -/
theorem sibling_bits_pos (u p newBits i j : Nat) (h2 : p + newBits ≤ 32) (hij : i ≠ j) :
    firstBits (p + newBits) (u / 2 ^ (32 - p) * 2 ^ (32 - p) + i * 2 ^ (32 - (p + newBits))) ≠
      firstBits (p + newBits)
        (u / 2 ^ (32 - p) * 2 ^ (32 - p) + j * 2 ^ (32 - (p + newBits))) := by
  have e : 2 ^ (32 - p) = 2 ^ newBits * 2 ^ (32 - (p + newBits)) := by
    rw [← pow_add]
    congr 1
    omega
  have hEpos : 0 < 2 ^ (32 - (p + newBits)) := Nat.pow_pos (by norm_num)
  have e2 : ∀ k, u / 2 ^ (32 - p) * 2 ^ (32 - p) + k * 2 ^ (32 - (p + newBits)) =
      (u / 2 ^ (32 - p) * 2 ^ newBits + k) * 2 ^ (32 - (p + newBits)) := by
    intro k
    rw [e]
    ring
  unfold firstBits
  rw [e2 i, e2 j, Nat.mul_div_cancel _ hEpos, Nat.mul_div_cancel _ hEpos]
  omega

/-- The first `newBits` bits of the subnets of a parent with prefix length 0
differ for different indices below `2 ^ newBits`. -/
theorem sibling_bits_zero (u newBits i j : Nat) (h2 : newBits ≤ 32)
    (hi : i < 2 ^ newBits) (hj : j < 2 ^ newBits) (hij : i ≠ j) :
    firstBits newBits ((u + i * 2 ^ (32 - newBits)) % 2 ^ 32) ≠
      firstBits newBits ((u + j * 2 ^ (32 - newBits)) % 2 ^ 32) := by
  have e : 2 ^ 32 = 2 ^ newBits * 2 ^ (32 - newBits) := by
    rw [← pow_add]
    congr 1
    omega
  have hEpos : 0 < 2 ^ (32 - newBits) := Nat.pow_pos (by norm_num)
  unfold firstBits
  rw [e, Nat.mod_mul_left_div_self, Nat.mod_mul_left_div_self,
    Nat.add_mul_div_right _ _ hEpos, Nat.add_mul_div_right _ _ hEpos]
  intro heq
  have h3 : i ≡ j [MOD 2 ^ newBits] := Nat.ModEq.add_left_cancel' _ heq
  unfold Nat.ModEq at h3
  rw [Nat.mod_eq_of_lt hi, Nat.mod_eq_of_lt hj] at h3
  exact hij h3

/-- C25: for a valid parent CIDR text (four octet texts of value at most
255 and a prefix length `p`), at least one extra bit with `p + newBits ≤ 32`
and two different indices below `2 ^ newBits`, `cidrsubnet` returns two
different CIDR texts, and `doCIDRsOverlap` of the two is false. -/
theorem sibling_subnets_disjoint (o1 o2 o3 o4 : Str) (p newBits i j : Nat)
    (h1 : IsOctetText o1) (h2 : IsOctetText o2) (h3 : IsOctetText o3) (h4 : IsOctetText o4)
    (hnb : 1 ≤ newBits) (h : p + newBits ≤ 32) (hi : i < 2 ^ newBits) (hj : j < 2 ^ newBits)
    (hij : i ≠ j) :
    ∃ ri rj : Str,
      cidrsubnet (.str (o1 ++ ('.' :: (o2 ++ ('.' :: (o3 ++ ('.' :: (o4 ++
        ('/' :: natToStr p))))))))) (.num (.ofInt newBits)) (.ofInt i) = some ri ∧
      cidrsubnet (.str (o1 ++ ('.' :: (o2 ++ ('.' :: (o3 ++ ('.' :: (o4 ++
        ('/' :: natToStr p))))))))) (.num (.ofInt newBits)) (.ofInt j) = some rj ∧
      ri ≠ rj ∧ doCIDRsOverlap (.str ri) (.str rj) = false := by
  have r1 : radixValue 10 o1 < 256 := Nat.lt_succ_of_le h1.2.2.2
  have r2 : radixValue 10 o2 < 256 := Nat.lt_succ_of_le h2.2.2.2
  have r3 : radixValue 10 o3 < 256 := Nat.lt_succ_of_le h3.2.2.2
  have r4 : radixValue 10 o4 < 256 := Nat.lt_succ_of_le h4.2.2.2
  have hu : ipv4 (radixValue 10 o1) (radixValue 10 o2) (radixValue 10 o3) (radixValue 10 o4) <
      2 ^ 32 := by
    unfold ipv4
    norm_num
    omega
  rw [cidrsubnet_octet_texts o1 o2 o3 o4 p h1 h2 h3 h4 (by omega),
    cidrsubnet_octet_texts o1 o2 o3 o4 p h1 h2 h3 h4 (by omega)]
  generalize radixValue 10 o1 = a at r1 hu ⊢
  generalize radixValue 10 o2 = b at r2 hu ⊢
  generalize radixValue 10 o3 = c at r3 hu ⊢
  generalize radixValue 10 o4 = d at r4 hu ⊢
  by_cases hp : p = 0
  · subst hp
    rw [cidrsubnet_of_zero a b c d newBits i r1 r2 r3 r4 (by omega),
      cidrsubnet_of_zero a b c d newBits j r1 r2 r3 r4 (by omega)]
    have hd := disjoint_of_firstBits_ne _ _ newBits
      (Nat.mod_lt (ipv4 a b c d + i * 2 ^ (32 - newBits)) (by norm_num : 0 < 2 ^ 32))
      (Nat.mod_lt (ipv4 a b c d + j * 2 ^ (32 - newBits)) (by norm_num : 0 < 2 ^ 32))
      hnb (by omega)
      (sibling_bits_zero (ipv4 a b c d) newBits i j (by omega) hi hj hij)
    exact ⟨_, _, rfl, rfl, hd.1, hd.2⟩
  · have hoff : ∀ k, k < 2 ^ newBits → k * 2 ^ (32 - (p + newBits)) < 2 ^ (32 - p) := by
      intro k hk
      have e : 2 ^ (32 - p) = 2 ^ newBits * 2 ^ (32 - (p + newBits)) := by
        rw [← pow_add]
        congr 1
        omega
      rw [e]
      exact Nat.mul_lt_mul_of_pos_right hk (Nat.pow_pos (by norm_num))
    rw [cidrsubnet_of_pos a b c d p newBits i r1 r2 r3 r4 (by omega) h hi,
      cidrsubnet_of_pos a b c d p newBits j r1 r2 r3 r4 (by omega) h hj]
    have hd := disjoint_of_firstBits_ne _ _ (p + newBits)
      (base_add_offset_lt (ipv4 a b c d) (32 - p) _ (by omega) hu (hoff i hi))
      (base_add_offset_lt (ipv4 a b c d) (32 - p) _ (by omega) hu (hoff j hj))
      (by omega) h (sibling_bits_pos (ipv4 a b c d) p newBits i j h hij)
    exact ⟨_, _, rfl, rfl, hd.1, hd.2⟩

/-- C25, on the parent `200.10.0.0/8` with 4 extra bits and the indices 3
and 5. -/
theorem sibling_subnets_disjoint_witness :
    ∃ ri rj : Str,
      cidrsubnet (.str "200.10.0.0/8".toList) (.num (.ofInt 4)) (.ofInt 3) = some ri ∧
      cidrsubnet (.str "200.10.0.0/8".toList) (.num (.ofInt 4)) (.ofInt 5) = some rj ∧
      ri ≠ rj ∧ doCIDRsOverlap (.str ri) (.str rj) = false :=
  sibling_subnets_disjoint "200".toList "10".toList "0".toList "0".toList 8 4 3 5
    (by decide) (by decide) (by decide) (by decide) (by decide) (by decide) (by decide)
    (by decide) (by decide)

/-- The atoms `f >= 0` and `f <= 0` under `evaluateCondition` compare the
numeric coercion of `config[f]` with zero. -/
theorem evaluateCondition_zero_atoms (config : Config) (f : Str)
    (hf : f ≠ []) (hfw : ∀ c ∈ f, isWord c = true) :
    evaluateCondition (.str (f ++ " >= ".toList ++ "0".toList)) config =
        JSNum.ge (config f).toNumber (.ofInt 0) ∧
      evaluateCondition (.str (f ++ " <= ".toList ++ "0".toList)) config =
        JSNum.le (config f).toNumber (.ofInt 0) := by
  have hpv : (parseValue ['0']).toNumber = .ofInt 0 := by decide
  have e1 : f ++ " >= ".toList ++ "0".toList = f ++ [' '] ++ ">=".toList ++ [' '] ++ ['0'] := by
    simp
  have e2 : f ++ " <= ".toList ++ "0".toList = f ++ [' '] ++ "<=".toList ++ [' '] ++ ['0'] := by
    simp
  constructor
  · rw [evaluateCondition_field_literal config f _ _ hf hfw (by decide) (by decide), e1,
      evaluateSingleCondition_ge_atom config f [' '] [' '] ['0'] hf hfw (by decide) (by decide)
        (by decide) (by decide) (by decide), hpv]
  · rw [evaluateCondition_field_literal config f _ _ hf hfw (by decide) (by decide), e2,
      evaluateSingleCondition_le_atom config f [' '] [' '] ['0'] hf hfw (by decide) (by decide)
        (by decide) (by decide) (by decide), hpv]

/-- C26: for a field `f` that is absent from the configuration the atoms
`f >= 0` and `f <= 0` are false under `evaluateCondition`, and when
`config[f]` is the empty string or `null` both are true: the numeric coercion
of an absent value is `NaN` and that of the two others is zero. -/
theorem unset_forms_under_ordering (config : Config) (f : Str)
    (hf : f ≠ []) (hfw : ∀ c ∈ f, isWord c = true) :
    (config f = .undefined →
        evaluateCondition (.str (f ++ " >= ".toList ++ "0".toList)) config = false ∧
          evaluateCondition (.str (f ++ " <= ".toList ++ "0".toList)) config = false) ∧
      (config f = .str [] ∨ config f = .null →
        evaluateCondition (.str (f ++ " >= ".toList ++ "0".toList)) config = true ∧
          evaluateCondition (.str (f ++ " <= ".toList ++ "0".toList)) config = true) ∧
      Value.toNumber .undefined = .nan ∧ Value.toNumber (.str []) = .ofInt 0 ∧
      Value.toNumber .null = .ofInt 0 := by
  obtain ⟨hge, hle⟩ := evaluateCondition_zero_atoms config f hf hfw
  refine ⟨?_, ?_, by decide, by decide, by decide⟩
  · intro hu
    rw [hge, hle, hu]
    decide
  · rintro (hu | hu)
    · rw [hge, hle, hu]
      decide
    · rw [hge, hle, hu]
      decide

/-- C26, at the atoms `f >= 0` and `f <= 0` of the claim: false on the empty
configuration, true when `f` is the empty string and when it is `null`. -/
theorem unset_forms_under_ordering_witness :
    evaluateCondition (.str "f >= 0".toList) (Config.ofList []) = false ∧
      evaluateCondition (.str "f <= 0".toList) (Config.ofList []) = false ∧
      evaluateCondition (.str "f >= 0".toList) (Config.ofList [("f".toList, .str [])]) = true ∧
      evaluateCondition (.str "f <= 0".toList) (Config.ofList [("f".toList, .null)]) = true :=
  ⟨((unset_forms_under_ordering (Config.ofList []) "f".toList (by decide) (by decide)).1
      (by decide)).1,
    ((unset_forms_under_ordering (Config.ofList []) "f".toList (by decide) (by decide)).1
      (by decide)).2,
    ((unset_forms_under_ordering (Config.ofList [("f".toList, .str [])]) "f".toList (by decide)
      (by decide)).2.1 (Or.inl (by decide))).1,
    ((unset_forms_under_ordering (Config.ofList [("f".toList, .null)]) "f".toList (by decide)
      (by decide)).2.1 (Or.inr (by decide))).2⟩

end TfUi
